import Mathlib

/-!
# HPGL text-markup engine (`hpgl.c`)

A shallow embedding of the plotting routines of `hpgl.c` and the properties of
its markup walker `blHPGLShowText`.

Modelling conventions:

* `REAL` (a C `double`) is modelled by the exact rationals in the embedding of
  the text functions.  The functions whose properties depend on the rounding
  of `double` arithmetic (`blHPGLMove`, `blHPGLDraw`, `blHPGLLText` and
  `blHPGLFont`) are embedded a second time, under `Fl.`, with a rounding
  operator applied to every floating operation; `fl64` is the rounding to the
  nearest `double` (IEEE 754 binary64, ties to even, every operation rounded
  once as with `FLT_EVAL_METHOD` 0), and with the identity as rounding the
  second embedding is the first.
* C `int` values are modelled by unbounded integers.  Where an `int` meets the
  unsigned result of `strlen`, the arithmetic is done as C does it: in
  `size_t` (64 bits, modulo `2 ^ 64`), and converted back to `int` modulo
  `2 ^ 32`.
* A C string is the list of its characters before the terminating NUL; the
  pointer `text + i` is the unread suffix of that list, and reading the
  terminator yields `NUL`.
* The accumulator `buffer[0..j)` is a list whose length is `j`.
* Every `sprintf(OutBuff, fmt, ...)`/`fputs(OutBuff, file)` pair of the source is
  one constructor of `Cmd`; `Cmd.sprintf` gives the characters that the format
  produces, whatever their number, and `Cmd.written` the part of them that
  reaches the file.  The capacity of `OutBuff` is not part of `Cmd.sprintf`:
  whether a command fits the array is the predicate `Cmd.fitsOutBuff`, and a
  command that does not fit is a write past the end of the array in the
  source.  The file is the list of commands written so far.
* The library functions `blSimplifyText` and `blPS2HPGLFont`, whose source is
  not among the files at hand, are parameters of the functions that call
  them.
* The cases `'^'` and `'_'` of the switch in `blHPGLShowText` are the same code
  up to the shifted position; they are embedded once, with the flag `raise`.
-/

namespace HPGL

/-- The floating type of `MathType.h`, taken as exact rationals. -/
abbrev REAL := ℚ

/-- Capacity of the two character arrays of `blHPGLShowText`. -/
def MAXBUFF : Nat := 160

/-- The string terminator. -/
def NUL : Char := Char.ofNat 0

/-- The opening brace of a braced run. -/
def LBRACE : Char := Char.ofNat 123

/-- The closing brace of a braced run. -/
def RBRACE : Char := Char.ofNat 125

/-- The C cast `(int)r`: truncation toward zero. -/
def toInt (r : REAL) : Int := if 0 ≤ r then ⌊r⌋ else ⌈r⌉

/-- Rounding to the nearest integer, a half to the even neighbour. -/
def roundHalfEven (r : ℚ) : Int :=
  if r - ⌊r⌋ < 1 / 2 then ⌊r⌋
  else if 1 / 2 < r - ⌊r⌋ then ⌊r⌋ + 1
  else if ⌊r⌋ % 2 = 0 then ⌊r⌋ else ⌊r⌋ + 1

/-- The binary exponent of the unit in the last place of the `double` values
near `q`: 52 places below the leading bit of `q`, and not below the exponent
-1074 of the subnormal numbers. -/
def ulpExp (q : ℚ) : Int := max (Int.log 2 |q|) (-1022) - 52

/-- The `double` (IEEE 754 binary64) nearest to `q`, a tie going to the even
significand: the result of a floating operation whose exact result is `q`.
Infinities are not modelled: beyond the largest `double` the function still
rounds to 53 significant bits. -/
def fl64 (q : ℚ) : ℚ := roundHalfEven (q / 2 ^ ulpExp q) * 2 ^ ulpExp q

/-- What `%s` and `fputs` see of a character array: the characters before the
first NUL. -/
def cstr (s : List Char) : List Char := s.takeWhile (fun c => c != NUL)

/-- Pad on the left with blanks to a minimum field width. -/
def padLeft (width : Nat) (s : List Char) : List Char :=
  List.replicate (width - s.length) ' ' ++ s

/-- The conversion `%d`. -/
def fmtD (n : Int) : List Char :=
  if n < 0 then '-' :: Nat.toDigits 10 n.natAbs else Nat.toDigits 10 n.natAbs

/-- The conversion `%.<prec>f`: the value rounded to `prec` decimals, a half to
the even neighbour. -/
def fmtF (prec : Nat) (r : REAL) : List Char :=
  let scaled : Nat := (roundHalfEven (|r| * (10 : ℚ) ^ prec)).toNat
  let frac := Nat.toDigits 10 (scaled % 10 ^ prec)
  (if r < 0 then ['-'] else []) ++ Nat.toDigits 10 (scaled / 10 ^ prec) ++ ['.']
    ++ List.replicate (prec - frac.length) '0' ++ frac

/-- The globals of `plotting.h` that `hpgl.c` reads. -/
structure Plotting where
  PSxpicsize : REAL
  PSypicsize : REAL
  PSxoffset : REAL
  PSyoffset : REAL

/-- One write to the plot file: a format of `hpgl.c` with its arguments. -/
inductive Cmd where
  /-- `"IN; IP%d,%d,%d,%d;\n"` -/
  | init (xoff yoff x1 y1 : Int)
  /-- `"SC0,10000,0,10000;DT\\;\n"` -/
  | scale
  /-- `"CA%d;SS;\n"` -/
  | altFont (n : Int)
  /-- `"PU;CS%d;SS;SI%5.3f, %5.3f;\n"` -/
  | font (font : Int) (w h : REAL)
  /-- `"PU;PA%d, %d;"` -/
  | textPos (x y : Int)
  /-- `"LB%s\\;"` -/
  | label (buffer : List Char)
  /-- `"SA;LB%c\\;SS;"` -/
  | greek (c : Char)
  /-- `"PU;PA%d,%d;"` -/
  | shiftPos (x y : Int)
  /-- `"PU;SI%f,%f;LB%s\\;PU;SI%f,%f;"` with the arguments
  `fixwidth, fixheight/2.0, buffer, fixwidth, fixheight` -/
  | shifted (fixwidth fixheight : REAL) (buffer : List Char)
  /-- `fputs("\n", sHPGLFile)` -/
  | newline
  /-- `"PU;PA%d, %d;\n"` -/
  | moveLine (x y : Int)
  /-- `"PD;PA%d, %d;\n"` -/
  | drawLine (x y : Int)
  /-- `"PU;SI%5.3f, %5.3f;\n"` -/
  | size (w h : REAL)
  /-- `"PU;PA%d,%d;DR0,1;"` -/
  | vertPos (x y : Int)
  /-- `fputs` of a string constant -/
  | literal (text : List Char)
  deriving DecidableEq

/-- The characters that the format of a command produces (the contents of the
output array before its terminating NUL). -/
def Cmd.sprintf : Cmd → List Char
  | .init xoff yoff x1 y1 =>
      "IN; IP".toList ++ fmtD xoff ++ [','] ++ fmtD yoff ++ [','] ++ fmtD x1 ++ [',']
        ++ fmtD y1 ++ [';', '\n']
  | .scale => "SC0,10000,0,10000;DT\\;\n".toList
  | .altFont n => "CA".toList ++ fmtD n ++ ";SS;\n".toList
  | .font f w h =>
      "PU;CS".toList ++ fmtD f ++ ";SS;SI".toList ++ padLeft 5 (fmtF 3 w) ++ [',', ' ']
        ++ padLeft 5 (fmtF 3 h) ++ [';', '\n']
  | .textPos x y => "PU;PA".toList ++ fmtD x ++ [',', ' '] ++ fmtD y ++ [';']
  | .label buffer => "LB".toList ++ cstr buffer ++ ['\\', ';']
  | .greek c => "SA;LB".toList ++ [c] ++ "\\;SS;".toList
  | .shiftPos x y => "PU;PA".toList ++ fmtD x ++ [','] ++ fmtD y ++ [';']
  | .shifted fixwidth fixheight buffer =>
      "PU;SI".toList ++ fmtF 6 fixwidth ++ [','] ++ fmtF 6 (fixheight / 2) ++ ";LB".toList
        ++ cstr buffer ++ "\\;PU;SI".toList ++ fmtF 6 fixwidth ++ [','] ++ fmtF 6 fixheight
        ++ [';']
  | .newline => ['\n']
  | .moveLine x y => "PU;PA".toList ++ fmtD x ++ [',', ' '] ++ fmtD y ++ [';', '\n']
  | .drawLine x y => "PD;PA".toList ++ fmtD x ++ [',', ' '] ++ fmtD y ++ [';', '\n']
  | .size w h =>
      "PU;SI".toList ++ padLeft 5 (fmtF 3 w) ++ [',', ' '] ++ padLeft 5 (fmtF 3 h)
        ++ [';', '\n']
  | .vertPos x y => "PU;PA".toList ++ fmtD x ++ [','] ++ fmtD y ++ ";DR0,1;".toList
  | .literal text => text

/-- The characters that reach the file when a command is written. -/
def Cmd.written (c : Cmd) : List Char := cstr c.sprintf

/-- The text of the plot file. -/
def stream (file : List Cmd) : List Char := (file.map Cmd.written).flatten

/-- The static variables of `hpgl.c`. -/
structure HPGLState where
  sFontHeight : Int
  sFontWidth : Int
  sFontHcm : REAL
  sFontWcm : REAL
  sHPGLFile : List Cmd

/-- Write one command to the plot file. -/
def fputs (c : Cmd) (s : HPGLState) : HPGLState :=
  { s with sHPGLFile := s.sHPGLFile ++ [c] }

/-- The code `blHPGLInit`; `fopenOk` says whether the file could be opened and
`blPS2HPGLFont` is the font table of the library. -/
def blHPGLInit (ps : Plotting) (s : HPGLState) (fopenOk : Bool)
    (blPS2HPGLFont : List Char → Int) (AltFont : List Char) (xmargin ymargin : REAL) :
    Bool × HPGLState :=
  if !fopenOk then (false, s)
  else
    let HPGLAltFont := blPS2HPGLFont AltFont
    let xoff := toInt ((ps.PSxoffset - xmargin) * 1024)
    let yoff := toInt ((ps.PSyoffset - ymargin) * 1024)
    let s := { s with sHPGLFile := [] }
    let s := fputs (.init xoff yoff (toInt (ps.PSxpicsize * 1024) + xoff)
      (toInt (ps.PSypicsize * 1024) + yoff)) s
    let s := fputs .scale s
    let s := fputs (.altFont HPGLAltFont) s
    (true, s)

/-- The code `blHPGLFont`. -/
def blHPGLFont (ps : Plotting) (s : HPGLState) (font : Int) (size : REAL) : HPGLState :=
  let sFontHcm := size * 2.54 / (1.7 * 72.0)
  let sFontWcm := sFontHcm / 2.4
  let s := { s with sFontHcm := sFontHcm, sFontWcm := sFontWcm }
  let s := fputs (.font font sFontWcm sFontHcm) s
  let s := { s with sFontHeight := toInt ((size * 10000.0) / (72.0 * ps.PSypicsize)) }
  let width := sFontHcm * 0.6154
  let width := width / 2.54
  let width := width * (10000.0 / ps.PSxpicsize)
  { s with sFontWidth := toInt width }

/-- The block `if(j) { buffer[j] = '\0'; sprintf(OutBuff,"LB%s\\;",buffer);
fputs(OutBuff,sHPGLFile); j = 0; }`; the caller resets the accumulator. -/
def flush (buffer : List Char) (s : HPGLState) : HPGLState :=
  if buffer.length ≠ 0 then fputs (.label buffer) s else s

/-- The loop `while(text[++i] != '}' && text[i] != '\0' && j<MAXBUFF-1)` of a
braced run.  The first argument is the suffix at the character under test;
the result is the suffix at which the loop stopped, the accumulator and the
character count. -/
def collectRun : List Char → List Char → Nat → List Char × List Char × Nat
  | [], buffer, chcount => ([], buffer, chcount)
  | c :: rest, buffer, chcount =>
      if c ≠ RBRACE ∧ c ≠ NUL ∧ buffer.length < MAXBUFF - 1 then
        collectRun rest (buffer ++ [c]) (chcount + 1)
      else (c :: rest, buffer, chcount)

/-- The position of a raised (`raise = true`) or lowered run. -/
def shiftedPos (ps : Plotting) (s : HPGLState) (orientation raise : Bool)
    (XBase YBase : Int) (chcount : Nat) : Cmd :=
  if orientation then
    .shiftPos
      (if raise then XBase - Int.tdiv s.sFontHeight 2 else XBase + Int.tdiv s.sFontHeight 4)
      (toInt (YBase + ps.PSxpicsize * chcount * s.sFontWidth / ps.PSypicsize))
  else
    .shiftPos (XBase + chcount * s.sFontWidth)
      (if raise then YBase + Int.tdiv s.sFontHeight 2 else YBase - Int.tdiv s.sFontHeight 4)

/-- The position on the base line after a shifted run. -/
def resetPos (ps : Plotting) (s : HPGLState) (orientation : Bool)
    (XBase YBase : Int) (chcount : Nat) : Cmd :=
  if orientation then
    .shiftPos XBase (toInt (YBase + ps.PSxpicsize * chcount * s.sFontWidth / ps.PSypicsize))
  else
    .shiftPos (XBase + chcount * s.sFontWidth) YBase

/-- The block that writes a raised or lowered string when `j` is not zero. -/
def putShifted (ps : Plotting) (orientation : Bool) (buffer : List Char)
    (s : HPGLState) : HPGLState :=
  if buffer.length ≠ 0 then
    let fixwidth := if orientation then s.sFontWcm * ps.PSxpicsize / ps.PSypicsize
      else s.sFontWcm
    let fixheight := if orientation then s.sFontHcm * ps.PSypicsize / ps.PSxpicsize
      else s.sFontHcm
    fputs (.shifted fixwidth fixheight buffer) s
  else s

/-- The walk of `blHPGLShowText` over the text.  `rest` is the suffix at
`text[i]`; the result is the state and the accumulator at loop exit, and
`none` when the fuel is used up. -/
def showLoop (ps : Plotting) (orientation : Bool) (XBase YBase : Int) :
    Nat → HPGLState → List Char → List Char → Nat → Bool → Option (HPGLState × List Char)
  | 0, _, _, _, _, _ => none
  | fuel + 1, s, rest, buffer, chcount, first =>
    match rest with
    | [] => some (s, buffer)
    | c :: rest1 =>
      if ¬ buffer.length < MAXBUFF - 1 then some (s, buffer)
      else if c = '\\' then
        let s := flush buffer s
        let s := fputs (.greek (rest1.headD NUL)) s
        showLoop ps orientation XBase YBase fuel s (rest1.drop 1) [] (chcount + 1) first
      else if c = '^' ∨ c = '_' then
        let raise : Bool := c = '^'
        let s := flush buffer s
        let chcount := if first && orientation then chcount + 1 else chcount
        let s := fputs (shiftedPos ps s orientation raise XBase YBase chcount) s
        let run : List Char × List Char × Nat :=
          if rest1.headD NUL = LBRACE then collectRun (rest1.drop 1) [] chcount
          else (rest1, [rest1.headD NUL], chcount + 1)
        let s := putShifted ps orientation run.2.1 s
        let s := fputs (resetPos ps s orientation XBase YBase run.2.2) s
        showLoop ps orientation XBase YBase fuel s (run.1.drop 1) [] run.2.2 false
      else
        showLoop ps orientation XBase YBase fuel s rest1 (buffer ++ [c]) (chcount + 1) first

/-- The code `blHPGLShowText`. -/
def blHPGLShowText (ps : Plotting) (s : HPGLState) (text : List Char) (orientation : Bool)
    (XBase YBase : Int) : Option HPGLState :=
  match showLoop ps orientation XBase YBase (text.length + 1) s text [] 0 true with
  | none => none
  | some (s, buffer) =>
    let s := flush buffer s
    some (if text.length ≠ 0 then fputs .newline s else s)

/-- The code `blHPGLLText`. -/
def blHPGLLText (ps : Plotting) (s : HPGLState) (x y : REAL) (string : List Char) :
    Option HPGLState :=
  let s := fputs (.textPos (toInt (10000.0 * x)) (toInt (10000.0 * y))) s
  blHPGLShowText ps s string false (toInt (10000.0 * x)) (toInt (10000.0 * y))

/-- The code `blHPGLMove`. -/
def blHPGLMove (s : HPGLState) (x y : REAL) : HPGLState :=
  fputs (.moveLine (toInt (10000 * x)) (toInt (10000 * y))) s

/-- The code `blHPGLDraw`. -/
def blHPGLDraw (s : HPGLState) (x y : REAL) : HPGLState :=
  fputs (.drawLine (toInt (10000 * x)) (toInt (10000 * y))) s

/-- The code `blHPGLMove` in the arithmetic of the floating type: `fl` rounds the
exact result of an operation to a value of the type (`fl64` for `double`,
the identity for exact arithmetic).  The factor 10000 is a value of the
type. -/
def Fl.blHPGLMove (fl : REAL → REAL) (s : HPGLState) (x y : REAL) : HPGLState :=
  fputs (.moveLine (toInt (fl (10000 * x))) (toInt (fl (10000 * y)))) s

/-- The code `blHPGLDraw` in the arithmetic of the floating type. -/
def Fl.blHPGLDraw (fl : REAL → REAL) (s : HPGLState) (x y : REAL) : HPGLState :=
  fputs (.drawLine (toInt (fl (10000 * x))) (toInt (fl (10000 * y)))) s

/-- The code `blHPGLLText` in the arithmetic of the floating type. -/
def Fl.blHPGLLText (fl : REAL → REAL) (ps : Plotting) (s : HPGLState) (x y : REAL)
    (string : List Char) : Option HPGLState :=
  let s := fputs (.textPos (toInt (fl (10000.0 * x))) (toInt (fl (10000.0 * y)))) s
  blHPGLShowText ps s string false (toInt (fl (10000.0 * x))) (toInt (fl (10000.0 * y)))

/-- The code `blHPGLFont` in the arithmetic of the floating type: every
operation is rounded by `fl`, and so is every constant that is not a value of
the type (2.54, 1.7, 2.4 and 0.6154; 72.0 and 10000.0 are values of the
type). -/
def Fl.blHPGLFont (fl : REAL → REAL) (ps : Plotting) (s : HPGLState) (font : Int)
    (size : REAL) : HPGLState :=
  let sFontHcm := fl (fl (size * fl 2.54) / fl (fl 1.7 * 72.0))
  let sFontWcm := fl (sFontHcm / fl 2.4)
  let s := { s with sFontHcm := sFontHcm, sFontWcm := sFontWcm }
  let s := fputs (.font font sFontWcm sFontHcm) s
  let s := { s with
    sFontHeight := toInt (fl (fl (size * 10000.0) / fl (72.0 * ps.PSypicsize))) }
  let width := fl (sFontHcm * fl 0.6154)
  let width := fl (width / fl 2.54)
  let width := fl (width * fl (10000.0 / ps.PSxpicsize))
  { s with sFontWidth := toInt width }

/-- The code `blHPGLSetDash`: a switch over the styles 0 to 5 without default
case. -/
def blHPGLSetDash (s : HPGLState) (style : Int) : HPGLState :=
  if style = 0 then fputs (.literal "LT;\n".toList) s
  else if style = 1 then fputs (.literal "LT1,2;\n".toList) s
  else if style = 2 then fputs (.literal "LT4,3;\n".toList) s
  else if style = 3 then fputs (.literal "LT2,3;\n".toList) s
  else if style = 4 then fputs (.literal "LT6,3;\n".toList) s
  else if style = 5 then fputs (.literal "LT5,3;\n".toList) s
  else s

/-- Conversion of an `int` to `size_t`. -/
def toSizeT (i : Int) : Nat := (i % (2 ^ 64 : Int)).toNat

/-- Conversion of a `size_t` value to `int`: modulo `2 ^ 32`, into the range of
`int`. -/
def sizeToInt (n : Nat) : Int := Int.bmod n (2 ^ 32)

/-- The product `strlen(...) * sFontWidth`: the `int` is converted to `size_t`
and the product is taken in `size_t`. -/
def strlenTimes (n : Nat) (w : Int) : Nat := (n * toSizeT w) % 2 ^ 64

/-- The assignment `xpos -= e` for an `int` `xpos` and a `size_t` value `e`: the
difference is taken in `size_t` and converted to `int`. -/
def subSize (xpos : Int) (e : Nat) : Int :=
  sizeToInt ((toSizeT xpos + (2 ^ 64 - e % 2 ^ 64)) % 2 ^ 64)

/-- The code `blHPGLCBText`; `blSimplifyText` is the text simplifier of the
library. -/
def blHPGLCBText (ps : Plotting) (s : HPGLState) (blSimplifyText : List Char → List Char)
    (x y offset : REAL) (text : List Char) : Option HPGLState :=
  let xpos := toInt (10000.0 * x)
  let xpos := subSize xpos (strlenTimes (blSimplifyText text).length s.sFontWidth / 2)
  let xpos := xpos + Int.tdiv s.sFontWidth 6
  let ypos := toInt (10000.0 * y)
  let ypos := ypos - toInt (offset * s.sFontHeight)
  let s := fputs (.textPos xpos ypos) s
  blHPGLShowText ps s text false xpos ypos

/-- The code `blHPGLROffText`. -/
def blHPGLROffText (ps : Plotting) (s : HPGLState) (blSimplifyText : List Char → List Char)
    (x y offset : REAL) (text : List Char) : Option HPGLState :=
  let xpos := toInt (10000.0 * x)
  let xpos := subSize xpos (strlenTimes (blSimplifyText text).length s.sFontWidth)
  let xpos := xpos + Int.tdiv s.sFontWidth 6
  let xpos := xpos + toInt ((offset * 10000.0) / (72.0 * ps.PSxpicsize))
  let ypos := toInt (10000.0 * y)
  let ypos := ypos - toInt (1.0 * s.sFontHeight / 3.0)
  let s := fputs (.moveLine xpos ypos) s
  blHPGLShowText ps s text false xpos ypos

/-- The code `blHPGLLCText`. -/
def blHPGLLCText (ps : Plotting) (s : HPGLState) (x y : REAL) (text : List Char) :
    Option HPGLState :=
  let xpos := toInt (10000.0 * x)
  let ypos := toInt (10000.0 * y)
  let ypos := ypos - toInt (1.0 * s.sFontHeight / 3.0)
  let s := fputs (.textPos xpos ypos) s
  blHPGLShowText ps s text false xpos ypos

/-- The code `blHPGLCTText`: here the product `strlen(...) * sFontWidth` is
divided by the floating constant `2.0`, and the difference is truncated. -/
def blHPGLCTText (ps : Plotting) (s : HPGLState) (blSimplifyText : List Char → List Char)
    (x y offset : REAL) (text : List Char) : Option HPGLState :=
  let xpos := toInt (10000.0 * x)
  let xpos := toInt ((xpos : REAL)
    - (strlenTimes (blSimplifyText text).length s.sFontWidth : REAL) / 2.0)
  let xpos := xpos + Int.tdiv s.sFontWidth 6
  let ypos := toInt (10000.0 * y)
  let ypos := ypos - s.sFontHeight
  let ypos := ypos + toInt ((offset * 10000.0) / (72.0 * ps.PSypicsize))
  let s := fputs (.moveLine xpos ypos) s
  blHPGLShowText ps s text false xpos ypos

set_option linter.unusedVariables false in
/-- The code `blHPGLVText`, with `FIXVERT` defined as in the source. -/
def blHPGLVText (ps : Plotting) (s : HPGLState) (blSimplifyText : List Char → List Char)
    (x y xoff : REAL) (text : List Char) (TitleFont : Int) (TitleSize : REAL)
    (label : List Char) (LabelFont : Int) (LabelSize : REAL) : Option HPGLState :=
  let LabelWidth : REAL := (blSimplifyText label).length * (LabelSize * 10000.0)
    / (2.0 * 72.0 * ps.PSxpicsize)
  let xoff := xoff * (10000.0 / (72.0 * ps.PSxpicsize))
  let x := x * 10000.0
  let y := y * 10000.0
  let x := x - LabelWidth
  let x := x + xoff
  let y := y - (strlenTimes (blSimplifyText text).length s.sFontWidth / 2 : Nat)
  let y := y + (Int.tdiv s.sFontWidth 6 : Int)
  let height := TitleSize * 2.54 / (1.7 * 72.0)
  let width := height / 2.0
  let fixwidth := width * ps.PSxpicsize / ps.PSypicsize
  let fixheight := height * ps.PSypicsize / ps.PSxpicsize
  let s := fputs (.size fixwidth fixheight) s
  let s := fputs (.vertPos (toInt x) (toInt y)) s
  match blHPGLShowText ps s text true (toInt x) (toInt y) with
  | none => none
  | some s =>
    let s := fputs (.literal "DR;\n".toList) s
    some (fputs (.size width height) s)

/-! ## The accesses of `blHPGLShowText` to the text and to the accumulator -/

/-- The places where `blHPGLShowText` reads a character of `text`. -/
inductive Site where
  /-- The subject `text[i]` of the `switch`. -/
  | switch
  /-- The argument `text[++i]` of the Greek label. -/
  | greek
  /-- The test `text[++i] == '{'` after a caret or an underscore. -/
  | brace
  /-- The test `text[++i] != '}'` of the braced loop. -/
  | runTest
  /-- The test `text[i] != '\0'` of the braced loop. -/
  | runEnd
  /-- The right-hand side of `buffer[j++] = text[i]`. -/
  | copy
  deriving DecidableEq

/-- One access of `blHPGLShowText` to `text` or to the accumulator `buffer`:
the read of `text[i]` at a place, the write `buffer[j++] = text[i]` at index
`j`, or the write `buffer[j] = '\0'` at index `j`. -/
inductive Access where
  | read (site : Site) (i : Nat)
  | put (j : Nat)
  | nul (j : Nat)
  deriving DecidableEq

/-- The character `text[i]` of a C string whose characters before the
terminator are `text`: the terminator at index `strlen(text)`. -/
def charAt (text : List Char) (i : Nat) : Char := text.getD i NUL

/-- The write `buffer[j] = '\0'` of the block `if(j) { buffer[j] = '\0'; ... }`. -/
def flushLog (buffer : List Char) : List Access :=
  if buffer.length ≠ 0 then [.nul buffer.length] else []

/-- The loop `while(text[++i] != '}' && text[i] != '\0' && j<MAXBUFF-1)` of a
braced run with the index `i` and the accesses it makes, in order.  The result
is the index at which the loop stopped, the accumulator, the character count
and the accesses; `none` when the fuel is used up. -/
def collectRunLog (text : List Char) :
    Nat → Nat → List Char → Nat → List Access → Option (Nat × List Char × Nat × List Access)
  | 0, _, _, _, _ => none
  | fuel + 1, i, buffer, chcount, log =>
      let i := i + 1
      let log := log ++ [.read .runTest i]
      if charAt text i ≠ RBRACE then
        let log := log ++ [.read .runEnd i]
        if charAt text i ≠ NUL ∧ buffer.length < MAXBUFF - 1 then
          collectRunLog text fuel i (buffer ++ [charAt text i]) (chcount + 1)
            (log ++ [.read .copy i] ++ [.put buffer.length])
        else some (i, buffer, chcount, log)
      else some (i, buffer, chcount, log)

/-- The walk of `blHPGLShowText` with the index `i` of the code in place of the
rest of the text, and with the accesses to `text` and `buffer` that the walk
makes, in order.  The reads that `strlen(text)` makes in the loop test are
those of the library and are not listed.  The result is the state, the
accumulator and the accesses at loop exit; `none` when the fuel is used
up. -/
def showLoopLog (ps : Plotting) (orientation : Bool) (XBase YBase : Int) (text : List Char) :
    Nat → HPGLState → Nat → List Char → Nat → Bool → List Access →
      Option (HPGLState × List Char × List Access)
  | 0, _, _, _, _, _, _ => none
  | fuel + 1, s, i, buffer, chcount, first, log =>
    if ¬ (i < text.length ∧ buffer.length < MAXBUFF - 1) then some (s, buffer, log)
    else
      let log := log ++ [.read .switch i]
      if charAt text i = '\\' then
        let log := log ++ flushLog buffer
        let s := flush buffer s
        let i := i + 1
        let log := log ++ [.read .greek i]
        let s := fputs (.greek (charAt text i)) s
        showLoopLog ps orientation XBase YBase text fuel s (i + 1) [] (chcount + 1) first log
      else if charAt text i = '^' ∨ charAt text i = '_' then
        let raise : Bool := charAt text i = '^'
        let log := log ++ flushLog buffer
        let s := flush buffer s
        let chcount := if first && orientation then chcount + 1 else chcount
        let s := fputs (shiftedPos ps s orientation raise XBase YBase chcount) s
        let i := i + 1
        let log := log ++ [.read .brace i]
        let run : Option (Nat × List Char × Nat × List Access) :=
          if charAt text i = LBRACE then collectRunLog text (text.length + 1) i [] chcount log
          else some (i, [charAt text i], chcount + 1, log ++ [.read .copy i] ++ [.put 0])
        match run with
        | none => none
        | some (i, buffer, chcount, log) =>
          let log := log ++ flushLog buffer
          let s := putShifted ps orientation buffer s
          let s := fputs (resetPos ps s orientation XBase YBase chcount) s
          showLoopLog ps orientation XBase YBase text fuel s (i + 1) [] chcount false log
      else
        showLoopLog ps orientation XBase YBase text fuel s (i + 1) (buffer ++ [charAt text i])
          (chcount + 1) first (log ++ [.read .copy i] ++ [.put buffer.length])

/-- The code `blHPGLShowText` with the accesses it makes to `text` and to
`buffer`, in order. -/
def blHPGLShowTextLog (ps : Plotting) (s : HPGLState) (text : List Char) (orientation : Bool)
    (XBase YBase : Int) : Option (HPGLState × List Access) :=
  match showLoopLog ps orientation XBase YBase text (text.length + 1) s 0 [] 0 true [] with
  | none => none
  | some (s, buffer, log) =>
    let log := log ++ flushLog buffer
    let s := flush buffer s
    some (if text.length ≠ 0 then fputs .newline s else s, log)

/-! ## The keyboard response of `WindIO.c` -/

/-- The code `blYorN`.  `buffer` is the character array after the call
`blGetKybdString(buffer, 20)`, up to its terminator; `buffer[0]` is its first
character, or the terminator when the array holds the empty string. -/
def blYorN (buffer : List Char) (deflt : Char) : Int :=
  let response := buffer.headD NUL
  let response :=
    if response ≠ 'Y' ∧ response ≠ 'y' ∧ response ≠ 'N' ∧ response ≠ 'n'
        ∧ response ≠ 'A' ∧ response ≠ 'a' ∧ response ≠ 'Q' ∧ response ≠ 'q'
    then deflt else response
  if response = 'Y' ∨ response = 'y' then 1
  else if response = 'N' ∨ response = 'n' then 0
  else if response = 'A' ∨ response = 'a' then 2
  else if response = 'Q' ∨ response = 'q' then 3
  else 0

/-! ## The PDB writer of `WriteGromosPDB.c` -/

/-- The fields of a PDB record that `blWriteGromosPDBRecord` prints. -/
structure PDB where
  record_type : List Char
  atnum : Int
  atnam : List Char
  resnam : List Char
  chain : List Char
  resnum : Int
  insert : List Char
  x : REAL
  y : REAL
  z : REAL
  occ : REAL
  bval : REAL

/-- One `fprintf` to the PDB file. -/
inductive PDBLine where
  /-- `"TER   \n"` -/
  | ter
  /-- `"%-6s%5d  %-4s%-4s%1s%4d%1s   %8.3f%8.3f%8.3f%6.2f%6.2f\n"` -/
  | record (pdb : PDB)

/-- Pad on the right with blanks to a minimum field width. -/
def padRight (width : Nat) (s : List Char) : List Char :=
  s ++ List.replicate (width - s.length) ' '

/-- The characters of a line of the PDB file. -/
def PDBLine.fprintf : PDBLine → List Char
  | .ter => "TER   \n".toList
  | .record pdb =>
      padRight 6 (cstr pdb.record_type) ++ padLeft 5 (fmtD pdb.atnum) ++ [' ', ' ']
        ++ padRight 4 (cstr pdb.atnam) ++ padRight 4 (cstr pdb.resnam)
        ++ padLeft 1 (cstr pdb.chain) ++ padLeft 4 (fmtD pdb.resnum)
        ++ padLeft 1 (cstr pdb.insert) ++ [' ', ' ', ' ']
        ++ padLeft 8 (fmtF 3 pdb.x) ++ padLeft 8 (fmtF 3 pdb.y) ++ padLeft 8 (fmtF 3 pdb.z)
        ++ padLeft 6 (fmtF 2 pdb.occ) ++ padLeft 6 (fmtF 2 pdb.bval) ++ ['\n']

/-- The code `blWriteGromosPDBRecord`; the file is the list of lines written so
far. -/
def blWriteGromosPDBRecord (fp : List PDBLine) (pdb : PDB) : List PDBLine :=
  fp ++ [.record pdb]

/-- The loop `for(p = pdb ; p ; NEXT(p))` of `blWriteGromosPDB`, over the
records from `p` on.  `CHAINMATCH` is the macro of `macros.h`. -/
def writeLoop (CHAINMATCH : List Char → List Char → Bool) :
    List Char → List PDB → List PDBLine → List PDBLine
  | _, [], fp => fp
  | PrevChain, p :: rest, fp =>
      if !CHAINMATCH PrevChain p.chain then
        writeLoop CHAINMATCH p.chain rest (blWriteGromosPDBRecord (fp ++ [.ter]) p)
      else
        writeLoop CHAINMATCH PrevChain rest (blWriteGromosPDBRecord fp p)

/-- The code `blWriteGromosPDB`.  The linked list is the list of its records;
for the empty list the code dereferences the null pointer, which is `none`. -/
def blWriteGromosPDB (CHAINMATCH : List Char → List Char → Bool) (fp : List PDBLine)
    (pdb : List PDB) : Option (List PDBLine) :=
  match pdb with
  | [] => none
  | first :: _ => some (writeLoop CHAINMATCH first.chain pdb fp ++ [.ter])

/-! ## Vocabulary of the properties -/

/-- The state after the commands `cmds` have been written to the plot file. -/
def emit (cmds : List Cmd) (s : HPGLState) : HPGLState :=
  { s with sHPGLFile := s.sHPGLFile ++ cmds }

/-- The label command that the flush of the accumulator writes, if any. -/
def labelCmds (b : List Char) : List Cmd := if b = [] then [] else [.label b]

/-- The command that writes a raised or lowered string, if the accumulator is
not empty. -/
def runCmds (ps : Plotting) (s : HPGLState) (orientation : Bool) (b : List Char) : List Cmd :=
  if b = [] then []
  else [.shifted (if orientation then s.sFontWcm * ps.PSxpicsize / ps.PSypicsize else s.sFontWcm)
    (if orientation then s.sFontHcm * ps.PSypicsize / ps.PSxpicsize else s.sFontHcm) b]

/-- A literal without escape markers: none of its characters is a backslash, a
caret or an underscore. -/
def EscapeFree (p : List Char) : Prop := ∀ c ∈ p, c ≠ '\\' ∧ c ≠ '^' ∧ c ≠ '_'

instance (p : List Char) : Decidable (EscapeFree p) := by
  unfold EscapeFree; infer_instance

/-- The commands that the walk of `blHPGLShowText` writes: labels, Greek labels,
positions, and shifted runs whose size arguments are the width and height of
the font state (corrected by the aspect ratio in vertical orientation). -/
def WalkCmd (ps : Plotting) (s : HPGLState) (orientation : Bool) : Cmd → Prop
  | .label _ => True
  | .greek _ => True
  | .shiftPos _ _ => True
  | .shifted w h _ =>
      w = (if orientation then s.sFontWcm * ps.PSxpicsize / ps.PSypicsize else s.sFontWcm)
      ∧ h = (if orientation then s.sFontHcm * ps.PSypicsize / ps.PSxpicsize else s.sFontHcm)
  | _ => False

/-- An escape of the markup, as the specification describes it: a Greek
character, a single raised or lowered character, or a braced raised or lowered
run.  The marker `m` is the caret or the underscore. -/
inductive Esc where
  | greek (X : Char)
  | shiftChar (m : Char) (X : Char)
  | shiftRun (m : Char) (run : List Char)

/-- The characters of an escape in the text. -/
def Esc.raw : Esc → List Char
  | .greek X => ['\\', X]
  | .shiftChar m X => [m, X]
  | .shiftRun m run => [m, LBRACE] ++ run ++ [RBRACE]

/-- What an escape contributes to the markup-stripped text. -/
def Esc.plain : Esc → List Char
  | .greek X => [X]
  | .shiftChar _ X => [X]
  | .shiftRun _ run => run

/-- A well-formed escape: the marker is followed by a character, a single
shifted character is not the opening brace, and a braced run is closed by the
first closing brace after it and is shorter than 159 characters. -/
def Esc.WellFormed : Esc → Prop
  | .greek X => X ≠ NUL
  | .shiftChar m X => (m = '^' ∨ m = '_') ∧ X ≠ NUL ∧ X ≠ LBRACE
  | .shiftRun m run => (m = '^' ∨ m = '_') ∧ RBRACE ∉ run ∧ NUL ∉ run ∧ run.length < 159

/-- A literal run of a well-formed text: no escape marker, no NUL, shorter than
159 characters. -/
def Literal (p : List Char) : Prop := EscapeFree p ∧ NUL ∉ p ∧ p.length < 159

instance (e : Esc) : Decidable e.WellFormed := by
  cases e <;> (unfold Esc.WellFormed; infer_instance)

instance (p : List Char) : Decidable (Literal p) := by
  unfold Literal; infer_instance

/-- The text made of escapes, each followed by a literal run. -/
def rawItems : List (Esc × List Char) → List Char
  | [] => []
  | (e, p) :: items => e.raw ++ p ++ rawItems items

/-- The markup-stripped form of `rawItems`. -/
def strippedItems : List (Esc × List Char) → List Char
  | [] => []
  | (e, p) :: items => e.plain ++ p ++ strippedItems items

/-- The kinds of commands that `blHPGLShowText` writes. -/
inductive Kind where
  | label
  | greek
  | position
  | run
  | newline
  | other
  deriving DecidableEq

/-- The kind of a command. -/
def Cmd.kind : Cmd → Kind
  | .label _ => .label
  | .greek _ => .greek
  | .shiftPos _ _ => .position
  | .shifted _ _ _ => .run
  | .newline => .newline
  | _ => .other

/-- The payload of the `LB` instruction of a command: the characters that its
format puts between `LB` and the terminator. -/
def Cmd.payload : Cmd → List Char
  | .label b => cstr b
  | .greek c => [c]
  | .shifted _ _ b => cstr b
  | _ => []

/-- The label expected for a literal run: none for the empty run. -/
def literalItems (p : List Char) : List (Kind × List Char) :=
  if p = [] then [] else [(.label, p)]

/-- The commands expected for an escape: a Greek label, or a shifted label (none
for an empty braced run) between two position commands. -/
def Esc.items : Esc → List (Kind × List Char)
  | .greek X => [(.greek, [X])]
  | .shiftChar _ X => [(.position, []), (.run, [X]), (.position, [])]
  | .shiftRun _ run =>
      [(.position, [])] ++ (if run = [] then [] else [(.run, run)]) ++ [(.position, [])]

/-- The commands expected for a pending literal run `p` followed by escapes and
their literal runs: every run is a label of its own, written before the
commands of the escape that follows it. -/
def expectedItems (p : List Char) : List (Esc × List Char) → List (Kind × List Char)
  | [] => literalItems p
  | (e, q) :: items => literalItems p ++ e.items ++ expectedItems q items

/-- Modelled from the spec: the text simplifier `blSimplifyText`, whose source
is not among the files at hand.  It strips every escape marker (backslash,
caret, underscore) and the braces of a braced run, and keeps the characters
that they introduce.  The flag says whether the walk is inside a braced
run. -/
def simplifyFrom : Bool → List Char → List Char
  | _, [] => []
  | true, c :: rest =>
      if c = RBRACE then simplifyFrom false rest else c :: simplifyFrom true rest
  | false, c :: rest =>
      if c = '\\' then
        match rest with
        | [] => []
        | g :: rest2 => g :: simplifyFrom false rest2
      else if c = '^' ∨ c = '_' then
        match rest with
        | [] => []
        | g :: rest2 =>
            if g = LBRACE then simplifyFrom true rest2 else g :: simplifyFrom false rest2
      else c :: simplifyFrom false rest

/-- Modelled from the spec: `simplify(text)`, the markup-stripped form of a
text. -/
def simplifyText (text : List Char) : List Char := simplifyFrom false text

/-- The count that the position of a shifted run uses: the running count after
the block `if(first) { if(orientation) chcount++; first = FALSE; }`. -/
def firstCount (first orientation : Bool) (chcount : Nat) : Nat :=
  if first && orientation then chcount + 1 else chcount

/-- The commands that the walk writes for a well-formed escape when the count
used by its shifted position is `c`. -/
def Esc.cmds (ps : Plotting) (s : HPGLState) (orientation : Bool) (XBase YBase : Int)
    (c : Nat) : Esc → List Cmd
  | .greek G => [.greek G]
  | .shiftChar m G =>
      [shiftedPos ps s orientation (decide (m = '^')) XBase YBase c]
        ++ runCmds ps s orientation [G] ++ [resetPos ps s orientation XBase YBase (c + 1)]
  | .shiftRun m run =>
      [shiftedPos ps s orientation (decide (m = '^')) XBase YBase c]
        ++ runCmds ps s orientation run
        ++ [resetPos ps s orientation XBase YBase (c + run.length)]

/-- The running count after an escape; `ch` is the count before it and `c` the
count used by its shifted position. -/
def Esc.countAfter (c ch : Nat) : Esc → Nat
  | .greek _ => ch + 1
  | .shiftChar _ _ => c + 1
  | .shiftRun _ run => c + run.length

/-- The flag `first` after an escape. -/
def Esc.firstAfter (first : Bool) : Esc → Bool
  | .greek _ => first
  | _ => false

/-- The number of characters in the labels of a list of commands. -/
def payloadLen (cmds : List Cmd) : Nat := (cmds.map Cmd.payload).flatten.length

/-- A position command agrees with the number `k` of characters rendered before
it: in horizontal orientation its x is `XBase + k*W`, in vertical orientation
its y is computed from the count `k + 1`. -/
def posOk (ps : Plotting) (s : HPGLState) (orientation : Bool) (XBase YBase : Int) (k : Nat) :
    Cmd → Prop
  | .shiftPos x y =>
      if orientation then
        y = toInt (YBase + ps.PSxpicsize * ((k + 1 : Nat) : REAL) * s.sFontWidth / ps.PSypicsize)
      else x = XBase + (k : Int) * s.sFontWidth
  | _ => True

/-- Every position command of the list agrees with the number of characters
rendered before it, `k` characters being rendered before the list. -/
def PosCounts (ps : Plotting) (s : HPGLState) (orientation : Bool) (XBase YBase : Int) :
    Nat → List Cmd → Prop
  | _, [] => True
  | k, c :: cs =>
      posOk ps s orientation XBase YBase k c
        ∧ PosCounts ps s orientation XBase YBase (k + c.payload.length) cs

/-- The code that the table of `blYorN` gives to a letter, if it has one. -/
def responseCode (c : Char) : Option Int :=
  if c = 'Y' ∨ c = 'y' then some 1
  else if c = 'N' ∨ c = 'n' then some 0
  else if c = 'A' ∨ c = 'a' then some 2
  else if c = 'Q' ∨ c = 'q' then some 3
  else none

/-- The lines that the documentation of `blWriteGromosPDB` describes for the
records after the first: every record, preceded by a `TER` line when its chain
differs from the chain of the record before it. -/
def recordsWithTer : List Char → List PDB → List PDBLine
  | _, [] => []
  | chainBefore, p :: rest =>
      (if p.chain ≠ chainBefore then [PDBLine.ter] else []) ++ [.record p]
        ++ recordsWithTer p.chain rest

/-- The number of records whose chain differs from the chain of the record
before them. -/
def chainChanges : List PDB → Nat
  | p :: q :: rest => (if q.chain ≠ p.chain then 1 else 0) + chainChanges (q :: rest)
  | _ => 0

/-- The records among the lines of a file, in order. -/
def recordsOf : List PDBLine → List PDB
  | [] => []
  | .ter :: rest => recordsOf rest
  | .record p :: rest => p :: recordsOf rest

/-- The number of `TER` lines of a file. -/
def terCount : List PDBLine → Nat
  | [] => 0
  | .ter :: rest => terCount rest + 1
  | .record _ :: rest => terCount rest

/-- An atom record with the given number and chain label. -/
def demoAtom (atnum : Int) (chain : Char) : PDB :=
  ⟨"ATOM".toList, atnum, "CA".toList, "ALA".toList, [chain], 1, [' '], 0, 0, 0, 1, 20⟩

/-- The reads that advance the index before reading: the subject of the
`switch` (after the `i++` of the loop) and the three `text[++i]`. -/
def Site.advances : Site → Bool
  | .switch => true
  | .greek => true
  | .brace => true
  | .runTest => true
  | .runEnd => false
  | .copy => false

/-- An access within bounds: a read of `text` at an index up to the
terminator, a write of a character to `buffer` below index `MAXBUFF - 1`, a
write of the NUL below index `MAXBUFF`. -/
def Access.InBounds (text : List Char) : Access → Prop
  | .read _ i => i ≤ text.length
  | .put j => j < MAXBUFF - 1
  | .nul j => j < MAXBUFF

/-- The order of two reads, the first made before the second: the index does
not decrease, and it increases when the second read is one that advances. -/
def Access.Before : Access → Access → Prop
  | .read _ i, .read site k => i ≤ k ∧ (site.advances = true → i < k)
  | _, _ => True

/-- A read below the index `bound`. -/
def Access.Below (bound : Nat) : Access → Prop
  | .read _ i => i < bound
  | _ => True

/-- The accesses made so far are in order and within bounds, and the reads are
below `bound`. -/
def LogInv (text : List Char) (bound : Nat) (log : List Access) : Prop :=
  log.Pairwise Access.Before ∧ ∀ a ∈ log, a.InBounds text ∧ a.Below bound

/-- The index of a read made at the place `site`. -/
def Access.readAt (site : Site) : Access → Option Nat
  | .read s i => if s = site then some i else none
  | _ => none

/-- The characters that `sprintf` forms for a command and the terminating NUL
fit the array `OutBuff` of `MAXBUFF` bytes. -/
def Cmd.fitsOutBuff (c : Cmd) : Prop := c.sprintf.length + 1 ≤ MAXBUFF

instance (c : Cmd) : Decidable c.fitsOutBuff := by
  unfold Cmd.fitsOutBuff; infer_instance

/-- The picture size of the end-to-end scenario. -/
def demoPlot : Plotting := ⟨10, 8, 0, 0⟩

/-- The font state after `blHPGLFont(0, 12.0)` on `demoPlot`, with an empty file. -/
def demoState : HPGLState := ⟨208, 60, 127 / 510, 127 / 1224, []⟩

/-! ## Evaluation of the numeric conversions -/

theorem toInt_of_floor (r : REAL) (n : Int) (h0 : 0 ≤ r) (h1 : (n : ℚ) ≤ r) (h2 : r < n + 1) :
    toInt r = n := by
  unfold toInt
  rw [if_pos h0, Int.floor_eq_iff]
  exact ⟨h1, h2⟩

theorem roundHalfEven_error (r : ℚ) : |(roundHalfEven r : ℚ) - r| ≤ 1 / 2 := by
  have h1 := Int.floor_le r
  have h2 := Int.lt_floor_add_one r
  unfold roundHalfEven
  split
  · rw [abs_le]; constructor <;> linarith
  · split
    · rw [abs_le]; push_cast; constructor <;> linarith
    · split
      · rw [abs_le]; constructor <;> linarith
      · rw [abs_le]; push_cast; constructor <;> linarith

theorem roundHalfEven_eq_of_near (r : ℚ) (m : Int) (h : |r - m| < 1 / 2) :
    roundHalfEven r = m := by
  rw [abs_lt] at h
  have h1 := Int.floor_le r
  have h2 := Int.lt_floor_add_one r
  have hf : ⌊r⌋ = m ∨ ⌊r⌋ = m - 1 := by
    have a : ((m - 1 : Int) : ℚ) < ⌊r⌋ + 1 := by push_cast; linarith
    have b : ((⌊r⌋ : Int) : ℚ) < ((m + 1 : Int) : ℚ) := by push_cast; linarith
    have a2 : m - 1 < ⌊r⌋ + 1 := by exact_mod_cast a
    have b2 : ⌊r⌋ < m + 1 := by exact_mod_cast b
    omega
  unfold roundHalfEven
  rcases hf with hf | hf
  · have : r - ⌊r⌋ < 1 / 2 := by rw [hf]; linarith
    rw [if_pos this, hf]
  · have hc : ((⌊r⌋ : Int) : ℚ) = m - 1 := by rw [hf]; push_cast; ring
    have n1 : ¬ r - ⌊r⌋ < 1 / 2 := by rw [hc]; linarith
    have n2 : 1 / 2 < r - ⌊r⌋ := by rw [hc]; linarith
    rw [if_neg n1, if_pos n2, hf]; ring

theorem roundHalfEven_nonneg (r : ℚ) (h : 0 ≤ r) : 0 ≤ roundHalfEven r := by
  have hf : 0 ≤ ⌊r⌋ := Int.floor_nonneg.mpr h
  unfold roundHalfEven
  split
  · exact hf
  · split
    · omega
    · split <;> omega

theorem roundHalfEven_le_of_le (r : ℚ) (n : Int) (h : r ≤ n) : roundHalfEven r ≤ n := by
  have h1 := Int.floor_le r
  have hf : ⌊r⌋ ≤ n := by
    have : ((⌊r⌋ : Int) : ℚ) ≤ (n : ℚ) := le_trans h1 h
    exact_mod_cast this
  unfold roundHalfEven
  split
  · exact hf
  · rename_i hn
    have hlt : ⌊r⌋ < n := by
      rcases lt_or_eq_of_le hf with hlt | heq
      · exact hlt
      · exfalso
        apply hn
        rw [heq]
        linarith
    split
    · omega
    · split <;> omega

theorem ulpExp_ge (q : ℚ) : -1074 ≤ ulpExp q := by
  unfold ulpExp
  have := le_max_right (Int.log 2 |q|) (-1022)
  omega

theorem ulpExp_le (q : ℚ) (k : Int) (h0 : q ≠ 0) (hk : -1022 ≤ k) (hq : |q| < 2 ^ (k + 1)) :
    ulpExp q ≤ k - 52 := by
  unfold ulpExp
  have hpos : 0 < |q| := abs_pos.mpr h0
  have hlog : Int.log 2 |q| < k + 1 :=
    (Int.lt_zpow_iff_log_lt (b := 2) (by norm_num) hpos).mp (by exact_mod_cast hq)
  have := max_le (show Int.log 2 |q| ≤ k by omega) hk
  omega

theorem ulpExp_eq (q : ℚ) (e : Int) (he : -1074 ≤ e) (h1 : 2 ^ (e + 52) ≤ |q|)
    (h2 : |q| < 2 ^ (e + 53)) : ulpExp q = e := by
  unfold ulpExp
  have hpos : 0 < |q| := lt_of_lt_of_le (by positivity) h1
  have hlo : e + 52 ≤ Int.log 2 |q| :=
    (Int.zpow_le_iff_le_log (b := 2) (by norm_num) hpos).mp (by exact_mod_cast h1)
  have hhi : Int.log 2 |q| < e + 53 :=
    (Int.lt_zpow_iff_log_lt (b := 2) (by norm_num) hpos).mp (by exact_mod_cast h2)
  have : Int.log 2 |q| = e + 52 := by omega
  rw [this, max_eq_left (by omega)]
  omega

theorem fl64_zero : fl64 0 = 0 := by
  unfold fl64
  rw [zero_div]
  have : roundHalfEven 0 = 0 := by
    unfold roundHalfEven
    norm_num
  rw [this]
  norm_num

theorem fl64_sub_le (q : ℚ) : |fl64 q - q| ≤ 2 ^ ulpExp q / 2 := by
  have hu : (0 : ℚ) < 2 ^ ulpExp q := by positivity
  have h := roundHalfEven_error (q / 2 ^ ulpExp q)
  have e : fl64 q - q = ((roundHalfEven (q / 2 ^ ulpExp q) : ℚ) - q / 2 ^ ulpExp q)
      * 2 ^ ulpExp q := by
    unfold fl64
    field_simp
  rw [e, abs_mul, abs_of_pos hu]
  calc |(roundHalfEven (q / 2 ^ ulpExp q) : ℚ) - q / 2 ^ ulpExp q| * 2 ^ ulpExp q
      ≤ 1 / 2 * 2 ^ ulpExp q := mul_le_mul_of_nonneg_right h (le_of_lt hu)
    _ = 2 ^ ulpExp q / 2 := by ring

/-- The error of the rounding: half a unit in the last place. -/
theorem fl64_error (q : ℚ) (k : Int) (hk : -1022 ≤ k) (hq : |q| < 2 ^ (k + 1)) :
    |fl64 q - q| ≤ 2 ^ (k - 53) := by
  by_cases h0 : q = 0
  · subst h0
    rw [fl64_zero, sub_zero, abs_zero]
    positivity
  · have hu := ulpExp_le q k h0 hk hq
    have h := fl64_sub_le q
    have e : (2 : ℚ) ^ ulpExp q / 2 = 2 ^ (ulpExp q - 1) := by
      rw [zpow_sub₀ (by norm_num : (2 : ℚ) ≠ 0), zpow_one]
    rw [e] at h
    exact le_trans h (zpow_le_zpow_right₀ (by norm_num) (by omega))

theorem fl64_nonneg (q : ℚ) (h : 0 ≤ q) : 0 ≤ fl64 q := by
  unfold fl64
  have hu : (0 : ℚ) < 2 ^ ulpExp q := by positivity
  have := roundHalfEven_nonneg (q / 2 ^ ulpExp q) (div_nonneg h (le_of_lt hu))
  have h2 : (0 : ℚ) ≤ (roundHalfEven (q / 2 ^ ulpExp q) : ℚ) := by exact_mod_cast this
  exact mul_nonneg h2 (le_of_lt hu)

/-- Rounding does not pass an integer when the unit in the last place is at
most one. -/
theorem fl64_le_int (q : ℚ) (n : Int) (h : q ≤ n) (hu : ulpExp q ≤ 0) : fl64 q ≤ n := by
  obtain ⟨k, hk⟩ : ∃ k : Nat, ulpExp q = -(k : Int) := ⟨(-ulpExp q).toNat, by omega⟩
  unfold fl64
  rw [hk, zpow_neg, zpow_natCast]
  have hp : (0 : ℚ) < 2 ^ k := by positivity
  have hle : q / (2 ^ k)⁻¹ ≤ ((n * 2 ^ k : Int) : ℚ) := by
    rw [div_inv_eq_mul]
    push_cast
    exact mul_le_mul_of_nonneg_right h (le_of_lt hp)
  have hr := roundHalfEven_le_of_le _ _ hle
  have hr2 : (roundHalfEven (q / (2 ^ k)⁻¹) : ℚ) ≤ ((n * 2 ^ k : Int) : ℚ) := by
    exact_mod_cast hr
  calc (roundHalfEven (q / (2 ^ k)⁻¹) : ℚ) * (2 ^ k)⁻¹
      ≤ ((n * 2 ^ k : Int) : ℚ) * (2 ^ k)⁻¹ :=
        mul_le_mul_of_nonneg_right hr2 (le_of_lt (inv_pos.mpr hp))
    _ = n := by push_cast; field_simp

/-- A value of the type that lies within half a unit in the last place of `q` is
the `double` nearest to `q`. -/
theorem fl64_eq_of_near (q : ℚ) (m e : Int) (he : -1074 ≤ e) (h1 : 2 ^ (e + 52) ≤ |q|)
    (h2 : |q| < 2 ^ (e + 53)) (h3 : |q - m * 2 ^ e| < 2 ^ e / 2) : fl64 q = m * 2 ^ e := by
  have hu := ulpExp_eq q e he h1 h2
  unfold fl64
  rw [hu]
  have hp : (0 : ℚ) < 2 ^ e := by positivity
  have hn : |q / 2 ^ e - m| < 1 / 2 := by
    have e1 : q / 2 ^ e - m = (q - m * 2 ^ e) / 2 ^ e := by
      field_simp
      ring
    rw [e1, abs_div, abs_of_pos hp, div_lt_iff₀ hp]
    linarith
  rw [roundHalfEven_eq_of_near _ m hn]

/-- A tie goes to the even neighbour: 0.0625 is printed as 0.062 with three
decimals. -/
theorem fmtF_tie_to_even : fmtF 3 (1 / 16) = "0.062".toList := by
  have hv : |(1 / 16 : ℚ)| * (10 : ℚ) ^ 3 = 125 / 2 := by norm_num [abs_of_pos]
  have hf : ⌊(125 / 2 : ℚ)⌋ = 62 := by
    rw [Int.floor_eq_iff]
    norm_num
  have hr : roundHalfEven (125 / 2) = 62 := by
    unfold roundHalfEven
    rw [hf]
    norm_num
  simp only [fmtF, hv, hr]
  norm_num
  decide

theorem fmtF_of_scaled (prec : Nat) (r : REAL) (n : Nat)
    (h1 : (n : ℚ) < |r| * 10 ^ prec + 1 / 2) (h2 : |r| * 10 ^ prec + 1 / 2 < n + 1) :
    fmtF prec r = (if r < 0 then ['-'] else []) ++ Nat.toDigits 10 (n / 10 ^ prec) ++ ['.']
      ++ List.replicate (prec - (Nat.toDigits 10 (n % 10 ^ prec)).length) '0'
      ++ Nat.toDigits 10 (n % 10 ^ prec) := by
  have h : (roundHalfEven (|r| * (10 : ℚ) ^ prec)).toNat = n := by
    have : roundHalfEven (|r| * (10 : ℚ) ^ prec) = (n : Int) := by
      apply roundHalfEven_eq_of_near
      rw [abs_lt]
      push_cast
      constructor <;> linarith
    rw [this]; rfl
  simp only [fmtF, h]

/-! ## The end-to-end scenario -/

set_option maxRecDepth 100000 in
/-- C1: with picture size 10.0 x 8.0, offsets 0 and margins 0.5/0.5, `blHPGLInit`,
then `blHPGLFont(0, 12.0)`, then `blHPGLLText(0.5, 0.5, text)` with the text
H, backslash, a, underscore, 2, O write exactly these twelve commands in this
order: the init line (spelled `IN; IP-512,-512,9728,7680;`), the scale line, the
alternate-font line, the font command, the position `PU;PA5000, 5000;`, the
label H, the Greek label a, a position, the lowered 2 at half height between
two SI commands, a position, the label O, and a newline.  The second part
gives the text of the file, character for character, for the alternate font
index 7. -/
theorem C1_end_to_end_scenario (s : HPGLState) (blPS2HPGLFont : List Char → Int)
    (AltFont : List Char) :
    (blHPGLLText ⟨10, 8, 0, 0⟩
      (blHPGLFont ⟨10, 8, 0, 0⟩
        (blHPGLInit ⟨10, 8, 0, 0⟩ s true blPS2HPGLFont AltFont 0.5 0.5).2 0 12)
      0.5 0.5 ['H', '\\', 'a', '_', '2', 'O']).map (fun s => s.sHPGLFile)
      = some [.init (-512) (-512) 9728 7680, .scale, .altFont (blPS2HPGLFont AltFont),
          .font 0 (127 / 1224) (127 / 510), .textPos 5000 5000, .label ['H'], .greek 'a',
          .shiftPos 5120 4948, .shifted (127 / 1224) (127 / 510) ['2'], .shiftPos 5180 5000,
          .label ['O'], .newline]
    ∧ stream [.init (-512) (-512) 9728 7680, .scale, .altFont 7,
          .font 0 (127 / 1224) (127 / 510), .textPos 5000 5000, .label ['H'], .greek 'a',
          .shiftPos 5120 4948, .shifted (127 / 1224) (127 / 510) ['2'], .shiftPos 5180 5000,
          .label ['O'], .newline]
      = ("IN; IP-512,-512,9728,7680;\nSC0,10000,0,10000;DT\\;\nCA7;SS;\n"
          ++ "PU;CS0;SS;SI0.104, 0.249;\nPU;PA5000, 5000;LBH\\;SA;LBa\\;SS;PU;PA5120,4948;"
          ++ "PU;SI0.103758,0.124510;LB2\\;PU;SI0.103758,0.249020;PU;PA5180,5000;LBO\\;\n").toList := by
  constructor
  · have e1 : toInt ((0 - 0.5) * 1024) = -512 := by
      unfold toInt; norm_num [Int.ceil_eq_iff]
    have e2 : toInt ((10 : ℚ) * 1024) = 10240 := by
      unfold toInt; norm_num
    have e3 : toInt ((8 : ℚ) * 1024) = 8192 := by
      unfold toInt; norm_num
    have e4 : toInt (10000.0 * 0.5) = 5000 := by
      unfold toInt; norm_num
    have e5 : toInt ((12 * 10000.0) / (72.0 * 8)) = 208 := by
      apply toInt_of_floor <;> norm_num
    have e6 : toInt ((12 : ℚ) * 2.54 / (1.7 * 72.0) * 0.6154 / 2.54 * (10000.0 / 10)) = 60 := by
      apply toInt_of_floor <;> norm_num
    simp only [blHPGLLText, blHPGLShowText, blHPGLFont, blHPGLInit, fputs, e1, e2, e3, e4, e5,
      e6]
    simp [showLoop, flush, putShifted, shiftedPos, resetPos, fputs, MAXBUFF, LBRACE, NUL]
    refine ⟨⟨by norm_num, by norm_num⟩, by decide, by norm_num, by norm_num⟩
  · have f1 : fmtF 3 (127 / 1224) = "0.104".toList := by
      rw [fmtF_of_scaled 3 _ 104 (by norm_num [abs_of_pos]) (by norm_num [abs_of_pos])]
      norm_num
      decide
    have f2 : fmtF 3 (127 / 510) = "0.249".toList := by
      rw [fmtF_of_scaled 3 _ 249 (by norm_num [abs_of_pos]) (by norm_num [abs_of_pos])]
      norm_num
      decide
    have f3 : fmtF 6 (127 / 1224) = "0.103758".toList := by
      rw [fmtF_of_scaled 6 _ 103758 (by norm_num [abs_of_pos]) (by norm_num [abs_of_pos])]
      norm_num
      decide
    have f4 : fmtF 6 (127 / 510 / 2) = "0.124510".toList := by
      rw [fmtF_of_scaled 6 _ 124510 (by norm_num [abs_of_pos]) (by norm_num [abs_of_pos])]
      norm_num
      decide
    have f5 : fmtF 6 (127 / 510) = "0.249020".toList := by
      rw [fmtF_of_scaled 6 _ 249020 (by norm_num [abs_of_pos]) (by norm_num [abs_of_pos])]
      norm_num
      decide
    simp only [stream, List.map, Cmd.written, Cmd.sprintf, f1, f2, f3, f4, f5]
    decide

/-! ## One step of the walk -/

theorem cstr_of_not_mem (l : List Char) (h : NUL ∉ l) : cstr l = l := by
  unfold cstr
  rw [List.takeWhile_eq_self_iff]
  intro c hc
  simp only [bne_iff_ne, ne_eq]
  rintro rfl
  exact h hc

theorem emit_nil (s : HPGLState) : emit [] s = s := by
  simp [emit]

theorem emit_emit (a b : List Cmd) (s : HPGLState) : emit b (emit a s) = emit (a ++ b) s := by
  simp [emit]

theorem fputs_eq_emit (c : Cmd) (s : HPGLState) : fputs c s = emit [c] s := rfl

theorem flush_eq_emit (b : List Char) (s : HPGLState) : flush b s = emit (labelCmds b) s := by
  unfold flush labelCmds
  by_cases h : b = []
  · simp [h, emit]
  · simp [h, emit, fputs]

theorem putShifted_eq_emit (ps : Plotting) (o : Bool) (b : List Char) (s : HPGLState) :
    putShifted ps o b s = emit (runCmds ps s o b) s := by
  unfold putShifted runCmds
  by_cases h : b = []
  · simp [h, emit]
  · simp [h, emit, fputs]

theorem runCmds_emit (ps : Plotting) (o : Bool) (b : List Char) (c : List Cmd)
    (s : HPGLState) : runCmds ps (emit c s) o b = runCmds ps s o b := rfl

theorem shiftedPos_emit (ps : Plotting) (o r : Bool) (X Y : Int) (ch : Nat) (c : List Cmd)
    (s : HPGLState) : shiftedPos ps (emit c s) o r X Y ch = shiftedPos ps s o r X Y ch := rfl

theorem resetPos_emit (ps : Plotting) (o : Bool) (X Y : Int) (ch : Nat) (c : List Cmd)
    (s : HPGLState) : resetPos ps (emit c s) o X Y ch = resetPos ps s o X Y ch := rfl

theorem showLoop_nil (ps : Plotting) (o : Bool) (X Y : Int) (fuel : Nat) (s : HPGLState)
    (b : List Char) (ch : Nat) (first : Bool) :
    showLoop ps o X Y (fuel + 1) s [] b ch first = some (s, b) := rfl

theorem showLoop_full (ps : Plotting) (o : Bool) (X Y : Int) (fuel : Nat) (s : HPGLState)
    (rest b : List Char) (ch : Nat) (first : Bool) (hb : ¬ b.length < MAXBUFF - 1) :
    showLoop ps o X Y (fuel + 1) s rest b ch first = some (s, b) := by
  cases rest <;> simp [showLoop, hb]

theorem showLoop_char (ps : Plotting) (o : Bool) (X Y : Int) (fuel : Nat) (s : HPGLState)
    (c : Char) (rest b : List Char) (ch : Nat) (first : Bool) (hb : b.length < MAXBUFF - 1)
    (hc : c ≠ '\\' ∧ c ≠ '^' ∧ c ≠ '_') :
    showLoop ps o X Y (fuel + 1) s (c :: rest) b ch first
      = showLoop ps o X Y fuel s rest (b ++ [c]) (ch + 1) first := by
  simp [showLoop, hb, hc.1, hc.2.1, hc.2.2]

theorem showLoop_greek (ps : Plotting) (o : Bool) (X Y : Int) (fuel : Nat) (s : HPGLState)
    (rest b : List Char) (ch : Nat) (first : Bool) (hb : b.length < MAXBUFF - 1) :
    showLoop ps o X Y (fuel + 1) s ('\\' :: rest) b ch first
      = showLoop ps o X Y fuel (fputs (.greek (rest.headD NUL)) (flush b s)) (rest.drop 1) []
          (ch + 1) first := by
  simp [showLoop, hb]

theorem showLoop_literal (ps : Plotting) (o : Bool) (X Y : Int) (s : HPGLState)
    (first : Bool) (fuel : Nat) (rest : List Char) :
    ∀ (p b : List Char) (ch : Nat), EscapeFree p → b.length + p.length ≤ MAXBUFF - 1 →
      showLoop ps o X Y (fuel + p.length) s (p ++ rest) b ch first
        = showLoop ps o X Y fuel s rest (b ++ p) (ch + p.length) first := by
  intro p
  induction p with
  | nil => intro b ch _ _; simp
  | cons c p ih =>
    intro b ch hp hlen
    have hc := hp c (List.mem_cons_self c p)
    have hp2 : EscapeFree p := fun d hd => hp d (List.mem_cons_of_mem c hd)
    simp only [List.length_cons] at hlen
    have hb : b.length < MAXBUFF - 1 := by omega
    have e : fuel + (c :: p).length = (fuel + p.length) + 1 := by simp; omega
    rw [e, List.cons_append, showLoop_char ps o X Y _ s c _ b ch first hb hc,
      ih (b ++ [c]) (ch + 1) hp2 (by simp; omega)]
    simp only [List.append_assoc, List.singleton_append, List.length_cons]
    congr 1
    omega

theorem showLoop_shift (ps : Plotting) (o : Bool) (X Y : Int) (fuel : Nat) (s : HPGLState)
    (m : Char) (rest b : List Char) (ch : Nat) (first : Bool) (hb : b.length < MAXBUFF - 1)
    (hm : m = '^' ∨ m = '_') (run : List Char × List Char × Nat)
    (hrun : run = if rest.headD NUL = LBRACE
      then collectRun (rest.drop 1) [] (if first && o then ch + 1 else ch)
      else (rest, [rest.headD NUL], (if first && o then ch + 1 else ch) + 1)) :
    showLoop ps o X Y (fuel + 1) s (m :: rest) b ch first
      = showLoop ps o X Y fuel
          (emit (labelCmds b
            ++ [shiftedPos ps s o (decide (m = '^')) X Y (if first && o then ch + 1 else ch)]
            ++ runCmds ps s o run.2.1 ++ [resetPos ps s o X Y run.2.2]) s)
          (run.1.drop 1) [] run.2.2 false := by
  have hne : m ≠ '\\' := by
    rcases hm with rfl | rfl <;> decide
  subst hrun
  simp only [showLoop, hb, not_true_eq_false, if_false, hne, hm, if_true]
  simp only [flush_eq_emit, putShifted_eq_emit, fputs_eq_emit, emit_emit, shiftedPos_emit,
    resetPos_emit, runCmds_emit, List.append_assoc]

theorem collectRun_run (tail : List Char) (htail : tail = [] ∨ tail.head? = some RBRACE) :
    ∀ (run b : List Char) (ch : Nat), RBRACE ∉ run → NUL ∉ run →
      b.length + run.length ≤ MAXBUFF - 1 →
      collectRun (run ++ tail) b ch = (tail, b ++ run, ch + run.length) := by
  intro run
  induction run with
  | nil =>
    intro b ch _ _ _
    rcases htail with rfl | h
    · simp [collectRun]
    · cases tail with
      | nil => simp [collectRun]
      | cons c t =>
        simp only [List.head?_cons, Option.some.injEq] at h
        subst h
        simp [collectRun]
  | cons c run ih =>
    intro b ch h1 h2 hlen
    simp only [List.mem_cons, not_or] at h1 h2
    simp only [List.length_cons] at hlen
    have hb : b.length < MAXBUFF - 1 := by omega
    have hc1 : c ≠ RBRACE := fun h => h1.1 h.symm
    have hc2 : c ≠ NUL := fun h => h2.1 h.symm
    rw [List.cons_append, collectRun]
    simp only [hc1, hc2, hb, ne_eq, not_false_eq_true, and_self, if_true]
    rw [ih (b ++ [c]) (ch + 1) h1.2 h2.2 (by simp; omega)]
    simp only [List.append_assoc, List.singleton_append, List.length_cons, Prod.mk.injEq,
      true_and]
    omega

theorem collectRun_length :
    ∀ (rest b : List Char) (ch : Nat), (collectRun rest b ch).1.length ≤ rest.length := by
  intro rest
  induction rest with
  | nil => intro b ch; simp [collectRun]
  | cons c rest ih =>
    intro b ch
    rw [collectRun]
    split
    · exact Nat.le_succ_of_le (ih _ _)
    · exact Nat.le_refl _

/-! ## Plain text -/

/-- The commands for a plain text, the capacity of `OutBuff` left aside: for
every non-empty text without backslash, caret or underscore the walk hands one
label with the first min(length, 159) characters of the text to `sprintf`,
and then writes a newline. -/
theorem showText_plain_truncated (ps : Plotting) (s : HPGLState) (text : List Char)
    (orientation : Bool) (XBase YBase : Int) (hne : text ≠ []) (hplain : EscapeFree text)
    (hnul : NUL ∉ text) :
    blHPGLShowText ps s text orientation XBase YBase
      = some (emit [.label (text.take (min text.length 159)), .newline] s)
    ∧ stream [.label (text.take (min text.length 159)), .newline]
      = ['L', 'B'] ++ text.take (min text.length 159) ++ ['\\', ';'] ++ ['\n'] := by
  have hmin : text.take (min text.length 159) = text.take 159 := by
    rcases Nat.le_total text.length 159 with h | h
    · rw [Nat.min_eq_left h, List.take_of_length_le h, List.take_of_length_le (Nat.le_refl _)]
    · rw [Nat.min_eq_right h]
  rw [hmin]
  have hlen : (text.take 159).length + (text.drop 159).length = text.length := by
    rw [← List.length_append, List.take_append_drop]
  have htake : (text.take 159).length ≤ 159 := by
    rw [List.length_take]; exact Nat.min_le_left _ _
  have hpt : EscapeFree (text.take 159) := fun c hc => hplain c (List.mem_of_mem_take hc)
  have hloop : showLoop ps orientation XBase YBase (text.length + 1) s text [] 0 true
      = some (s, text.take 159) := by
    have e : text.length + 1 = ((text.drop 159).length + 1) + (text.take 159).length := by
      omega
    have e2 : showLoop ps orientation XBase YBase (text.length + 1) s text [] 0 true
        = showLoop ps orientation XBase YBase
            (((text.drop 159).length + 1) + (text.take 159).length) s
            (text.take 159 ++ text.drop 159) [] 0 true := by
      rw [← e, List.take_append_drop]
    rw [e2, showLoop_literal ps orientation XBase YBase s true _ (text.drop 159)
      (text.take 159) [] 0 hpt (by simp [MAXBUFF]), List.nil_append]
    by_cases hd : text.drop 159 = []
    · rw [hd]; rfl
    · apply showLoop_full
      have : 159 < text.length := by
        by_contra hcon
        exact hd (List.drop_eq_nil_of_le (Nat.le_of_not_lt hcon))
      rw [List.length_take]
      simp [MAXBUFF]
      omega
  have hne2 : text.take 159 ≠ [] := by
    cases text with
    | nil => exact absurd rfl hne
    | cons c t => simp
  constructor
  · have hl : text.length ≠ 0 := fun h => hne (List.length_eq_zero.mp h)
    simp only [blHPGLShowText, hloop, flush_eq_emit, fputs_eq_emit, emit_emit, labelCmds, hne2,
      hl, if_false, ne_eq, not_false_eq_true, if_true, List.singleton_append]
  · have hn : NUL ∉ text.take 159 := fun h => hnul (List.mem_of_mem_take h)
    have hn2 : NUL ∉ "LB".toList ++ text.take 159 ++ ['\\', ';'] := by
      simp only [List.mem_append, not_or]
      exact ⟨⟨by decide, hn⟩, by decide⟩
    simp only [stream, List.map, Cmd.written, Cmd.sprintf, cstr_of_not_mem _ hn,
      cstr_of_not_mem _ hn2]
    have : cstr ['\n'] = ['\n'] := by decide
    rw [this]
    simp

theorem sprintf_label_length (b : List Char) (hn : NUL ∉ b) :
    (Cmd.sprintf (.label b)).length = b.length + 4 := by
  simp only [Cmd.sprintf, cstr_of_not_mem b hn, List.length_append]
  have h1 : "LB".toList.length = 2 := rfl
  have h2 : ['\\', ';'].length = 2 := rfl
  omega

set_option maxRecDepth 100000 in
/-- C3 (the truncated label does not fit `OutBuff`): on a plain text of 161
letters, in either orientation, the walk of `blHPGLShowText` stops with the
first 159 letters in the accumulator, and the label that `sprintf` then forms
in `OutBuff` is `LB`, the 159 letters and `\;`: 163 characters, with the
terminating NUL 164 bytes for an array of 160.  The write of the truncated
label runs past the end of `OutBuff`, so the code does not emit the truncated
label in a defined way.  For every non-empty plain text the label fits
`OutBuff` exactly when the text has at most 155 characters, and such a text is
written whole: `LB`, the text, `\;` and a newline. -/
theorem C3_truncated_label_overflows_OutBuff (ps : Plotting) (s : HPGLState)
    (orientation : Bool) (XBase YBase : Int) :
    blHPGLShowText ps s (List.replicate 161 'a') orientation XBase YBase
      = some (emit [.label (List.replicate 159 'a'), .newline] s)
    ∧ (Cmd.sprintf (.label (List.replicate 159 'a'))).length = 163
    ∧ ¬ (Cmd.label (List.replicate 159 'a')).fitsOutBuff
    ∧ ∀ text : List Char, text ≠ [] → EscapeFree text → NUL ∉ text →
        ((Cmd.label (text.take (min text.length 159))).fitsOutBuff ↔ text.length ≤ 155)
        ∧ (text.length ≤ 155 →
            blHPGLShowText ps s text orientation XBase YBase
              = some (emit [.label text, .newline] s)
            ∧ stream [.label text, .newline] = ['L', 'B'] ++ text ++ ['\\', ';'] ++ ['\n']) := by
  refine ⟨?_, by decide, by decide, ?_⟩
  · have h : blHPGLShowText ps s (List.replicate 161 'a') orientation XBase YBase
        = some (fputs .newline (fputs (.label (List.replicate 159 'a')) s)) := rfl
    rw [h]; simp only [fputs_eq_emit, emit_emit, List.singleton_append]
  · intro text hne hplain hnul
    have hn : NUL ∉ text.take (min text.length 159) := fun h => hnul (List.mem_of_mem_take h)
    have hM : MAXBUFF = 160 := rfl
    constructor
    · unfold Cmd.fitsOutBuff
      rw [sprintf_label_length _ hn, List.length_take, hM]
      omega
    · intro hlen
      have ht : text.take (min text.length 159) = text := by
        rw [Nat.min_eq_left (by omega), List.take_length]
      have h := showText_plain_truncated ps s text orientation XBase YBase hne hplain hnul
      rw [ht] at h
      exact h

/-! ## The Greek escape -/

/-- C5 (the code leaves a label open): on the text consisting of one backslash,
`blHPGLShowText` formats the terminator of the string with `%c`, so what reaches
the file is `SA;LB` followed by the newline: the label is never closed by `\;`
and the font toggle `SS;` is lost. -/
theorem C5_bare_backslash_leaves_label_open (ps : Plotting) (s : HPGLState)
    (orientation : Bool) (XBase YBase : Int) :
    blHPGLShowText ps s ['\\'] orientation XBase YBase = some (emit [.greek NUL, .newline] s)
    ∧ stream [.greek NUL, .newline] = ['S', 'A', ';', 'L', 'B', '\n'] := by
  constructor
  · have h : blHPGLShowText ps s ['\\'] orientation XBase YBase
        = some (fputs .newline (fputs (.greek NUL) s)) := rfl
    rw [h]; simp only [fputs_eq_emit, emit_emit, List.singleton_append]
  · decide

/-! ## Long runs -/

set_option maxRecDepth 100000 in
/-- C7 (the code overflows `OutBuff`): on a plain text of 156 characters
`blHPGLShowText` formats the label `LB...\;` of 160 characters, more than the
159 characters that the 160-byte array holds besides its terminator. -/
theorem C7_label_overflows_OutBuff (ps : Plotting) (s : HPGLState) (orientation : Bool)
    (XBase YBase : Int) :
    blHPGLShowText ps s (List.replicate 156 'a') orientation XBase YBase
      = some (emit [.label (List.replicate 156 'a'), .newline] s)
    ∧ (Cmd.sprintf (.label (List.replicate 156 'a'))).length = 160
    ∧ MAXBUFF - 1 < (Cmd.sprintf (.label (List.replicate 156 'a'))).length := by
  refine ⟨?_, by decide, by decide⟩
  have h : blHPGLShowText ps s (List.replicate 156 'a') orientation XBase YBase
      = some (fputs .newline (fputs (.label (List.replicate 156 'a')) s)) := rfl
  rw [h]; simp only [fputs_eq_emit, emit_emit, List.singleton_append]

set_option maxRecDepth 100000 in
/-- C8 (the code leaks the rest of a long braced run): on the raised run of 159
letters `a` followed by `bcd` and the closing brace, in horizontal orientation,
`blHPGLShowText` writes the shifted label of the 159 letters, skips `b`, and
then writes the rest of the run and its closing brace as the plain label
`LBcd}\;`. -/
theorem C8_long_braced_run_leaks (ps : Plotting) (s : HPGLState) (XBase YBase : Int) :
    blHPGLShowText ps s (['^', LBRACE] ++ List.replicate 159 'a' ++ ['b', 'c', 'd', RBRACE])
      false XBase YBase
      = some (emit [.shiftPos (XBase + (0 : Nat) * s.sFontWidth) (YBase + Int.tdiv s.sFontHeight 2),
          .shifted s.sFontWcm s.sFontHcm (List.replicate 159 'a'),
          .shiftPos (XBase + (159 : Nat) * s.sFontWidth) YBase,
          .label ['c', 'd', RBRACE], .newline] s)
    ∧ Cmd.written (.label ['c', 'd', RBRACE]) = ['L', 'B', 'c', 'd', RBRACE, '\\', ';'] := by
  refine ⟨?_, by decide⟩
  have h : blHPGLShowText ps s
      (['^', LBRACE] ++ List.replicate 159 'a' ++ ['b', 'c', 'd', RBRACE]) false XBase YBase
      = some (fputs .newline (fputs (.label ['c', 'd', RBRACE])
          (fputs (.shiftPos (XBase + (159 : Nat) * s.sFontWidth) YBase)
            (fputs (.shifted s.sFontWcm s.sFontHcm (List.replicate 159 'a'))
              (fputs (.shiftPos (XBase + (0 : Nat) * s.sFontWidth)
                (YBase + Int.tdiv s.sFontHeight 2)) s))))) := rfl
  rw [h]; simp only [fputs_eq_emit, emit_emit]; rfl

/-! ## Braced runs with and without the closing brace -/

theorem showText_braced_run (ps : Plotting) (s : HPGLState) (p run tail : List Char) (m : Char)
    (o : Bool) (X Y : Int) (hm : m = '^' ∨ m = '_') (hp : EscapeFree p) (hpl : p.length < 159)
    (hrl : run.length < 159) (hr : RBRACE ∉ run) (hnul : NUL ∉ run)
    (htail : tail = [] ∨ tail = [RBRACE]) :
    blHPGLShowText ps s (p ++ m :: LBRACE :: (run ++ tail)) o X Y
      = some (emit (labelCmds p
          ++ [shiftedPos ps s o (decide (m = '^')) X Y (if o then p.length + 1 else p.length)]
          ++ runCmds ps s o run
          ++ [resetPos ps s o X Y ((if o then p.length + 1 else p.length) + run.length),
              .newline]) s) := by
  have htail2 : tail = [] ∨ tail.head? = some RBRACE := by
    rcases htail with h | h
    · exact Or.inl h
    · exact Or.inr (by rw [h]; rfl)
  have hdrop : tail.drop 1 = [] := by
    rcases htail with h | h <;> rw [h] <;> rfl
  have hloop : showLoop ps o X Y ((p ++ m :: LBRACE :: (run ++ tail)).length + 1) s
      (p ++ m :: LBRACE :: (run ++ tail)) [] 0 true
      = some (emit (labelCmds p
          ++ [shiftedPos ps s o (decide (m = '^')) X Y (if o then p.length + 1 else p.length)]
          ++ runCmds ps s o run
          ++ [resetPos ps s o X Y ((if o then p.length + 1 else p.length) + run.length)]) s,
          []) := by
    have e : (p ++ m :: LBRACE :: (run ++ tail)).length + 1
        = ((run.length + tail.length + 1) + 1 + 1) + p.length := by
      simp; omega
    have hc : (if (true && o) = true then 0 + p.length + 1 else 0 + p.length)
        = (if o then p.length + 1 else p.length) := by
      cases o <;> simp
    rw [e, showLoop_literal ps o X Y s true _ (m :: LBRACE :: (run ++ tail)) p [] 0 hp
      (by simp [MAXBUFF]; omega), List.nil_append,
      showLoop_shift ps o X Y _ s m (LBRACE :: (run ++ tail)) p _ true
        (by simp [MAXBUFF]; omega) hm
        (tail, run, (if o then p.length + 1 else p.length) + run.length)
        (by
          simp only [List.headD_cons, if_true, List.drop_one, List.tail_cons]
          rw [hc, collectRun_run tail htail2 run [] _ hr hnul (by simp [MAXBUFF]; omega),
            List.nil_append])]
    simp only [hdrop, showLoop_nil, hc]
  have hl : (p ++ m :: LBRACE :: (run ++ tail)).length ≠ 0 := by simp
  simp only [blHPGLShowText, hloop, flush_eq_emit, fputs_eq_emit, emit_emit, labelCmds, hl,
    ne_eq, not_false_eq_true, if_true, List.append_nil, List.append_assoc,
    List.singleton_append]

theorem walkCmd_labelCmds (ps : Plotting) (s : HPGLState) (o : Bool) (b : List Char) :
    ∀ c ∈ labelCmds b, WalkCmd ps s o c := by
  intro c hc
  unfold labelCmds at hc
  split at hc
  · simp at hc
  · simp only [List.mem_singleton] at hc
    subst hc; trivial

theorem walkCmd_runCmds (ps : Plotting) (s : HPGLState) (o : Bool) (b : List Char) :
    ∀ c ∈ runCmds ps s o b, WalkCmd ps s o c := by
  intro c hc
  unfold runCmds at hc
  split at hc
  · simp at hc
  · simp only [List.mem_singleton] at hc
    subst hc; exact ⟨rfl, rfl⟩

theorem walkCmd_shiftedPos (ps : Plotting) (s : HPGLState) (o r : Bool) (X Y : Int) (ch : Nat) :
    WalkCmd ps s o (shiftedPos ps s o r X Y ch) := by
  unfold shiftedPos
  split <;> trivial

theorem walkCmd_resetPos (ps : Plotting) (s : HPGLState) (o : Bool) (X Y : Int) (ch : Nat) :
    WalkCmd ps s o (resetPos ps s o X Y ch) := by
  unfold resetPos
  split <;> trivial

theorem walkCmd_emit (ps : Plotting) (s : HPGLState) (o : Bool) (cmds : List Cmd) (c : Cmd) :
    WalkCmd ps (emit cmds s) o c ↔ WalkCmd ps s o c := by
  cases c <;> exact Iff.rfl

theorem showLoop_walk (ps : Plotting) (o : Bool) (X Y : Int) :
    ∀ (fuel : Nat) (s : HPGLState) (rest b : List Char) (ch : Nat) (first : Bool),
      rest.length < fuel →
      ∃ cmds b2, showLoop ps o X Y fuel s rest b ch first = some (emit cmds s, b2)
        ∧ ∀ c ∈ cmds, WalkCmd ps s o c := by
  intro fuel
  induction fuel with
  | zero => intro s rest b ch first h; exact absurd h (Nat.not_lt_zero _)
  | succ fuel ih =>
    intro s rest b ch first hlen
    cases rest with
    | nil =>
      exact ⟨[], b, by rw [showLoop_nil, emit_nil], by simp⟩
    | cons c rest1 =>
      simp only [List.length_cons] at hlen
      have hr1 : rest1.length < fuel := by omega
      by_cases hb : b.length < MAXBUFF - 1
      · by_cases hg : c = '\\'
        · subst hg
          have hd : (rest1.drop 1).length < fuel := by
            rw [List.length_drop]; omega
          obtain ⟨cmds, b2, h1, h2⟩ := ih (fputs (.greek (rest1.headD NUL)) (flush b s))
            (rest1.drop 1) [] (ch + 1) first hd
          rw [flush_eq_emit, fputs_eq_emit, emit_emit] at h1 h2
          rw [emit_emit] at h1
          refine ⟨labelCmds b ++ [.greek (rest1.headD NUL)] ++ cmds, b2, ?_, ?_⟩
          · rw [showLoop_greek ps o X Y fuel s rest1 b ch first hb, flush_eq_emit,
              fputs_eq_emit, emit_emit]
            exact h1
          · intro c hc
            simp only [List.mem_append, List.mem_singleton] at hc
            rcases hc with (hc | hc) | hc
            · exact walkCmd_labelCmds ps s o b c hc
            · subst hc; trivial
            · exact (walkCmd_emit ps s o _ c).mp (h2 c hc)
        · by_cases hm : c = '^' ∨ c = '_'
          · have hstep := showLoop_shift ps o X Y fuel s c rest1 b ch first hb hm _ rfl
            have hd : ((if rest1.headD NUL = LBRACE
                then collectRun (rest1.drop 1) [] (if first && o then ch + 1 else ch)
                else (rest1, [rest1.headD NUL],
                  (if first && o then ch + 1 else ch) + 1)).1.drop 1).length < fuel := by
              rw [List.length_drop]
              split
              · have := collectRun_length (rest1.drop 1) []
                  (if first && o then ch + 1 else ch)
                rw [List.length_drop] at this
                omega
              · simp only
                omega
            obtain ⟨cmds, b2, h1, h2⟩ := ih _ _ [] _ false hd
            rw [hstep, h1, emit_emit]
            refine ⟨_, b2, rfl, ?_⟩
            intro c2 hc
            simp only [List.mem_append, List.mem_singleton] at hc
            rcases hc with (((hc | hc) | hc) | hc) | hc
            · exact walkCmd_labelCmds ps s o b c2 hc
            · subst hc; exact walkCmd_shiftedPos ps s o _ X Y _
            · exact walkCmd_runCmds ps s o _ c2 hc
            · subst hc; exact walkCmd_resetPos ps s o X Y _
            · exact (walkCmd_emit ps s o _ c2).mp (h2 c2 hc)
          · have hc3 : c ≠ '\\' ∧ c ≠ '^' ∧ c ≠ '_' :=
              ⟨hg, fun h => hm (Or.inl h), fun h => hm (Or.inr h)⟩
            obtain ⟨cmds, b2, h1, h2⟩ := ih s rest1 (b ++ [c]) (ch + 1) first hr1
            exact ⟨cmds, b2, by rw [showLoop_char ps o X Y fuel s c rest1 b ch first hb hc3, h1],
              h2⟩
      · exact ⟨[], b, by rw [showLoop_full ps o X Y fuel s _ b ch first hb, emit_nil],
          by simp⟩

theorem showText_walk (ps : Plotting) (s : HPGLState) (text : List Char) (o : Bool)
    (X Y : Int) (hne : text ≠ []) :
    ∃ cmds, blHPGLShowText ps s text o X Y = some (emit (cmds ++ [.newline]) s)
      ∧ ∀ c ∈ cmds, WalkCmd ps s o c := by
  obtain ⟨cmds, b2, h1, h2⟩ :=
    showLoop_walk ps o X Y (text.length + 1) s text [] 0 true (Nat.lt_succ_self _)
  have hl : text.length ≠ 0 := fun h => hne (List.length_eq_zero.mp h)
  refine ⟨cmds ++ labelCmds b2, ?_, ?_⟩
  · simp only [blHPGLShowText, h1, flush_eq_emit, fputs_eq_emit, emit_emit, hl, ne_eq,
      not_false_eq_true, if_true]
  · intro c hc
    rcases List.mem_append.mp hc with hc | hc
    · exact h2 c hc
    · exact walkCmd_labelCmds ps s o b2 c hc

/-- In horizontal orientation `blHPGLShowText` returns, for every text, a state
whose four font fields (device height and width, height and width in cm) are
those of the state it was called in, with only commands added to the file;
every shifted-run command among them is given `sFontWcm` and `sFontHcm` as the
arguments of its restoring SI, the two values that the SI command written by
`blHPGLFont` was given. -/
theorem showText_font_fields (ps : Plotting) (s : HPGLState) (font : Int) (size : REAL)
    (text : List Char) (XBase YBase : Int) :
    (∃ s2 cmds, blHPGLShowText ps s text false XBase YBase = some s2
      ∧ s2.sFontHeight = s.sFontHeight ∧ s2.sFontWidth = s.sFontWidth
      ∧ s2.sFontHcm = s.sFontHcm ∧ s2.sFontWcm = s.sFontWcm
      ∧ s2.sHPGLFile = s.sHPGLFile ++ cmds
      ∧ ∀ w h b, Cmd.shifted w h b ∈ cmds → w = s.sFontWcm ∧ h = s.sFontHcm)
    ∧ (blHPGLFont ps s font size).sHPGLFile
        = s.sHPGLFile ++ [.font font (blHPGLFont ps s font size).sFontWcm
            (blHPGLFont ps s font size).sFontHcm] := by
  refine ⟨?_, rfl⟩
  by_cases hne : text = []
  · subst hne
    exact ⟨s, [], rfl, rfl, rfl, rfl, rfl, by simp, by simp⟩
  · obtain ⟨cmds, h1, h2⟩ := showText_walk ps s text false XBase YBase hne
    refine ⟨_, cmds ++ [Cmd.newline], h1, rfl, rfl, rfl, rfl, rfl, ?_⟩
    intro w h b hmem
    rcases List.mem_append.mp hmem with hc | hc
    · have := h2 _ hc
      simpa [WalkCmd] using this
    · simp at hc

/-! ## Well-formed texts -/

theorem showLoop_literal_sub (ps : Plotting) (o : Bool) (X Y : Int) (s : HPGLState)
    (first : Bool) (fuel : Nat) (rest p b : List Char) (ch : Nat) (hp : EscapeFree p)
    (hlen : b.length + p.length ≤ MAXBUFF - 1) (hf : p.length ≤ fuel) :
    showLoop ps o X Y fuel s (p ++ rest) b ch first
      = showLoop ps o X Y (fuel - p.length) s rest (b ++ p) (ch + p.length) first := by
  have h := showLoop_literal ps o X Y s first (fuel - p.length) rest p b ch hp hlen
  rw [Nat.sub_add_cancel hf] at h
  exact h

theorem kind_payload_literal (p : List Char) (hn : NUL ∉ p) :
    (labelCmds p).map (fun c => (c.kind, c.payload)) = literalItems p := by
  unfold labelCmds literalItems
  split
  · rfl
  · simp [Cmd.kind, Cmd.payload, cstr_of_not_mem p hn]

theorem kind_payload_run (ps : Plotting) (s : HPGLState) (o : Bool) (run : List Char)
    (hn : NUL ∉ run) :
    (runCmds ps s o run).map (fun c => (c.kind, c.payload))
      = if run = [] then [] else [(Kind.run, run)] := by
  unfold runCmds
  split
  · rfl
  · simp [Cmd.kind, Cmd.payload, cstr_of_not_mem run hn]

theorem kind_shiftedPos (ps : Plotting) (s : HPGLState) (o r : Bool) (X Y : Int) (ch : Nat) :
    ((shiftedPos ps s o r X Y ch).kind, (shiftedPos ps s o r X Y ch).payload)
      = (Kind.position, []) := by
  unfold shiftedPos
  split <;> rfl

theorem kind_resetPos (ps : Plotting) (s : HPGLState) (o : Bool) (X Y : Int) (ch : Nat) :
    ((resetPos ps s o X Y ch).kind, (resetPos ps s o X Y ch).payload)
      = (Kind.position, []) := by
  unfold resetPos
  split <;> rfl

/-- One escape and the literal run after it: the walk writes the label of the
pending run, then the commands of the escape, and goes on with the literal
run in the accumulator. -/
theorem showLoop_escape (ps : Plotting) (o : Bool) (X Y : Int) (e : Esc) (q rest : List Char)
    (he : e.WellFormed) (hq : Literal q) (fuel : Nat) (s : HPGLState) (b : List Char)
    (ch : Nat) (first : Bool) (hb : Literal b)
    (hf : (e.raw ++ q ++ rest).length < fuel) :
    ∃ cmds fuel2 ch2 first2,
      showLoop ps o X Y fuel s (e.raw ++ q ++ rest) b ch first
        = showLoop ps o X Y fuel2 (emit cmds s) rest q ch2 first2
      ∧ rest.length < fuel2
      ∧ cmds.map (fun c => (c.kind, c.payload)) = literalItems b ++ e.items := by
  obtain ⟨hbe, hbn, hbl⟩ := hb
  obtain ⟨hqe, hqn, hql⟩ := hq
  have hb2 : b.length < MAXBUFF - 1 := by simp [MAXBUFF]; omega
  have hq2 : ([] : List Char).length + q.length ≤ MAXBUFF - 1 := by simp [MAXBUFF]; omega
  obtain ⟨k, rfl⟩ : ∃ k, fuel = k + 1 := ⟨fuel - 1, by omega⟩
  cases e with
  | greek G =>
    simp only [Esc.raw, List.length_append, List.length_cons, List.length_nil] at hf
    refine ⟨labelCmds b ++ [.greek G], k - q.length, ch + 1 + q.length, first, ?_, by omega, ?_⟩
    · simp only [Esc.raw, List.cons_append, List.nil_append, List.append_assoc]
      rw [showLoop_greek ps o X Y k s _ b ch first hb2]
      simp only [List.headD_cons, List.drop_one, List.tail_cons, flush_eq_emit, fputs_eq_emit,
        emit_emit]
      rw [showLoop_literal_sub ps o X Y _ first k rest q [] (ch + 1) hqe hq2 (by omega),
        List.nil_append]
    · rw [List.map_append, kind_payload_literal b hbn]
      rfl
  | shiftChar m G =>
    obtain ⟨hm, hG, hGb⟩ := he
    simp only [Esc.raw, List.length_append, List.length_cons, List.length_nil] at hf
    refine ⟨labelCmds b
        ++ [shiftedPos ps s o (decide (m = '^')) X Y (if first && o then ch + 1 else ch)]
        ++ runCmds ps s o [G]
        ++ [resetPos ps s o X Y ((if first && o then ch + 1 else ch) + 1)],
      k - q.length, (if first && o then ch + 1 else ch) + 1 + q.length, false, ?_, by omega, ?_⟩
    · simp only [Esc.raw, List.cons_append, List.nil_append, List.append_assoc]
      rw [showLoop_shift ps o X Y k s m (G :: (q ++ rest)) b ch first hb2 hm
        (G :: (q ++ rest), [G], (if first && o then ch + 1 else ch) + 1)
        (by simp only [List.headD_cons, hGb, if_false])]
      simp only [List.drop_one, List.tail_cons]
      rw [showLoop_literal_sub ps o X Y _ false k rest q [] _ hqe hq2 (by omega),
        List.nil_append]
      simp only [List.append_assoc, List.singleton_append, List.cons_append, List.nil_append]
    · have hGn : NUL ∉ [G] := by
        simp only [List.mem_singleton]
        exact fun h => hG h.symm
      simp only [List.map_append, List.map_cons, List.map_nil, kind_payload_literal b hbn,
        kind_payload_run ps s o [G] hGn, kind_shiftedPos, kind_resetPos, Esc.items]
      simp
  | shiftRun m run =>
    obtain ⟨hm, hr, hrn, hrl⟩ := he
    simp only [Esc.raw, List.length_append, List.length_cons, List.length_nil] at hf
    refine ⟨labelCmds b
        ++ [shiftedPos ps s o (decide (m = '^')) X Y (if first && o then ch + 1 else ch)]
        ++ runCmds ps s o run
        ++ [resetPos ps s o X Y ((if first && o then ch + 1 else ch) + run.length)],
      k - q.length, (if first && o then ch + 1 else ch) + run.length + q.length, false, ?_,
      by omega, ?_⟩
    · simp only [Esc.raw, List.cons_append, List.nil_append, List.append_assoc]
      rw [showLoop_shift ps o X Y k s m (LBRACE :: (run ++ RBRACE :: (q ++ rest))) b ch first
        hb2 hm
        (RBRACE :: (q ++ rest), run, (if first && o then ch + 1 else ch) + run.length)
        (by
          simp only [List.headD_cons, if_true, List.drop_one, List.tail_cons]
          rw [collectRun_run (RBRACE :: (q ++ rest)) (Or.inr rfl) run [] _ hr hrn
            (by simp [MAXBUFF]; omega), List.nil_append])]
      simp only [List.drop_one, List.tail_cons]
      rw [showLoop_literal_sub ps o X Y _ false k rest q [] _ hqe hq2 (by omega),
        List.nil_append]
      simp only [List.append_assoc, List.singleton_append, List.cons_append, List.nil_append]
    · simp only [List.map_append, List.map_cons, List.map_nil, kind_payload_literal b hbn,
        kind_payload_run ps s o run hrn, kind_shiftedPos, kind_resetPos, Esc.items]
      simp

theorem showLoop_items (ps : Plotting) (o : Bool) (X Y : Int) :
    ∀ (items : List (Esc × List Char)) (fuel : Nat) (s : HPGLState) (b : List Char) (ch : Nat)
      (first : Bool), Literal b → (∀ x ∈ items, x.1.WellFormed ∧ Literal x.2) →
      (rawItems items).length < fuel →
      ∃ cmds b2, showLoop ps o X Y fuel s (rawItems items) b ch first = some (emit cmds s, b2)
        ∧ (cmds ++ labelCmds b2).map (fun c => (c.kind, c.payload)) = expectedItems b items := by
  intro items
  induction items with
  | nil =>
    intro fuel s b ch first hb _ hf
    obtain ⟨k, rfl⟩ : ∃ k, fuel = k + 1 := ⟨fuel - 1, by omega⟩
    refine ⟨[], b, by rw [rawItems, showLoop_nil, emit_nil], ?_⟩
    rw [List.nil_append, kind_payload_literal b hb.2.1]
    rfl
  | cons x items ih =>
    intro fuel s b ch first hb hx hf
    obtain ⟨e, q⟩ := x
    have hxe := hx (e, q) (List.mem_cons_self _ _)
    have hrest : ∀ y ∈ items, y.1.WellFormed ∧ Literal y.2 :=
      fun y hy => hx y (List.mem_cons_of_mem _ hy)
    obtain ⟨cmds1, fuel2, ch2, first2, h1, hf2, hk1⟩ :=
      showLoop_escape ps o X Y e q (rawItems items) hxe.1 hxe.2 fuel s b ch first hb hf
    obtain ⟨cmds2, b2, h2, hk2⟩ := ih fuel2 (emit cmds1 s) q ch2 first2 hxe.2 hrest hf2
    refine ⟨cmds1 ++ cmds2, b2, ?_, ?_⟩
    · rw [rawItems, h1, h2, emit_emit]
    · rw [List.append_assoc, List.map_append, hk1, hk2]
      rfl

theorem expectedItems_payload :
    ∀ (items : List (Esc × List Char)) (p : List Char),
      ((expectedItems p items).map Prod.snd).flatten = p ++ strippedItems items := by
  have hlit : ∀ p : List Char, ((literalItems p).map Prod.snd).flatten = p := by
    intro p
    unfold literalItems
    split
    · next h => rw [h]; rfl
    · simp
  have hesc : ∀ e : Esc, (e.items.map Prod.snd).flatten = e.plain := by
    intro e
    cases e with
    | greek G => simp [Esc.items, Esc.plain]
    | shiftChar m G => simp [Esc.items, Esc.plain]
    | shiftRun m run =>
      by_cases h : run = []
      · simp [Esc.items, Esc.plain, h]
      · simp [Esc.items, Esc.plain, h]
  intro items
  induction items with
  | nil =>
    intro p
    rw [expectedItems, hlit, strippedItems, List.append_nil]
  | cons x items ih =>
    intro p
    obtain ⟨e, q⟩ := x
    rw [expectedItems, List.map_append, List.map_append, List.flatten_append,
      List.flatten_append, hlit, hesc, ih, strippedItems]
    simp only [List.append_assoc]

theorem toInt_intCast (n : Int) : toInt (n : ℚ) = n := by
  unfold toInt
  split <;> simp

theorem blHPGLFont_demo_12 :
    blHPGLFont demoPlot demoState 0 12 = emit [.font 0 (127 / 1224) (127 / 510)] demoState := by
  have e5 : toInt ((12 * 10000.0) / (72.0 * 8)) = 208 := by
    apply toInt_of_floor <;> norm_num
  have e6 : toInt ((12 : ℚ) * 2.54 / (1.7 * 72.0) * 0.6154 / 2.54 * (10000.0 / 10)) = 60 := by
    apply toInt_of_floor <;> norm_num
  simp only [blHPGLFont, demoPlot, demoState, fputs, emit, e5, e6]
  norm_num

theorem showText_total (ps : Plotting) (s : HPGLState) (text : List Char) (o : Bool)
    (X Y : Int) : ∃ cmds, blHPGLShowText ps s text o X Y = some (emit cmds s) := by
  by_cases hne : text = []
  · subst hne
    exact ⟨[], by rw [emit_nil]; rfl⟩
  · obtain ⟨cmds, h, _⟩ := showText_walk ps s text o X Y hne
    exact ⟨_, h⟩

set_option maxRecDepth 100000 in
/-- C11 (the code restores another width): on the picture of 10 by 8, after
`blHPGLFont(0, 12.0)`, `blHPGLVText` with `TitleSize = 12.0` on the text `a^b`
writes before the text the SI command with width 127/816 (0.156) and height
254/1275, and after the raised label the SI command with width 635/4896
(0.130) and the same height: the width after the run is not the width that
was selected before the text, because `blHPGLVText` takes the width as
`height/2.0` and `blHPGLFont` as `height/2.4`. -/
theorem C11_vertical_run_restores_other_width :
    blHPGLVText demoPlot (blHPGLFont demoPlot demoState 0 12) simplifyText 0.5 0.5 0
        ['a', '^', 'b'] 0 12 [] 0 12
      = some (emit [.font 0 (127 / 1224) (127 / 510), .size (127 / 816) (254 / 1275),
          .vertPos 5000 4950, .label ['a'], .shiftPos 4896 5100,
          .shifted (635 / 4896) (254 / 1275) ['b'], .shiftPos 5000 5175, .newline,
          .literal "DR;\n".toList, .size (127 / 1020) (127 / 510)] demoState)
    ∧ (127 / 816 : REAL) ≠ 635 / 4896 := by
  refine ⟨?_, by norm_num⟩
  rw [blHPGLFont_demo_12]
  have hs : simplifyText ['a', '^', 'b'] = ['a', 'b'] := by decide
  have hs0 : simplifyText [] = [] := by decide
  have hst : strlenTimes 2 60 / 2 = 60 := by decide
  simp only [blHPGLVText, hs, hs0, emit, demoState, demoPlot, List.length_cons,
    List.length_nil, hst]
  norm_num
  have ht1 : toInt 5000 = 5000 := by exact_mod_cast toInt_intCast 5000
  have ht2 : toInt (4940 + ((Int.tdiv 60 6 : Int) : ℚ)) = 4950 := by
    have : Int.tdiv 60 6 = 10 := by decide
    rw [this]; norm_num; exact_mod_cast toInt_intCast 4950
  rw [ht1, ht2]
  simp [blHPGLShowText, showLoop, flush, putShifted, shiftedPos, resetPos, fputs, MAXBUFF,
    LBRACE, NUL]
  refine ⟨⟨by decide, ?_⟩, ⟨by norm_num, by norm_num⟩, ?_⟩
  · norm_num; exact_mod_cast toInt_intCast 5100
  · norm_num; exact_mod_cast toInt_intCast 5175

/-- C12 (the code restores half the height as width): for every call,
`blHPGLVText` returns and the last command it writes is the SI command with
the height `TitleSize*2.54/(1.7*72.0)` and, as width, that height divided by
2.0, whereas `blHPGLFont` for the same point size sets the width to the height
divided by 2.4; for the point size 12 the two widths are 127/1020 and
127/1224. -/
theorem C12_final_size_is_half_height (ps : Plotting) (s : HPGLState)
    (blSimplifyText : List Char → List Char) (x y xoff : REAL) (text : List Char)
    (TitleFont : Int) (TitleSize : REAL) (label : List Char) (LabelFont : Int)
    (LabelSize : REAL) (font : Int) :
    (∃ cmds, blHPGLVText ps s blSimplifyText x y xoff text TitleFont TitleSize label LabelFont
        LabelSize
      = some (emit (cmds ++ [.size (TitleSize * 2.54 / (1.7 * 72.0) / 2.0)
          (TitleSize * 2.54 / (1.7 * 72.0))]) s))
    ∧ (blHPGLFont ps s font TitleSize).sFontHcm = TitleSize * 2.54 / (1.7 * 72.0)
    ∧ (blHPGLFont ps s font TitleSize).sFontWcm = TitleSize * 2.54 / (1.7 * 72.0) / 2.4
    ∧ ((12 : REAL) * 2.54 / (1.7 * 72.0) / 2.0 = 127 / 1020
      ∧ (12 : REAL) * 2.54 / (1.7 * 72.0) / 2.4 = 127 / 1224) := by
  refine ⟨?_, rfl, rfl, by norm_num, by norm_num⟩
  simp only [blHPGLVText, fputs_eq_emit, emit_emit]
  obtain ⟨cmds, h⟩ := showText_total ps
    (emit ([Cmd.size (TitleSize * 2.54 / (1.7 * 72.0) / 2.0 * ps.PSxpicsize / ps.PSypicsize)
        (TitleSize * 2.54 / (1.7 * 72.0) * ps.PSypicsize / ps.PSxpicsize)]
      ++ [Cmd.vertPos
        (toInt (x * 10000.0
          - (blSimplifyText label).length * (LabelSize * 10000.0) / (2.0 * 72.0 * ps.PSxpicsize)
          + xoff * (10000.0 / (72.0 * ps.PSxpicsize))))
        (toInt (y * 10000.0 - (strlenTimes (blSimplifyText text).length s.sFontWidth / 2 : Nat)
          + (Int.tdiv s.sFontWidth 6 : Int)))]) s)
    text true
    (toInt (x * 10000.0
      - (blSimplifyText label).length * (LabelSize * 10000.0) / (2.0 * 72.0 * ps.PSxpicsize)
      + xoff * (10000.0 / (72.0 * ps.PSxpicsize))))
    (toInt (y * 10000.0 - (strlenTimes (blSimplifyText text).length s.sFontWidth / 2 : Nat)
      + (Int.tdiv s.sFontWidth 6 : Int)))
  rw [h]
  simp only [emit_emit, ← List.append_assoc]
  exact ⟨_, rfl⟩

/-! ## Conversion of coordinates and sizes -/

theorem toInt_of_nonneg (r : REAL) (h : 0 ≤ r) : toInt r = ⌊r⌋ := by
  unfold toInt
  rw [if_pos h]

theorem floor_le_round (r : REAL) : ⌊r⌋ ≤ round r ∧ round r ≤ ⌊r⌋ + 1 := by
  rw [round_eq]
  constructor
  · exact Int.floor_mono (by linarith)
  · have h : ⌊r + 1 / 2⌋ ≤ ⌊r + 1⌋ := Int.floor_mono (by linarith)
    rw [Int.floor_add_one] at h
    exact h

theorem fl_id_blHPGLMove (s : HPGLState) (x y : REAL) :
    Fl.blHPGLMove id s x y = blHPGLMove s x y := rfl

theorem fl_id_blHPGLDraw (s : HPGLState) (x y : REAL) :
    Fl.blHPGLDraw id s x y = blHPGLDraw s x y := rfl

theorem fl_id_blHPGLLText (ps : Plotting) (s : HPGLState) (x y : REAL) (text : List Char) :
    Fl.blHPGLLText id ps s x y text = blHPGLLText ps s x y text := rfl

theorem fl_id_blHPGLFont (ps : Plotting) (s : HPGLState) (font : Int) (size : REAL) :
    Fl.blHPGLFont id ps s font size = blHPGLFont ps s font size := rfl

theorem floor_near_round (v y : ℚ) (h : |v - y| ≤ 1 / 2) :
    round y - 1 ≤ ⌊v⌋ ∧ ⌊v⌋ ≤ round y := by
  rw [abs_le] at h
  rw [round_eq]
  constructor
  · have h1 : ⌊y + 1 / 2 - 1⌋ ≤ ⌊v⌋ := Int.floor_mono (by linarith)
    rw [Int.floor_sub_one] at h1
    exact h1
  · exact Int.floor_mono (by linarith)

/-- The product `10000 * x` in `double` arithmetic, for `x` between 0 and 1: it
is within `2 ^ (-40)` of the exact product and lies between 0 and 10000. -/
theorem fl64_coord (x : ℚ) (hx : 0 ≤ x ∧ x ≤ 1) :
    |fl64 (10000 * x) - 10000 * x| ≤ 1 / 2 ^ 40
    ∧ 0 ≤ fl64 (10000 * x) ∧ fl64 (10000 * x) ≤ 10000 := by
  have h0 : (0 : ℚ) ≤ 10000 * x := by linarith [hx.1]
  have h1 : (10000 : ℚ) * x ≤ 10000 := by linarith [hx.2]
  have habs : |(10000 : ℚ) * x| < 2 ^ ((13 : Int) + 1) := by
    rw [abs_of_nonneg h0]
    have : ((2 : ℚ) ^ ((13 : Int) + 1)) = 16384 := by norm_num
    rw [this]
    linarith
  refine ⟨?_, fl64_nonneg _ h0, ?_⟩
  · have h := fl64_error (10000 * x) 13 (by norm_num) habs
    have e : ((2 : ℚ) ^ ((13 : Int) - 53)) = 1 / 2 ^ 40 := by norm_num
    rw [e] at h
    exact h
  · by_cases hz : (10000 : ℚ) * x = 0
    · rw [hz, fl64_zero]; norm_num
    · have hu := ulpExp_le (10000 * x) 13 hz (by norm_num) habs
      have h := fl64_le_int (10000 * x) 10000 (by exact_mod_cast h1) (by omega)
      exact_mod_cast h

/-- C13, refuted as stated: for the coordinate x = 0.00006 (the `double` nearest
to it, within [0,1]) `blHPGLMove` writes the device coordinate 0, while
`round(x*10000)` is 1. -/
theorem C13_counterexample_not_rounded :
    ((0 : REAL) ≤ fl64 (3 / 50000) ∧ fl64 (3 / 50000) ≤ 1)
    ∧ Fl.blHPGLMove fl64 demoState (fl64 (3 / 50000)) 0 = emit [.moveLine 0 0] demoState
    ∧ round (fl64 (3 / 50000) * 10000) = 1
    ∧ Fl.blHPGLMove fl64 demoState (fl64 (3 / 50000)) 0
      ≠ emit [.moveLine (round (fl64 (3 / 50000) * 10000)) (round ((0 : REAL) * 10000))]
          demoState := by
  have hB : fl64 (3 / 50000) = (8854437155380585 / 147573952589676412928) := by
    have h := fl64_eq_of_near (3 / 50000) 8854437155380585 (-67) (by norm_num)
      (by norm_num [abs_of_pos]) (by norm_num [abs_of_pos]) (by norm_num [abs_lt])
    rw [h]
    norm_num
  have hB2 : fl64 (10000 * (8854437155380585 / 147573952589676412928))
      = (5404319552844595 / 9007199254740992) := by
    have h := fl64_eq_of_near (10000 * (8854437155380585 / 147573952589676412928))
      5404319552844595 (-53) (by norm_num)
      (by norm_num [abs_of_pos]) (by norm_num [abs_of_pos]) (by norm_num [abs_lt])
    rw [h]
    norm_num
  have h1 : toInt (fl64 (10000 * fl64 (3 / 50000))) = 0 := by
    rw [hB, hB2]
    apply toInt_of_floor <;> norm_num
  have h2 : toInt (fl64 (10000 * 0)) = 0 := by
    rw [mul_zero, fl64_zero]
    apply toInt_of_floor <;> norm_num
  have h3 : round (fl64 (3 / 50000) * 10000) = 1 := by
    rw [hB, round_eq, Int.floor_eq_iff]
    norm_num
  have h4 : Fl.blHPGLMove fl64 demoState (fl64 (3 / 50000)) 0
      = emit [.moveLine 0 0] demoState := by
    simp only [Fl.blHPGLMove, h1, h2, fputs_eq_emit]
  refine ⟨by rw [hB]; norm_num, h4, h3, ?_⟩
  rw [h4, h3]
  intro h
  have h5 := congrArg HPGLState.sHPGLFile h
  simp [emit, demoState] at h5

/-- C13, amended: for every normalized coordinate in [0,1] the device
coordinate that `blHPGLMove`, `blHPGLDraw` and `blHPGLLText` write is the
product `10000 * x` as `double` arithmetic gives it (the exact product rounded
to the nearest `double`, within `2 ^ (-40)` of it), truncated toward zero; it
lies in 0..10000 and is `round(x*10000)` or one less; `blHPGLLText` passes the
same pair to the markup engine as base position; at the boundaries 0 gives 0
and 1 gives 10000.  For the `double` nearest to 0.29 the coordinate is 2900,
the rounded product truncated, where the exact product truncated is 2899;
for the `double` nearest to 0.0003 the coordinate is 2. -/
theorem C13_coordinate_truncated (ps : Plotting) (s : HPGLState) (x y : REAL)
    (text : List Char) (hx : 0 ≤ x ∧ x ≤ 1) (hy : 0 ≤ y ∧ y ≤ 1) :
    Fl.blHPGLMove fl64 s x y = emit [.moveLine ⌊fl64 (10000 * x)⌋ ⌊fl64 (10000 * y)⌋] s
    ∧ Fl.blHPGLDraw fl64 s x y = emit [.drawLine ⌊fl64 (10000 * x)⌋ ⌊fl64 (10000 * y)⌋] s
    ∧ Fl.blHPGLLText fl64 ps s x y text
      = blHPGLShowText ps (emit [.textPos ⌊fl64 (10000 * x)⌋ ⌊fl64 (10000 * y)⌋] s) text false
          ⌊fl64 (10000 * x)⌋ ⌊fl64 (10000 * y)⌋
    ∧ |fl64 (10000 * x) - 10000 * x| ≤ 1 / 2 ^ 40
    ∧ (0 ≤ ⌊fl64 (10000 * x)⌋ ∧ ⌊fl64 (10000 * x)⌋ ≤ 10000)
    ∧ (round (x * 10000) - 1 ≤ ⌊fl64 (10000 * x)⌋ ∧ ⌊fl64 (10000 * x)⌋ ≤ round (x * 10000))
    ∧ toInt (fl64 (10000 * (0 : REAL))) = 0 ∧ toInt (fl64 (10000 * (1 : REAL))) = 10000
    ∧ toInt (fl64 (10000 * fl64 (29 / 100))) = 2900 ∧ ⌊10000 * fl64 (29 / 100)⌋ = 2899
    ∧ toInt (fl64 (10000 * fl64 (3 / 10000))) = 2 := by
  obtain ⟨hex, hx0, hx1⟩ := fl64_coord x hx
  obtain ⟨_, hy0, _⟩ := fl64_coord y hy
  have ex : toInt (fl64 (10000 * x)) = ⌊fl64 (10000 * x)⌋ := toInt_of_nonneg _ hx0
  have ey : toInt (fl64 (10000 * y)) = ⌊fl64 (10000 * y)⌋ := toInt_of_nonneg _ hy0
  have e10 : (10000.0 : REAL) = 10000 := by norm_num
  have hA : fl64 (29 / 100) = (5224175567749775 / 18014398509481984) := by
    have h := fl64_eq_of_near (29 / 100) 5224175567749775 (-54) (by norm_num)
      (by norm_num [abs_of_pos]) (by norm_num [abs_of_pos]) (by norm_num [abs_lt])
    rw [h]
    norm_num
  have hA2 : fl64 (10000 * (5224175567749775 / 18014398509481984)) = 2900 := by
    have h := fl64_eq_of_near (10000 * (5224175567749775 / 18014398509481984))
      6377167441100800 (-41) (by norm_num)
      (by norm_num [abs_of_pos]) (by norm_num [abs_of_pos]) (by norm_num [abs_lt])
    rw [h]
    norm_num
  have h1 : fl64 (10000 * 1) = 10000 := by
    have h := fl64_eq_of_near (10000 * 1) 5497558138880000 (-39) (by norm_num)
      (by norm_num [abs_of_pos]) (by norm_num [abs_of_pos]) (by norm_num [abs_lt])
    rw [h]
    norm_num
  have hC : fl64 (3 / 10000) = (5534023222112865 / 18446744073709551616) := by
    have h := fl64_eq_of_near (3 / 10000) 5534023222112865 (-64) (by norm_num)
      (by norm_num [abs_of_pos]) (by norm_num [abs_of_pos]) (by norm_num [abs_lt])
    rw [h]
    norm_num
  have hC2 : fl64 (10000 * (5534023222112865 / 18446744073709551616))
      = (6755399441055743 / 2251799813685248) := by
    have h := fl64_eq_of_near (10000 * (5534023222112865 / 18446744073709551616))
      6755399441055743 (-51) (by norm_num)
      (by norm_num [abs_of_pos]) (by norm_num [abs_of_pos]) (by norm_num [abs_lt])
    rw [h]
    norm_num
  refine ⟨?_, ?_, ?_, hex, ⟨?_, ?_⟩, ?_, ?_, ?_, ?_, ?_, ?_⟩
  · simp only [Fl.blHPGLMove, ex, ey, fputs_eq_emit]
  · simp only [Fl.blHPGLDraw, ex, ey, fputs_eq_emit]
  · simp only [Fl.blHPGLLText, e10, ex, ey, fputs_eq_emit]
  · exact Int.floor_nonneg.mpr hx0
  · have h : ⌊fl64 (10000 * x)⌋ ≤ ⌊(10000 : REAL)⌋ := Int.floor_mono hx1
    have h2 : ⌊(10000 : REAL)⌋ = 10000 := by
      exact_mod_cast Int.floor_intCast (10000 : Int)
    omega
  · rw [mul_comm x 10000]
    exact floor_near_round _ _ (le_trans hex (by norm_num))
  · rw [mul_zero, fl64_zero]
    apply toInt_of_floor <;> norm_num
  · rw [h1]
    apply toInt_of_floor <;> norm_num
  · rw [hA, hA2]
    apply toInt_of_floor <;> norm_num
  · rw [hA, Int.floor_eq_iff]
    norm_num
  · rw [hC, hC2]
    apply toInt_of_floor <;> norm_num

theorem C13_coordinate_truncated_witness :
    ((0 : REAL) ≤ 1 / 2 ∧ (1 / 2 : REAL) ≤ 1) ∧ ((0 : REAL) ≤ 3 / 50000 ∧ (3 / 50000 : REAL) ≤ 1)
    ∧ (Fl.blHPGLMove fl64 demoState (1 / 2) (3 / 50000)
        = emit [.moveLine ⌊fl64 (10000 * (1 / 2))⌋ ⌊fl64 (10000 * (3 / 50000))⌋] demoState
      ∧ Fl.blHPGLDraw fl64 demoState (1 / 2) (3 / 50000)
        = emit [.drawLine ⌊fl64 (10000 * (1 / 2))⌋ ⌊fl64 (10000 * (3 / 50000))⌋] demoState
      ∧ Fl.blHPGLLText fl64 demoPlot demoState (1 / 2) (3 / 50000) ['a']
        = blHPGLShowText demoPlot
            (emit [.textPos ⌊fl64 (10000 * (1 / 2))⌋ ⌊fl64 (10000 * (3 / 50000))⌋] demoState)
            ['a'] false ⌊fl64 (10000 * (1 / 2))⌋ ⌊fl64 (10000 * (3 / 50000))⌋
      ∧ |fl64 (10000 * (1 / 2)) - 10000 * (1 / 2)| ≤ 1 / 2 ^ 40
      ∧ (0 ≤ ⌊fl64 (10000 * (1 / 2))⌋ ∧ ⌊fl64 (10000 * (1 / 2))⌋ ≤ 10000)
      ∧ (round ((1 / 2 : REAL) * 10000) - 1 ≤ ⌊fl64 (10000 * (1 / 2))⌋
        ∧ ⌊fl64 (10000 * (1 / 2))⌋ ≤ round ((1 / 2 : REAL) * 10000))
      ∧ toInt (fl64 (10000 * (0 : REAL))) = 0 ∧ toInt (fl64 (10000 * (1 : REAL))) = 10000
      ∧ toInt (fl64 (10000 * fl64 (29 / 100))) = 2900 ∧ ⌊10000 * fl64 (29 / 100)⌋ = 2899
      ∧ toInt (fl64 (10000 * fl64 (3 / 10000))) = 2) :=
  ⟨⟨by norm_num, by norm_num⟩, ⟨by norm_num, by norm_num⟩,
    C13_coordinate_truncated demoPlot demoState (1 / 2) (3 / 50000) ['a']
      ⟨by norm_num, by norm_num⟩ ⟨by norm_num, by norm_num⟩⟩

theorem toInt_near_round (r : REAL) : round r - 1 ≤ toInt r ∧ toInt r ≤ round r + 1 := by
  have hr := floor_le_round r
  unfold toInt
  split
  · omega
  · have h1 : ⌈r⌉ ≤ ⌊r⌋ + 1 := Int.ceil_le_floor_add_one r
    have h2 : ⌊r⌋ ≤ ⌈r⌉ := Int.floor_le_ceil r
    have h3 : round r ≤ ⌈r⌉ := by
      rw [round_eq]
      have a := Int.floor_le (r + 1 / 2)
      have b := Int.le_ceil r
      have c : ((⌊r + 1 / 2⌋ : Int) : ℚ) < ((⌈r⌉ + 1 : Int) : ℚ) := by
        push_cast
        linarith
      have d : ⌊r + 1 / 2⌋ < ⌈r⌉ + 1 := by exact_mod_cast c
      omega
    omega

/-- The error of a rounded product of two approximations. -/
theorem fl64_mul_err (v1 r1 v2 r2 e1 e2 R1 R2 : ℚ) (k : Int) (hk : -1022 ≤ k)
    (h1 : |v1 - r1| ≤ e1) (h2 : |v2 - r2| ≤ e2) (hR1 : |r1| ≤ R1) (hR2 : |r2| ≤ R2)
    (hb : (R1 + e1) * (R2 + e2) < 2 ^ (k + 1)) :
    |fl64 (v1 * v2) - r1 * r2| ≤ e1 * (R2 + e2) + R1 * e2 + 2 ^ (k - 53) := by
  have he1 : 0 ≤ e1 := le_trans (abs_nonneg _) h1
  have he2 : 0 ≤ e2 := le_trans (abs_nonneg _) h2
  have hR1n : 0 ≤ R1 := le_trans (abs_nonneg _) hR1
  have hR2n : 0 ≤ R2 := le_trans (abs_nonneg _) hR2
  have hv1 : |v1| ≤ R1 + e1 := by
    have := abs_add (v1 - r1) r1
    rw [sub_add_cancel] at this
    linarith
  have hv2 : |v2| ≤ R2 + e2 := by
    have := abs_add (v2 - r2) r2
    rw [sub_add_cancel] at this
    linarith
  have hq : |v1 * v2| < 2 ^ (k + 1) := by
    rw [abs_mul]
    exact lt_of_le_of_lt (mul_le_mul hv1 hv2 (abs_nonneg _) (by linarith)) hb
  have hf := fl64_error (v1 * v2) k hk hq
  have hd : |v1 * v2 - r1 * r2| ≤ e1 * (R2 + e2) + R1 * e2 := by
    have e : v1 * v2 - r1 * r2 = (v1 - r1) * v2 + r1 * (v2 - r2) := by ring
    rw [e]
    calc |(v1 - r1) * v2 + r1 * (v2 - r2)|
        ≤ |(v1 - r1) * v2| + |r1 * (v2 - r2)| := abs_add _ _
      _ = |v1 - r1| * |v2| + |r1| * |v2 - r2| := by rw [abs_mul, abs_mul]
      _ ≤ e1 * (R2 + e2) + R1 * e2 :=
          add_le_add (mul_le_mul h1 hv2 (abs_nonneg _) he1)
            (mul_le_mul hR1 h2 (abs_nonneg _) hR1n)
  calc |fl64 (v1 * v2) - r1 * r2|
      = |(fl64 (v1 * v2) - v1 * v2) + (v1 * v2 - r1 * r2)| := by ring_nf
    _ ≤ |fl64 (v1 * v2) - v1 * v2| + |v1 * v2 - r1 * r2| := abs_add _ _
    _ ≤ e1 * (R2 + e2) + R1 * e2 + 2 ^ (k - 53) := by linarith

/-- The error of a rounded quotient of two approximations, the divisors being at
least `L`. -/
theorem fl64_div_err (v1 r1 v2 r2 e1 e2 R1 L : ℚ) (k : Int) (hk : -1022 ≤ k)
    (h1 : |v1 - r1| ≤ e1) (h2 : |v2 - r2| ≤ e2) (hR1 : |r1| ≤ R1) (hL : 0 < L)
    (hr2 : L ≤ r2) (hv2 : L ≤ v2) (hb : (R1 + e1) / L < 2 ^ (k + 1)) :
    |fl64 (v1 / v2) - r1 / r2| ≤ e1 / L + R1 * e2 / (L * L) + 2 ^ (k - 53) := by
  have he1 : 0 ≤ e1 := le_trans (abs_nonneg _) h1
  have he2 : 0 ≤ e2 := le_trans (abs_nonneg _) h2
  have hR1n : 0 ≤ R1 := le_trans (abs_nonneg _) hR1
  have hv2p : 0 < v2 := lt_of_lt_of_le hL hv2
  have hr2p : 0 < r2 := lt_of_lt_of_le hL hr2
  have hv1 : |v1| ≤ R1 + e1 := by
    have := abs_add (v1 - r1) r1
    rw [sub_add_cancel] at this
    linarith
  have hq : |v1 / v2| < 2 ^ (k + 1) := by
    rw [abs_div, abs_of_pos hv2p]
    refine lt_of_le_of_lt ?_ hb
    exact div_le_div₀ (by linarith) hv1 hL hv2
  have hf := fl64_error (v1 / v2) k hk hq
  have hd : |v1 / v2 - r1 / r2| ≤ e1 / L + R1 * e2 / (L * L) := by
    have e : v1 / v2 - r1 / r2 = (v1 - r1) / v2 + r1 * (r2 - v2) / (v2 * r2) := by
      field_simp
      ring
    rw [e]
    have a1 : |(v1 - r1) / v2| ≤ e1 / L := by
      rw [abs_div, abs_of_pos hv2p]
      exact div_le_div₀ he1 h1 hL hv2
    have a2 : |r1 * (r2 - v2) / (v2 * r2)| ≤ R1 * e2 / (L * L) := by
      rw [abs_div, abs_mul, abs_of_pos (mul_pos hv2p hr2p)]
      have h2' : |r2 - v2| ≤ e2 := by rw [abs_sub_comm]; exact h2
      exact div_le_div₀ (mul_nonneg hR1n he2)
        (mul_le_mul hR1 h2' (abs_nonneg _) hR1n) (mul_pos hL hL)
        (mul_le_mul hv2 hr2 (le_of_lt hL) (le_of_lt hv2p))
    exact le_trans (abs_add _ _) (add_le_add a1 a2)
  calc |fl64 (v1 / v2) - r1 / r2|
      = |(fl64 (v1 / v2) - v1 / v2) + (v1 / v2 - r1 / r2)| := by ring_nf
    _ ≤ |fl64 (v1 / v2) - v1 / v2| + |v1 / v2 - r1 / r2| := abs_add _ _
    _ ≤ e1 / L + R1 * e2 / (L * L) + 2 ^ (k - 53) := by linarith

/-- The height that `blHPGLFont` computes in `double` arithmetic is within one
half of the exact value of its expression, for sizes up to 1000 points and
picture heights between 0.01 and 1000. -/
theorem fl64_font_height_near (size py : ℚ) (hs : 0 ≤ size) (hs2 : size ≤ 1000)
    (hy1 : 1 / 100 ≤ py) (hy2 : py ≤ 1000) :
    |fl64 (fl64 (size * 10000) / fl64 (72 * py)) - size * 10000 / (72 * py)| ≤ 1 / 2 := by
  have ha : |fl64 (size * 10000) - size * 10000| ≤ 2 ^ ((23 : Int) - 53) := by
    apply fl64_error _ 23 (by norm_num)
    rw [abs_of_nonneg (by positivity)]
    norm_num
    linarith
  have hb : |fl64 (72 * py) - 72 * py| ≤ 2 ^ ((16 : Int) - 53) := by
    apply fl64_error _ 16 (by norm_num)
    rw [abs_of_nonneg (by linarith)]
    norm_num
    linarith
  have hbv : (7 / 10 : ℚ) ≤ fl64 (72 * py) := by
    have hb2 : |fl64 (72 * py) - 72 * py| ≤ 1 / 100 := le_trans hb (by norm_num)
    have := (abs_le.mp hb2).1
    linarith
  have hR : |size * 10000| ≤ 10000000 := by
    rw [abs_of_nonneg (by positivity)]
    linarith
  have h := fl64_div_err (fl64 (size * 10000)) (size * 10000) (fl64 (72 * py)) (72 * py)
    _ _ 10000000 (7 / 10) 23 (by norm_num) ha hb hR (by norm_num) (by linarith) hbv
    (by norm_num)
  exact le_trans h (by norm_num)

/-- The width that `blHPGLFont` computes in `double` arithmetic is within one
half of the exact value of its expression, for sizes up to 1000 points and
picture widths from 0.01. -/
theorem fl64_font_width_near (size px : ℚ) (hs : 0 ≤ size) (hs2 : size ≤ 1000)
    (hx1 : 1 / 100 ≤ px) :
    |fl64 (fl64 (fl64 (fl64 (fl64 (size * fl64 2.54) / fl64 (fl64 1.7 * 72.0)) * fl64 0.6154)
        / fl64 2.54) * fl64 (10000 / px))
      - size * 2.54 / (1.7 * 72.0) * 0.6154 / 2.54 * (10000 / px)| ≤ 1 / 2 := by
  have c254 : fl64 (2.54) = (2859785763380265 / 1125899906842624) := by
    have h := fl64_eq_of_near (2.54) 5719571526760530 (-51) (by norm_num)
      (by norm_num [abs_of_pos]) (by norm_num [abs_of_pos]) (by norm_num [abs_lt])
    rw [h]
    norm_num
  have c17 : fl64 (1.7) = (7656119366529843 / 4503599627370496) := by
    have h := fl64_eq_of_near (1.7) 7656119366529843 (-52) (by norm_num)
      (by norm_num [abs_of_pos]) (by norm_num [abs_of_pos]) (by norm_num [abs_lt])
    rw [h]
    norm_num
  have c6154 : fl64 (0.6154) = (2771515210683803 / 4503599627370496) := by
    have h := fl64_eq_of_near (0.6154) 5543030421367606 (-53) (by norm_num)
      (by norm_num [abs_of_pos]) (by norm_num [abs_of_pos]) (by norm_num [abs_lt])
    rw [h]
    norm_num
  have a2 : fl64 ((7656119366529843 / 4503599627370496) * 72.0)
      = (8613134287346073 / 70368744177664) := by
    have h := fl64_eq_of_near ((7656119366529843 / 4503599627370496) * 72.0)
      8613134287346073 (-46) (by norm_num)
      (by norm_num [abs_of_pos]) (by norm_num [abs_of_pos]) (by norm_num [abs_lt])
    rw [h]
    norm_num
  rw [c254, c17, c6154, a2]
  have hpx : (0 : ℚ) < px := by linarith
  have hsz : |size - size| ≤ 0 := by simp
  have k254 : |(2859785763380265 / 1125899906842624 : ℚ) - 2.54| ≤ 2 ^ (-50 : Int) := by
    norm_num [abs_le]
  have k6154 : |(2771515210683803 / 4503599627370496 : ℚ) - 0.6154| ≤ 2 ^ (-50 : Int) := by
    norm_num [abs_le]
  have k2 : |(8613134287346073 / 70368744177664 : ℚ) - 1.7 * 72.0| ≤ 2 ^ (-40 : Int) := by
    norm_num [abs_le]
  -- size * 2.54
  have h1 : |fl64 (size * (2859785763380265 / 1125899906842624)) - size * 2.54|
      ≤ 1 / 10 ^ 11 := by
    have h := fl64_mul_err size size (2859785763380265 / 1125899906842624) 2.54 0
      (2 ^ (-50 : Int)) 1000 3 11 (by norm_num) hsz k254
      (by rw [abs_of_nonneg hs]; exact hs2) (by norm_num [abs_of_pos]) (by norm_num)
    exact le_trans h (by norm_num)
  -- / (1.7 * 72.0)
  have r1 : |size * 2.54| ≤ 2540 := by
    rw [abs_of_nonneg (by positivity)]
    norm_num
    linarith
  have h2 : |fl64 (fl64 (size * (2859785763380265 / 1125899906842624))
        / (8613134287346073 / 70368744177664)) - size * 2.54 / (1.7 * 72.0)|
      ≤ 1 / 10 ^ 11 := by
    have h := fl64_div_err (fl64 (size * (2859785763380265 / 1125899906842624)))
      (size * 2.54) (8613134287346073 / 70368744177664) (1.7 * 72.0) _ _ 2540 122 4
      (by norm_num) h1 k2 r1 (by norm_num) (by norm_num) (by norm_num) (by norm_num)
    exact le_trans h (by norm_num)
  -- * 0.6154
  have r2 : |size * 2.54 / (1.7 * 72.0)| ≤ 21 := by
    rw [abs_of_nonneg (by positivity)]
    norm_num
    linarith
  have h3 : |fl64 (fl64 (fl64 (size * (2859785763380265 / 1125899906842624))
        / (8613134287346073 / 70368744177664)) * (2771515210683803 / 4503599627370496))
        - size * 2.54 / (1.7 * 72.0) * 0.6154|
      ≤ 1 / 10 ^ 10 := by
    have h := fl64_mul_err _ _ (2771515210683803 / 4503599627370496) 0.6154 _ _ 21 1 4
      (by norm_num) h2 k6154 r2 (by norm_num [abs_of_pos]) (by norm_num)
    exact le_trans h (by norm_num)
  -- / 2.54
  have r3 : |size * 2.54 / (1.7 * 72.0) * 0.6154| ≤ 13 := by
    rw [abs_of_nonneg (by positivity)]
    norm_num
    linarith
  have h4 : |fl64 (fl64 (fl64 (fl64 (size * (2859785763380265 / 1125899906842624))
        / (8613134287346073 / 70368744177664)) * (2771515210683803 / 4503599627370496))
        / (2859785763380265 / 1125899906842624))
        - size * 2.54 / (1.7 * 72.0) * 0.6154 / 2.54|
      ≤ 1 / 10 ^ 10 := by
    have h := fl64_div_err _ _ (2859785763380265 / 1125899906842624) 2.54 _ _ 13 (5 / 2) 2
      (by norm_num) h3 k254 r3 (by norm_num) (by norm_num) (by norm_num) (by norm_num)
    exact le_trans h (by norm_num)
  -- 10000 / px
  have r5 : |10000 / px| ≤ 1000000 := by
    rw [abs_of_pos (by positivity), div_le_iff₀ hpx]
    linarith
  have h5 : |fl64 (10000 / px) - 10000 / px| ≤ 2 ^ ((19 : Int) - 53) := by
    apply fl64_error _ 19 (by norm_num)
    exact lt_of_le_of_lt r5 (by norm_num)
  -- the product
  have r4 : |size * 2.54 / (1.7 * 72.0) * 0.6154 / 2.54| ≤ 6 := by
    rw [abs_of_nonneg (by positivity)]
    norm_num
    linarith
  have h := fl64_mul_err _ _ (fl64 (10000 / px)) (10000 / px) _ _ 6 1000000 22
    (by norm_num) h4 h5 r4 r5 (by norm_num)
  exact le_trans h (by norm_num)

/-- The two sizes in cm that `blHPGLFont(0, 12.0)` computes in `double`
arithmetic. -/
theorem fl64_font_12_cm (ps : Plotting) (s : HPGLState) :
    (Fl.blHPGLFont fl64 ps s 0 12).sFontHcm = 8971876904722401 / 36028797018963968
    ∧ (Fl.blHPGLFont fl64 ps s 0 12).sFontWcm = 1869141021817167 / 18014398509481984 := by
  have c254 : fl64 (2.54) = (2859785763380265 / 1125899906842624) := by
    have h := fl64_eq_of_near (2.54) 5719571526760530 (-51) (by norm_num)
      (by norm_num [abs_of_pos]) (by norm_num [abs_of_pos]) (by norm_num [abs_lt])
    rw [h]
    norm_num
  have c17 : fl64 (1.7) = (7656119366529843 / 4503599627370496) := by
    have h := fl64_eq_of_near (1.7) 7656119366529843 (-52) (by norm_num)
      (by norm_num [abs_of_pos]) (by norm_num [abs_of_pos]) (by norm_num [abs_lt])
    rw [h]
    norm_num
  have c24 : fl64 (2.4) = (5404319552844595 / 2251799813685248) := by
    have h := fl64_eq_of_near (2.4) 5404319552844595 (-51) (by norm_num)
      (by norm_num [abs_of_pos]) (by norm_num [abs_of_pos]) (by norm_num [abs_lt])
    rw [h]
    norm_num
  have a1 : fl64 (12 * (2859785763380265 / 1125899906842624))
      = (8579357290140795 / 281474976710656) := by
    have h := fl64_eq_of_near (12 * (2859785763380265 / 1125899906842624))
      8579357290140795 (-48) (by norm_num)
      (by norm_num [abs_of_pos]) (by norm_num [abs_of_pos]) (by norm_num [abs_lt])
    rw [h]
    norm_num
  have a2 : fl64 ((7656119366529843 / 4503599627370496) * 72.0)
      = (8613134287346073 / 70368744177664) := by
    have h := fl64_eq_of_near ((7656119366529843 / 4503599627370496) * 72.0)
      8613134287346073 (-46) (by norm_num)
      (by norm_num [abs_of_pos]) (by norm_num [abs_of_pos]) (by norm_num [abs_lt])
    rw [h]
    norm_num
  have hcm : fl64 ((8579357290140795 / 281474976710656) / (8613134287346073 / 70368744177664))
      = (8971876904722401 / 36028797018963968) := by
    have h := fl64_eq_of_near ((8579357290140795 / 281474976710656) / (8613134287346073 / 70368744177664))
      8971876904722401 (-55) (by norm_num)
      (by norm_num [abs_of_pos]) (by norm_num [abs_of_pos]) (by norm_num [abs_lt])
    rw [h]
    norm_num
  have wcm : fl64 ((8971876904722401 / 36028797018963968) / (5404319552844595 / 2251799813685248))
      = (1869141021817167 / 18014398509481984) := by
    have h := fl64_eq_of_near ((8971876904722401 / 36028797018963968) / (5404319552844595 / 2251799813685248))
      7476564087268668 (-56) (by norm_num)
      (by norm_num [abs_of_pos]) (by norm_num [abs_of_pos]) (by norm_num [abs_lt])
    rw [h]
    norm_num
  constructor
  · show fl64 (fl64 (12 * fl64 2.54) / fl64 (fl64 1.7 * 72.0)) = _
    rw [c254, c17, a1, a2, hcm]
  · show fl64 (fl64 (fl64 (12 * fl64 2.54) / fl64 (fl64 1.7 * 72.0)) / fl64 2.4) = _
    rw [c254, c17, c24, a1, a2, hcm, wcm]

/-- On the scenario of the claims about texts (picture of 10 by 8, font of 12
points) `double` arithmetic gives the device sizes 208 and 60 that exact
arithmetic gives, and the two sizes in cm that it computes are printed with
the same characters as the exact ones, with three decimals and with six. -/
theorem fl64_font_12_agrees (s : HPGLState) :
    (Fl.blHPGLFont fl64 demoPlot s 0 12).sFontHeight = 208
    ∧ (Fl.blHPGLFont fl64 demoPlot s 0 12).sFontWidth = 60
    ∧ fmtF 3 (Fl.blHPGLFont fl64 demoPlot s 0 12).sFontWcm = "0.104".toList
    ∧ fmtF 3 (Fl.blHPGLFont fl64 demoPlot s 0 12).sFontHcm = "0.249".toList
    ∧ fmtF 6 (Fl.blHPGLFont fl64 demoPlot s 0 12).sFontWcm = "0.103758".toList
    ∧ fmtF 6 (fl64 ((Fl.blHPGLFont fl64 demoPlot s 0 12).sFontHcm / 2)) = "0.124510".toList
    ∧ fmtF 6 (Fl.blHPGLFont fl64 demoPlot s 0 12).sFontHcm = "0.249020".toList := by
  have c254 : fl64 (2.54) = (2859785763380265 / 1125899906842624) := by
    have h := fl64_eq_of_near (2.54) 5719571526760530 (-51) (by norm_num)
      (by norm_num [abs_of_pos]) (by norm_num [abs_of_pos]) (by norm_num [abs_lt])
    rw [h]
    norm_num
  have c17 : fl64 (1.7) = (7656119366529843 / 4503599627370496) := by
    have h := fl64_eq_of_near (1.7) 7656119366529843 (-52) (by norm_num)
      (by norm_num [abs_of_pos]) (by norm_num [abs_of_pos]) (by norm_num [abs_lt])
    rw [h]
    norm_num
  have c24 : fl64 (2.4) = (5404319552844595 / 2251799813685248) := by
    have h := fl64_eq_of_near (2.4) 5404319552844595 (-51) (by norm_num)
      (by norm_num [abs_of_pos]) (by norm_num [abs_of_pos]) (by norm_num [abs_lt])
    rw [h]
    norm_num
  have c6154 : fl64 (0.6154) = (2771515210683803 / 4503599627370496) := by
    have h := fl64_eq_of_near (0.6154) 5543030421367606 (-53) (by norm_num)
      (by norm_num [abs_of_pos]) (by norm_num [abs_of_pos]) (by norm_num [abs_lt])
    rw [h]
    norm_num
  have a1 : fl64 (12 * (2859785763380265 / 1125899906842624))
      = (8579357290140795 / 281474976710656) := by
    have h := fl64_eq_of_near (12 * (2859785763380265 / 1125899906842624))
      8579357290140795 (-48) (by norm_num)
      (by norm_num [abs_of_pos]) (by norm_num [abs_of_pos]) (by norm_num [abs_lt])
    rw [h]
    norm_num
  have a2 : fl64 ((7656119366529843 / 4503599627370496) * 72.0)
      = (8613134287346073 / 70368744177664) := by
    have h := fl64_eq_of_near ((7656119366529843 / 4503599627370496) * 72.0)
      8613134287346073 (-46) (by norm_num)
      (by norm_num [abs_of_pos]) (by norm_num [abs_of_pos]) (by norm_num [abs_lt])
    rw [h]
    norm_num
  have hcm : fl64 ((8579357290140795 / 281474976710656) / (8613134287346073 / 70368744177664))
      = (8971876904722401 / 36028797018963968) := by
    have h := fl64_eq_of_near ((8579357290140795 / 281474976710656) / (8613134287346073 / 70368744177664))
      8971876904722401 (-55) (by norm_num)
      (by norm_num [abs_of_pos]) (by norm_num [abs_of_pos]) (by norm_num [abs_lt])
    rw [h]
    norm_num
  have wcm : fl64 ((8971876904722401 / 36028797018963968) / (5404319552844595 / 2251799813685248))
      = (1869141021817167 / 18014398509481984) := by
    have h := fl64_eq_of_near ((8971876904722401 / 36028797018963968) / (5404319552844595 / 2251799813685248))
      7476564087268668 (-56) (by norm_num)
      (by norm_num [abs_of_pos]) (by norm_num [abs_of_pos]) (by norm_num [abs_lt])
    rw [h]
    norm_num
  have b1 : fl64 (12 * 10000.0) = 120000 := by
    have h := fl64_eq_of_near (12 * 10000.0) 8246337208320000 (-36) (by norm_num)
      (by norm_num [abs_of_pos]) (by norm_num [abs_of_pos]) (by norm_num [abs_lt])
    rw [h]
    norm_num
  have b2 : fl64 (72.0 * 8) = 576 := by
    have h := fl64_eq_of_near (72.0 * 8) 5066549580791808 (-43) (by norm_num)
      (by norm_num [abs_of_pos]) (by norm_num [abs_of_pos]) (by norm_num [abs_lt])
    rw [h]
    norm_num
  have b3 : fl64 (120000 / 576) = (7330077518506667 / 35184372088832) := by
    have h := fl64_eq_of_near (120000 / 576) 7330077518506667 (-45) (by norm_num)
      (by norm_num [abs_of_pos]) (by norm_num [abs_of_pos]) (by norm_num [abs_lt])
    rw [h]
    norm_num
  have w1 : fl64 ((8971876904722401 / 36028797018963968) * (2771515210683803 / 4503599627370496))
      = (5521293047166165 / 36028797018963968) := by
    have h := fl64_eq_of_near ((8971876904722401 / 36028797018963968) * (2771515210683803 / 4503599627370496))
      5521293047166165 (-55) (by norm_num)
      (by norm_num [abs_of_pos]) (by norm_num [abs_of_pos]) (by norm_num [abs_lt])
    rw [h]
    norm_num
  have w2 : fl64 ((5521293047166165 / 36028797018963968) / (2859785763380265 / 1125899906842624))
      = (4347474840288319 / 72057594037927936) := by
    have h := fl64_eq_of_near ((5521293047166165 / 36028797018963968) / (2859785763380265 / 1125899906842624))
      8694949680576638 (-57) (by norm_num)
      (by norm_num [abs_of_pos]) (by norm_num [abs_of_pos]) (by norm_num [abs_lt])
    rw [h]
    norm_num
  have t1 : fl64 (10000.0 / 10) = 1000 := by
    have h := fl64_eq_of_near (10000.0 / 10) 8796093022208000 (-43) (by norm_num)
      (by norm_num [abs_of_pos]) (by norm_num [abs_of_pos]) (by norm_num [abs_lt])
    rw [h]
    norm_num
  have w3 : fl64 ((4347474840288319 / 72057594037927936) * 1000)
      = (8491161797438123 / 140737488355328) := by
    have h := fl64_eq_of_near ((4347474840288319 / 72057594037927936) * 1000)
      8491161797438123 (-47) (by norm_num)
      (by norm_num [abs_of_pos]) (by norm_num [abs_of_pos]) (by norm_num [abs_lt])
    rw [h]
    norm_num
  have hh : fl64 ((8971876904722401 / 36028797018963968) / 2)
      = (8971876904722401 / 72057594037927936) := by
    have h := fl64_eq_of_near ((8971876904722401 / 36028797018963968) / 2)
      8971876904722401 (-56) (by norm_num)
      (by norm_num [abs_of_pos]) (by norm_num [abs_of_pos]) (by norm_num [abs_lt])
    rw [h]
    norm_num
  have eh : (Fl.blHPGLFont fl64 demoPlot s 0 12).sFontHcm
      = 8971876904722401 / 36028797018963968 := by
    show fl64 (fl64 (12 * fl64 2.54) / fl64 (fl64 1.7 * 72.0)) = _
    rw [c254, c17, a1, a2, hcm]
  have ew : (Fl.blHPGLFont fl64 demoPlot s 0 12).sFontWcm
      = 1869141021817167 / 18014398509481984 := by
    show fl64 (fl64 (fl64 (12 * fl64 2.54) / fl64 (fl64 1.7 * 72.0)) / fl64 2.4) = _
    rw [c254, c17, c24, a1, a2, hcm, wcm]
  refine ⟨?_, ?_, ?_, ?_, ?_, ?_, ?_⟩
  · show toInt (fl64 (fl64 (12 * 10000.0) / fl64 (72.0 * demoPlot.PSypicsize))) = 208
    simp only [demoPlot]
    rw [b1, b2, b3]
    apply toInt_of_floor <;> norm_num
  · show toInt (fl64 (fl64 (fl64 (fl64 (fl64 (12 * fl64 2.54) / fl64 (fl64 1.7 * 72.0))
      * fl64 0.6154) / fl64 2.54) * fl64 (10000.0 / demoPlot.PSxpicsize))) = 60
    simp only [demoPlot]
    rw [c254, c17, c6154, a1, a2, hcm, w1, w2, t1, w3]
    apply toInt_of_floor <;> norm_num
  · rw [ew, fmtF_of_scaled 3 _ 104 (by norm_num [abs_of_pos]) (by norm_num [abs_of_pos])]
    norm_num
    decide
  · rw [eh, fmtF_of_scaled 3 _ 249 (by norm_num [abs_of_pos]) (by norm_num [abs_of_pos])]
    norm_num
    decide
  · rw [ew, fmtF_of_scaled 6 _ 103758 (by norm_num [abs_of_pos]) (by norm_num [abs_of_pos])]
    norm_num
    decide
  · rw [eh, hh, fmtF_of_scaled 6 _ 124510 (by norm_num [abs_of_pos]) (by norm_num [abs_of_pos])]
    norm_num
    decide
  · rw [eh, fmtF_of_scaled 6 _ 249020 (by norm_num [abs_of_pos]) (by norm_num [abs_of_pos])]
    norm_num
    decide

/-- C15: calling `blHPGLFont` twice in a row with the same font, point size and
picture size leaves the four font fields as the first call set them, and the
second call appends to the file the very command that the first call
appended. -/
theorem C15_font_idempotent (ps : Plotting) (s : HPGLState) (font : Int) (size : REAL) :
    (blHPGLFont ps (blHPGLFont ps s font size) font size).sFontHeight
      = (blHPGLFont ps s font size).sFontHeight
    ∧ (blHPGLFont ps (blHPGLFont ps s font size) font size).sFontWidth
      = (blHPGLFont ps s font size).sFontWidth
    ∧ (blHPGLFont ps (blHPGLFont ps s font size) font size).sFontHcm
      = (blHPGLFont ps s font size).sFontHcm
    ∧ (blHPGLFont ps (blHPGLFont ps s font size) font size).sFontWcm
      = (blHPGLFont ps s font size).sFontWcm
    ∧ ∃ c, (blHPGLFont ps s font size).sHPGLFile = s.sHPGLFile ++ [c]
        ∧ (blHPGLFont ps (blHPGLFont ps s font size) font size).sHPGLFile
          = (blHPGLFont ps s font size).sHPGLFile ++ [c] :=
  ⟨rfl, rfl, rfl, rfl, _, rfl, rfl⟩

/-- C16: `blHPGLSetDash` writes for the styles 0 to 5 the fixed strings `LT;`,
`LT1,2;`, `LT4,3;`, `LT2,3;`, `LT6,3;`, `LT5,3;`, each followed by a newline
and each reaching the file unchanged; the six strings are pairwise distinct;
for every other style, negative or greater than 5, nothing is written. -/
theorem C16_dash_styles (s : HPGLState) :
    blHPGLSetDash s 0 = emit [.literal "LT;\n".toList] s
    ∧ blHPGLSetDash s 1 = emit [.literal "LT1,2;\n".toList] s
    ∧ blHPGLSetDash s 2 = emit [.literal "LT4,3;\n".toList] s
    ∧ blHPGLSetDash s 3 = emit [.literal "LT2,3;\n".toList] s
    ∧ blHPGLSetDash s 4 = emit [.literal "LT6,3;\n".toList] s
    ∧ blHPGLSetDash s 5 = emit [.literal "LT5,3;\n".toList] s
    ∧ List.map (fun t => Cmd.written (.literal t))
        ["LT;\n".toList, "LT1,2;\n".toList, "LT4,3;\n".toList, "LT2,3;\n".toList,
          "LT6,3;\n".toList, "LT5,3;\n".toList]
      = ["LT;\n".toList, "LT1,2;\n".toList, "LT4,3;\n".toList, "LT2,3;\n".toList,
          "LT6,3;\n".toList, "LT5,3;\n".toList]
    ∧ List.Nodup ["LT;\n".toList, "LT1,2;\n".toList, "LT4,3;\n".toList, "LT2,3;\n".toList,
        "LT6,3;\n".toList, "LT5,3;\n".toList]
    ∧ ∀ style : Int, style < 0 ∨ 5 < style → blHPGLSetDash s style = s := by
  refine ⟨rfl, rfl, rfl, rfl, rfl, rfl, by decide, by decide, ?_⟩
  intro style h
  have h0 : style ≠ 0 := by omega
  have h1 : style ≠ 1 := by omega
  have h2 : style ≠ 2 := by omega
  have h3 : style ≠ 3 := by omega
  have h4 : style ≠ 4 := by omega
  have h5 : style ≠ 5 := by omega
  simp only [blHPGLSetDash, h0, h1, h2, h3, h4, h5, if_false]

theorem C16_dash_styles_witness :
    ((-1 : Int) < 0 ∨ 5 < (-1 : Int)) ∧ blHPGLSetDash demoState (-1) = demoState :=
  ⟨by decide, (C16_dash_styles demoState).2.2.2.2.2.2.2.2 (-1) (by decide)⟩

/-! ## Formats of the size commands -/

/-- C17 (the code prints six decimals): for the text `_2` in horizontal
orientation with the font of 12 points, `blHPGLShowText` writes the shifted-run
command whose two SI instructions are formatted with `%f`, that is with six
decimals (`SI0.103758,0.124510` and `SI0.103758,0.249020`), whereas the SI
instruction of `blHPGLFont` for the same values has three
(`SI0.104, 0.249`). -/
theorem C17_shifted_run_prints_six_decimals :
    blHPGLShowText demoPlot demoState ['_', '2'] false 5000 5000
      = some (emit [.shiftPos 5000 4948, .shifted (127 / 1224) (127 / 510) ['2'],
          .shiftPos 5060 5000, .newline] demoState)
    ∧ Cmd.written (.shifted (127 / 1224) (127 / 510) ['2'])
      = "PU;SI0.103758,0.124510;LB2\\;PU;SI0.103758,0.249020;".toList
    ∧ Cmd.written (.font 0 (127 / 1224) (127 / 510)) = "PU;CS0;SS;SI0.104, 0.249;\n".toList := by
  refine ⟨?_, ?_, ?_⟩
  · simp [blHPGLShowText, showLoop, flush, putShifted, shiftedPos, resetPos, fputs, MAXBUFF,
      LBRACE, NUL, emit, demoState]
    decide
  · have f3 : fmtF 6 (127 / 1224) = "0.103758".toList := by
      rw [fmtF_of_scaled 6 _ 103758 (by norm_num [abs_of_pos]) (by norm_num [abs_of_pos])]
      norm_num
      decide
    have f4 : fmtF 6 (127 / 510 / 2) = "0.124510".toList := by
      rw [fmtF_of_scaled 6 _ 124510 (by norm_num [abs_of_pos]) (by norm_num [abs_of_pos])]
      norm_num
      decide
    have f5 : fmtF 6 (127 / 510) = "0.249020".toList := by
      rw [fmtF_of_scaled 6 _ 249020 (by norm_num [abs_of_pos]) (by norm_num [abs_of_pos])]
      norm_num
      decide
    simp only [Cmd.written, Cmd.sprintf, f3, f4, f5]
    decide
  · have f1 : fmtF 3 (127 / 1224) = "0.104".toList := by
      rw [fmtF_of_scaled 3 _ 104 (by norm_num [abs_of_pos]) (by norm_num [abs_of_pos])]
      norm_num
      decide
    have f2 : fmtF 3 (127 / 510) = "0.249".toList := by
      rw [fmtF_of_scaled 3 _ 249 (by norm_num [abs_of_pos]) (by norm_num [abs_of_pos])]
      norm_num
      decide
    simp only [Cmd.written, Cmd.sprintf, f1, f2]
    decide

/-- C10 (the restored size is not the size that `blHPGLFont` selected): on the
picture of 10 by 8, `blHPGLFont(0, 12.0)` writes the size command
`SI0.104, 0.249`; `blHPGLShowText` on the text `_2` in horizontal orientation
then leaves the four font fields as they were, and the last SI it writes
after the lowered run is `SI0.103758,0.249020`: the same two fields printed
with `%f` where `blHPGLFont` printed them with `%5.3f`, so the size that the
file selects after the run (0.103758 by 0.249020) is not the size that
`blHPGLFont` had selected (0.104 by 0.249).  For every text the four font
fields are unchanged and every restoring SI is given `sFontWcm` and
`sFontHcm`.  The two texts are the same when the two sizes in cm are the
values that `double` arithmetic gives. -/
theorem C10_restored_size_differs_from_font_size :
    blHPGLFont demoPlot demoState 0 12 = emit [.font 0 (127 / 1224) (127 / 510)] demoState
    ∧ blHPGLShowText demoPlot (blHPGLFont demoPlot demoState 0 12) ['_', '2'] false 5000 5000
      = some (emit [.shiftPos 5000 4948, .shifted (127 / 1224) (127 / 510) ['2'],
          .shiftPos 5060 5000, .newline] (blHPGLFont demoPlot demoState 0 12))
    ∧ Cmd.written (.font 0 (127 / 1224) (127 / 510)) = "PU;CS0;SS;SI0.104, 0.249;\n".toList
    ∧ Cmd.written (.shifted (127 / 1224) (127 / 510) ['2'])
      = "PU;SI0.103758,0.124510;LB2\\;PU;SI0.103758,0.249020;".toList
    ∧ (padLeft 5 (fmtF 3 (127 / 1224)) = "0.104".toList
      ∧ padLeft 5 (fmtF 3 (127 / 510)) = "0.249".toList
      ∧ fmtF 6 (127 / 1224) = "0.103758".toList ∧ fmtF 6 (127 / 510) = "0.249020".toList)
    ∧ (Cmd.written (.font 0 (Fl.blHPGLFont fl64 demoPlot demoState 0 12).sFontWcm
          (Fl.blHPGLFont fl64 demoPlot demoState 0 12).sFontHcm)
        = "PU;CS0;SS;SI0.104, 0.249;\n".toList
      ∧ Cmd.written (.shifted (Fl.blHPGLFont fl64 demoPlot demoState 0 12).sFontWcm
          (Fl.blHPGLFont fl64 demoPlot demoState 0 12).sFontHcm ['2'])
        = "PU;SI0.103758,0.124510;LB2\\;PU;SI0.103758,0.249020;".toList)
    ∧ ∀ (ps : Plotting) (s : HPGLState) (text : List Char) (XBase YBase : Int),
        ∃ s2 cmds, blHPGLShowText ps s text false XBase YBase = some s2
          ∧ s2.sFontHeight = s.sFontHeight ∧ s2.sFontWidth = s.sFontWidth
          ∧ s2.sFontHcm = s.sFontHcm ∧ s2.sFontWcm = s.sFontWcm
          ∧ s2.sHPGLFile = s.sHPGLFile ++ cmds
          ∧ ∀ w h b, Cmd.shifted w h b ∈ cmds → w = s.sFontWcm ∧ h = s.sFontHcm := by
  have f1 : fmtF 3 (127 / 1224) = "0.104".toList := by
    rw [fmtF_of_scaled 3 _ 104 (by norm_num [abs_of_pos]) (by norm_num [abs_of_pos])]
    norm_num
    decide
  have f2 : fmtF 3 (127 / 510) = "0.249".toList := by
    rw [fmtF_of_scaled 3 _ 249 (by norm_num [abs_of_pos]) (by norm_num [abs_of_pos])]
    norm_num
    decide
  have f3 : fmtF 6 (127 / 1224) = "0.103758".toList := by
    rw [fmtF_of_scaled 6 _ 103758 (by norm_num [abs_of_pos]) (by norm_num [abs_of_pos])]
    norm_num
    decide
  have f4 : fmtF 6 (127 / 510 / 2) = "0.124510".toList := by
    rw [fmtF_of_scaled 6 _ 124510 (by norm_num [abs_of_pos]) (by norm_num [abs_of_pos])]
    norm_num
    decide
  have f5 : fmtF 6 (127 / 510) = "0.249020".toList := by
    rw [fmtF_of_scaled 6 _ 249020 (by norm_num [abs_of_pos]) (by norm_num [abs_of_pos])]
    norm_num
    decide
  obtain ⟨eh, ew⟩ := fl64_font_12_cm demoPlot demoState
  have g1 : fmtF 3 (1869141021817167 / 18014398509481984) = "0.104".toList := by
    rw [fmtF_of_scaled 3 _ 104 (by norm_num [abs_of_pos]) (by norm_num [abs_of_pos])]
    norm_num
    decide
  have g2 : fmtF 3 (8971876904722401 / 36028797018963968) = "0.249".toList := by
    rw [fmtF_of_scaled 3 _ 249 (by norm_num [abs_of_pos]) (by norm_num [abs_of_pos])]
    norm_num
    decide
  have g3 : fmtF 6 (1869141021817167 / 18014398509481984) = "0.103758".toList := by
    rw [fmtF_of_scaled 6 _ 103758 (by norm_num [abs_of_pos]) (by norm_num [abs_of_pos])]
    norm_num
    decide
  have g4 : fmtF 6 (8971876904722401 / 36028797018963968 / 2) = "0.124510".toList := by
    rw [fmtF_of_scaled 6 _ 124510 (by norm_num [abs_of_pos]) (by norm_num [abs_of_pos])]
    norm_num
    decide
  have g5 : fmtF 6 (8971876904722401 / 36028797018963968) = "0.249020".toList := by
    rw [fmtF_of_scaled 6 _ 249020 (by norm_num [abs_of_pos]) (by norm_num [abs_of_pos])]
    norm_num
    decide
  refine ⟨blHPGLFont_demo_12, ?_, ?_, ?_, ⟨?_, ?_, f3, f5⟩, ⟨?_, ?_⟩, ?_⟩
  · rw [blHPGLFont_demo_12]
    simp [blHPGLShowText, showLoop, flush, putShifted, shiftedPos, resetPos, fputs, MAXBUFF,
      LBRACE, NUL, emit, demoState]
    decide
  · simp only [Cmd.written, Cmd.sprintf, f1, f2]
    decide
  · simp only [Cmd.written, Cmd.sprintf, f3, f4, f5]
    decide
  · rw [f1]; decide
  · rw [f2]; decide
  · rw [eh, ew]
    simp only [Cmd.written, Cmd.sprintf, g1, g2]
    decide
  · rw [eh, ew]
    simp only [Cmd.written, Cmd.sprintf, g3, g4, g5]
    decide
  · intro ps s text XBase YBase
    exact (showText_font_fields ps s 0 0 text XBase YBase).1

/-! ## Justified text -/

theorem subSize_eq (xpos : Int) (e : Nat) (he : e < 2 ^ 64) (hlo : -2 ^ 31 ≤ xpos - e)
    (hhi : xpos - e < 2 ^ 31) : subSize xpos e = xpos - e := by
  unfold subSize sizeToInt toSizeT Int.bmod
  norm_num at he hlo hhi ⊢
  have h1 : e % 18446744073709551616 = e := Nat.mod_eq_of_lt he
  rw [h1]
  split <;> omega

theorem strlenTimes_eq (n : Nat) (W : Int) (hW : 0 ≤ W) (hn : (n : Int) * W < 2 ^ 64) :
    ((strlenTimes n W : Nat) : Int) = n * W := by
  obtain ⟨w, rfl⟩ := Int.eq_ofNat_of_zero_le hW
  have hn2 : n * w < 2 ^ 64 := by exact_mod_cast hn
  unfold strlenTimes toSizeT
  have h1 : (((w : Int) % (2 ^ 64 : Int)).toNat) = w % 2 ^ 64 := by
    norm_num
    omega
  rw [h1, Nat.mul_mod, Nat.mod_mod, ← Nat.mul_mod, Nat.mod_eq_of_lt hn2]
  push_cast
  rfl

theorem strlenTimes_lt (n : Nat) (W : Int) : strlenTimes n W < 2 ^ 64 :=
  Nat.mod_lt _ (by norm_num)

theorem toInt_half : toInt (10000 * (1 / 2 : REAL)) = 5000 := by
  apply toInt_of_floor <;> norm_num

theorem blHPGLFont_demo_13 :
    blHPGLFont demoPlot demoState 0 13
      = emit [.font 0 (1651 / 14688) (1651 / 6120)]
          ⟨225, 65, 1651 / 6120, 1651 / 14688, []⟩ := by
  have e5 : toInt ((13 * 10000.0) / (72.0 * 8)) = 225 := by
    apply toInt_of_floor <;> norm_num
  have e6 : toInt ((13 : ℚ) * 2.54 / (1.7 * 72.0) * 0.6154 / 2.54 * (10000.0 / 10)) = 65 := by
    apply toInt_of_floor <;> norm_num
  simp only [blHPGLFont, demoPlot, demoState, fputs, emit, e5, e6]
  norm_num

set_option maxRecDepth 100000 in
/-- C19 (centre-top is one unit off): on the picture of 10 by 8, after
`blHPGLFont(0, 13.0)` (font width 65, height 225), for x = y = 0.5, offset 0
and the text `a`, `blHPGLCBText` writes the position x = 4978 (5000 - 65/2 +
65/6 in integers) and `blHPGLCTText` the position x = 4977: it divides by the
floating constant 2.0 and truncates 5000 - 32.5. -/
theorem C19_centre_top_differs_from_centre_bottom :
    blHPGLCBText demoPlot (blHPGLFont demoPlot demoState 0 13) simplifyText (1 / 2) (1 / 2) 0
        ['a']
      = some (emit [.font 0 (1651 / 14688) (1651 / 6120), .textPos 4978 5000, .label ['a'],
          .newline] ⟨225, 65, 1651 / 6120, 1651 / 14688, []⟩)
    ∧ blHPGLCTText demoPlot (blHPGLFont demoPlot demoState 0 13) simplifyText (1 / 2) (1 / 2) 0
        ['a']
      = some (emit [.font 0 (1651 / 14688) (1651 / 6120), .moveLine 4977 4775, .label ['a'],
          .newline] ⟨225, 65, 1651 / 6120, 1651 / 14688, []⟩) := by
  rw [blHPGLFont_demo_13]
  have hs : simplifyText ['a'] = ['a'] := by decide
  have h5 : toInt (10000.0 * (1 / 2 : REAL)) = 5000 := by
    apply toInt_of_floor <;> norm_num
  have h0 : toInt ((0 : REAL) * ((225 : Int) : REAL)) = 0 := by
    apply toInt_of_floor <;> norm_num
  have h00 : toInt ((0 : REAL) * 10000.0 / (72.0 * 8)) = 0 := by
    apply toInt_of_floor <;> norm_num
  have hst : strlenTimes 1 65 = 65 := by decide
  have hsub : subSize 5000 (65 / 2) = 4968 := by decide
  have hct : toInt (((5000 : Int) : REAL) - ((65 : Nat) : REAL) / 2.0) = 4967 := by
    apply toInt_of_floor <;> norm_num
  constructor
  · simp only [blHPGLCBText, emit, demoPlot, hs, h5, h0, List.length_cons, List.length_nil,
      hst, hsub]
    simp [blHPGLShowText, showLoop, flush, fputs, MAXBUFF]
    decide
  · simp only [blHPGLCTText, emit, demoPlot, hs, h5, h00, List.length_cons, List.length_nil,
      hst, hct]
    simp [blHPGLShowText, showLoop, flush, fputs, MAXBUFF]
    decide

set_option maxRecDepth 100000 in
/-- C20 (the offset moves the text to the right): on the picture of 10 by 8 with
the font of 12 points (width 60), for x = y = 0.5 and the text `a`,
`blHPGLROffText` writes the position x = 4950 for the offset 0 and x = 5950 for
the offset of 72 points: the offset, converted to 1000 device units, is added
to x, so the text moves right, not left. -/
theorem C20_offset_moves_right :
    blHPGLROffText demoPlot demoState simplifyText (1 / 2) (1 / 2) 0 ['a']
      = some (emit [.moveLine 4950 4931, .label ['a'], .newline] demoState)
    ∧ blHPGLROffText demoPlot demoState simplifyText (1 / 2) (1 / 2) 72 ['a']
      = some (emit [.moveLine 5950 4931, .label ['a'], .newline] demoState)
    ∧ toInt ((72 : REAL) * 10000.0 / (72.0 * demoPlot.PSxpicsize)) = 1000 := by
  have hs : simplifyText ['a'] = ['a'] := by decide
  have h5 : toInt (10000.0 * (1 / 2 : REAL)) = 5000 := by
    apply toInt_of_floor <;> norm_num
  have h0 : toInt ((0 : REAL) * 10000.0 / (72.0 * 10)) = 0 := by
    apply toInt_of_floor <;> norm_num
  have h72 : toInt ((72 : REAL) * 10000.0 / (72.0 * 10)) = 1000 := by
    apply toInt_of_floor <;> norm_num
  have hy : toInt (1.0 * ((208 : Int) : REAL) / 3.0) = 69 := by
    apply toInt_of_floor <;> norm_num
  have hst : strlenTimes 1 60 = 60 := by decide
  have hsub : subSize 5000 60 = 4940 := by decide
  refine ⟨?_, ?_, h72⟩
  · simp only [blHPGLROffText, demoState, demoPlot, hs, h5, h0, hy, List.length_cons,
      List.length_nil, hst, hsub]
    simp [blHPGLShowText, showLoop, flush, fputs, MAXBUFF, emit]
    decide
  · simp only [blHPGLROffText, demoState, demoPlot, hs, h5, h72, hy, List.length_cons,
      List.length_nil, hst, hsub]
    simp [blHPGLShowText, showLoop, flush, fputs, MAXBUFF, emit]
    decide

set_option maxRecDepth 100000 in
/-- C21 (the offset moves the text up): on the picture of 10 by 8 with the font
of 12 points (height 208), for x = y = 0.5 and the text `a`, `blHPGLCTText`
writes the position y = 4792 for the offset 0, which is trunc(10000*y) - H,
and y = 6042 for the offset of 72 points: the offset, converted to 1250 device
units, is added to y, so the text moves up, not down. -/
theorem C21_centre_top_offset_moves_up :
    blHPGLCTText demoPlot demoState simplifyText (1 / 2) (1 / 2) 0 ['a']
      = some (emit [.moveLine 4980 4792, .label ['a'], .newline] demoState)
    ∧ blHPGLCTText demoPlot demoState simplifyText (1 / 2) (1 / 2) 72 ['a']
      = some (emit [.moveLine 4980 6042, .label ['a'], .newline] demoState)
    ∧ toInt ((72 : REAL) * 10000.0 / (72.0 * demoPlot.PSypicsize)) = 1250 := by
  have hs : simplifyText ['a'] = ['a'] := by decide
  have h5 : toInt (10000.0 * (1 / 2 : REAL)) = 5000 := by
    apply toInt_of_floor <;> norm_num
  have h0 : toInt ((0 : REAL) * 10000.0 / (72.0 * 8)) = 0 := by
    apply toInt_of_floor <;> norm_num
  have h72 : toInt ((72 : REAL) * 10000.0 / (72.0 * 8)) = 1250 := by
    apply toInt_of_floor <;> norm_num
  have hst : strlenTimes 1 60 = 60 := by decide
  have hct : toInt (((5000 : Int) : REAL) - ((60 : Nat) : REAL) / 2.0) = 4970 := by
    apply toInt_of_floor <;> norm_num
  refine ⟨?_, ?_, h72⟩
  · simp only [blHPGLCTText, demoState, demoPlot, hs, h5, h0, List.length_cons,
      List.length_nil, hst, hct]
    simp [blHPGLShowText, showLoop, flush, fputs, MAXBUFF, emit]
    decide
  · simp only [blHPGLCTText, demoState, demoPlot, hs, h5, h72, List.length_cons,
      List.length_nil, hst, hct]
    simp [blHPGLShowText, showLoop, flush, fputs, MAXBUFF, emit]
    decide

set_option maxRecDepth 100000 in
/-- C22 (the offset moves the text down): on the picture of 10 by 8 with the
font of 12 points (height 208), for x = y = 0.5 and the text `a`,
`blHPGLCBText` writes the position y = 5000 for the offset 0 and y = 4792 for
the offset 1: trunc(offset*H) = 208 is subtracted from trunc(10000*y), so the
text moves down, not up to 5208. -/
theorem C22_centre_bottom_offset_moves_down :
    blHPGLCBText demoPlot demoState simplifyText (1 / 2) (1 / 2) 0 ['a']
      = some (emit [.textPos 4980 5000, .label ['a'], .newline] demoState)
    ∧ blHPGLCBText demoPlot demoState simplifyText (1 / 2) (1 / 2) 1 ['a']
      = some (emit [.textPos 4980 4792, .label ['a'], .newline] demoState)
    ∧ toInt ((1 : REAL) * ((208 : Int) : REAL)) = 208 := by
  have hs : simplifyText ['a'] = ['a'] := by decide
  have h5 : toInt (10000.0 * (1 / 2 : REAL)) = 5000 := by
    apply toInt_of_floor <;> norm_num
  have h0 : toInt ((0 : REAL) * ((208 : Int) : REAL)) = 0 := by
    apply toInt_of_floor <;> norm_num
  have h1 : toInt ((1 : REAL) * ((208 : Int) : REAL)) = 208 := by
    apply toInt_of_floor <;> norm_num
  have hst : strlenTimes 1 60 = 60 := by decide
  have hsub : subSize 5000 (60 / 2) = 4970 := by decide
  refine ⟨?_, ?_, h1⟩
  · simp only [blHPGLCBText, demoState, demoPlot, hs, h5, h0, List.length_cons,
      List.length_nil, hst, hsub]
    simp [blHPGLShowText, showLoop, flush, fputs, MAXBUFF, emit]
    decide
  · simp only [blHPGLCBText, demoState, demoPlot, hs, h5, h1, List.length_cons,
      List.length_nil, hst, hsub]
    simp [blHPGLShowText, showLoop, flush, fputs, MAXBUFF, emit]
    decide

/-! ## Initialisation -/

/-- C23: `blHPGLInit` returns FALSE exactly when the file cannot be opened, and
then leaves the state as it was, writing nothing; when the file opens it
returns TRUE and the file holds, in this order, the IN/IP line, the line
`SC0,10000,0,10000;DT\;` and the line `CA<alternate font index>;SS;`, each
ending in a newline. -/
theorem C23_init_result (ps : Plotting) (s : HPGLState) (fopenOk : Bool)
    (blPS2HPGLFont : List Char → Int) (AltFont : List Char) (xmargin ymargin : REAL) :
    ((blHPGLInit ps s fopenOk blPS2HPGLFont AltFont xmargin ymargin).1 = false
      ↔ fopenOk = false)
    ∧ blHPGLInit ps s false blPS2HPGLFont AltFont xmargin ymargin = (false, s)
    ∧ blHPGLInit ps s true blPS2HPGLFont AltFont xmargin ymargin
      = (true, { s with sHPGLFile :=
          [.init (toInt ((ps.PSxoffset - xmargin) * 1024))
              (toInt ((ps.PSyoffset - ymargin) * 1024))
              (toInt (ps.PSxpicsize * 1024) + toInt ((ps.PSxoffset - xmargin) * 1024))
              (toInt (ps.PSypicsize * 1024) + toInt ((ps.PSyoffset - ymargin) * 1024)),
            .scale, .altFont (blPS2HPGLFont AltFont)] })
    ∧ Cmd.written .scale = "SC0,10000,0,10000;DT\\;\n".toList
    ∧ Cmd.sprintf (.altFont (blPS2HPGLFont AltFont))
      = ['C', 'A'] ++ fmtD (blPS2HPGLFont AltFont) ++ [';', 'S', 'S', ';', '\n']
    ∧ ∀ xoff yoff x1 y1 : Int, Cmd.sprintf (.init xoff yoff x1 y1)
      = ['I', 'N', ';', ' ', 'I', 'P'] ++ fmtD xoff ++ [','] ++ fmtD yoff ++ [','] ++ fmtD x1
          ++ [','] ++ fmtD y1 ++ [';', '\n'] := by
  refine ⟨?_, rfl, rfl, by decide, rfl, fun _ _ _ _ => rfl⟩
  cases fopenOk <;> simp [blHPGLInit]

/-! ## The keyboard response -/

/-- C24: `blYorN` returns 0 when the response starts with N or n, 1 for Y or y,
2 for A or a, 3 for Q or q, whatever follows the letter and whatever the
default is; for every other first character, and for the empty response, it
returns the code of the default under the same table (1 for the default `y`,
0 for the default `n`, and 0 for a default without code); the result is
always one of 0, 1, 2, 3. -/
theorem C24_yorn_codes (c : Char) (rest : List Char) (deflt : Char) :
    (c = 'N' ∨ c = 'n' → blYorN (c :: rest) deflt = 0)
    ∧ (c = 'Y' ∨ c = 'y' → blYorN (c :: rest) deflt = 1)
    ∧ (c = 'A' ∨ c = 'a' → blYorN (c :: rest) deflt = 2)
    ∧ (c = 'Q' ∨ c = 'q' → blYorN (c :: rest) deflt = 3)
    ∧ (responseCode c = none → blYorN (c :: rest) deflt = (responseCode deflt).getD 0)
    ∧ blYorN [] deflt = (responseCode deflt).getD 0
    ∧ (responseCode 'y' = some 1 ∧ responseCode 'n' = some 0)
    ∧ (∀ buffer : List Char, blYorN buffer deflt = 0 ∨ blYorN buffer deflt = 1
        ∨ blYorN buffer deflt = 2 ∨ blYorN buffer deflt = 3) := by
  have hdef : ∀ r : Char,
      (if r = 'Y' ∨ r = 'y' then (1 : Int)
        else if r = 'N' ∨ r = 'n' then 0
        else if r = 'A' ∨ r = 'a' then 2
        else if r = 'Q' ∨ r = 'q' then 3
        else 0) = (responseCode r).getD 0 := by
    intro r
    unfold responseCode
    split_ifs <;> rfl
  refine ⟨?_, ?_, ?_, ?_, ?_, ?_, ⟨by decide, by decide⟩, ?_⟩
  · rintro (rfl | rfl) <;> simp [blYorN]
  · rintro (rfl | rfl) <;> simp [blYorN]
  · rintro (rfl | rfl) <;> simp [blYorN]
  · rintro (rfl | rfl) <;> simp [blYorN]
  · intro h
    have hne : c ≠ 'Y' ∧ c ≠ 'y' ∧ c ≠ 'N' ∧ c ≠ 'n' ∧ c ≠ 'A' ∧ c ≠ 'a' ∧ c ≠ 'Q'
        ∧ c ≠ 'q' := by
      unfold responseCode at h
      split_ifs at h
      simp_all
    simp only [blYorN, List.headD_cons, if_pos hne]
    exact hdef deflt
  · have hne : NUL ≠ 'Y' ∧ NUL ≠ 'y' ∧ NUL ≠ 'N' ∧ NUL ≠ 'n' ∧ NUL ≠ 'A' ∧ NUL ≠ 'a'
        ∧ NUL ≠ 'Q' ∧ NUL ≠ 'q' := by decide
    simp only [blYorN, List.headD_nil, if_pos hne]
    exact hdef deflt
  · intro buffer
    unfold blYorN
    simp only
    split_ifs <;> simp

theorem C24_yorn_codes_witness :
    ('Y' = 'Y' ∨ 'Y' = 'y') ∧ blYorN ('Y' :: ['e', 's', '\n']) 'n' = 1 :=
  ⟨by decide, (C24_yorn_codes 'Y' ['e', 's', '\n'] 'n').2.1 (by decide)⟩

/-! ## TER lines of the PDB writer -/

theorem recordsOf_append (a b : List PDBLine) :
    recordsOf (a ++ b) = recordsOf a ++ recordsOf b := by
  induction a with
  | nil => rfl
  | cons l a ih =>
    cases l with
    | ter => simpa [recordsOf] using ih
    | record p => simpa [recordsOf] using ih

theorem terCount_append (a b : List PDBLine) :
    terCount (a ++ b) = terCount a + terCount b := by
  induction a with
  | nil => simp [terCount]
  | cons l a ih =>
    cases l with
    | ter => simp [terCount, ih]; omega
    | record p => simpa [terCount] using ih

theorem writeLoop_eq (CHAINMATCH : List Char → List Char → Bool)
    (hmatch : ∀ a b, CHAINMATCH a b = true ↔ a = b) :
    ∀ (pdb : List PDB) (chainBefore : List Char) (fp : List PDBLine),
      writeLoop CHAINMATCH chainBefore pdb fp = fp ++ recordsWithTer chainBefore pdb := by
  intro pdb
  induction pdb with
  | nil => intro c fp; simp [writeLoop, recordsWithTer]
  | cons p rest ih =>
    intro c fp
    by_cases h : p.chain = c
    · subst h
      have hm : CHAINMATCH p.chain p.chain = true := (hmatch _ _).mpr rfl
      simp only [writeLoop, hm, Bool.not_true, Bool.false_eq_true, if_false, recordsWithTer,
        blWriteGromosPDBRecord, ih, ne_eq, not_true_eq_false, List.nil_append,
        List.append_assoc]
    · have hm : CHAINMATCH c p.chain = false := by
        cases hc : CHAINMATCH c p.chain
        · rfl
        · exact absurd ((hmatch _ _).mp hc).symm h
      simp only [writeLoop, hm, Bool.not_false, if_true, recordsWithTer,
        blWriteGromosPDBRecord, ih, h, ne_eq, not_false_eq_true, List.append_assoc]

theorem recordsOf_recordsWithTer :
    ∀ (pdb : List PDB) (c : List Char), recordsOf (recordsWithTer c pdb) = pdb := by
  intro pdb
  induction pdb with
  | nil => intro c; rfl
  | cons p rest ih =>
    intro c
    by_cases h : p.chain = c
    · simp [recordsWithTer, h, recordsOf, ih]
    · simp [recordsWithTer, h, recordsOf, ih]

theorem terCount_recordsWithTer :
    ∀ (rest : List PDB) (p : PDB),
      terCount (recordsWithTer p.chain rest) = chainChanges (p :: rest) := by
  intro rest
  induction rest with
  | nil => intro p; rfl
  | cons q rest ih =>
    intro p
    rw [recordsWithTer, terCount_append, terCount_append, ih q, chainChanges]
    by_cases h : q.chain = p.chain
    · simp [h, terCount]
    · simp [h, terCount]

/-- C25: on a non-empty list, with `CHAINMATCH` holding exactly for equal chain
labels, `blWriteGromosPDB` returns with the file extended by the first record
(no `TER` before it), then every further record in list order, preceded by a
`TER` line exactly when its chain differs from the chain of the record before
it, then one final `TER` line; the records among these lines are the list
itself, and the number of `TER` lines is the number of chain changes plus
one. -/
theorem C25_ter_lines (CHAINMATCH : List Char → List Char → Bool)
    (hmatch : ∀ a b, CHAINMATCH a b = true ↔ a = b) (fp : List PDBLine) (first : PDB)
    (rest : List PDB) :
    ∃ lines, blWriteGromosPDB CHAINMATCH fp (first :: rest) = some (fp ++ lines)
      ∧ lines = [.record first] ++ recordsWithTer first.chain rest ++ [.ter]
      ∧ recordsOf lines = first :: rest
      ∧ terCount lines = chainChanges (first :: rest) + 1 := by
  refine ⟨[.record first] ++ recordsWithTer first.chain rest ++ [.ter], ?_, rfl, ?_, ?_⟩
  · simp only [blWriteGromosPDB, writeLoop_eq CHAINMATCH hmatch, recordsWithTer, ne_eq,
      not_true_eq_false, if_false, List.nil_append, List.append_assoc]
  · simp [recordsOf_append, recordsOf, recordsOf_recordsWithTer]
  · have h1 : terCount [PDBLine.record first] = 0 := rfl
    have h2 : terCount [PDBLine.ter] = 1 := rfl
    rw [terCount_append, terCount_append, terCount_recordsWithTer, h1, h2]
    omega

theorem C25_ter_lines_witness :
    (∀ a b : List Char, (a == b) = true ↔ a = b)
    ∧ ∃ lines, blWriteGromosPDB (fun a b => a == b) []
          (demoAtom 1 'A' :: [demoAtom 2 'A', demoAtom 3 'B']) = some ([] ++ lines)
        ∧ lines = [.record (demoAtom 1 'A')]
            ++ recordsWithTer (demoAtom 1 'A').chain [demoAtom 2 'A', demoAtom 3 'B'] ++ [.ter]
        ∧ recordsOf lines = demoAtom 1 'A' :: [demoAtom 2 'A', demoAtom 3 'B']
        ∧ terCount lines
          = chainChanges (demoAtom 1 'A' :: [demoAtom 2 'A', demoAtom 3 'B']) + 1 :=
  ⟨fun _ _ => beq_iff_eq,
    C25_ter_lines (fun a b => a == b) (fun _ _ => beq_iff_eq) [] (demoAtom 1 'A')
      [demoAtom 2 'A', demoAtom 3 'B']⟩

/-! ## A marker at the end of the text -/

set_option maxRecDepth 100000 in
/-- C30 (the code counts the terminator): with the font of 12 points (width 60,
height 208), in horizontal orientation with base (5000, 5000),
`blHPGLShowText` on `a^` writes the label `a`, the shifted position
x = 5060 = XBase + 1*W, a shifted label with the empty payload (the terminator
was stored in the accumulator and counted), and the final position
x = 5120 = XBase + 2*W, one character width beyond the shifted position; the
same holds for `a_`. -/
theorem C30_bare_marker_counts_terminator :
    blHPGLShowText demoPlot demoState ['a', '^'] false 5000 5000
      = some (emit [.label ['a'], .shiftPos 5060 5104, .shifted (127 / 1224) (127 / 510) [NUL],
          .shiftPos 5120 5000, .newline] demoState)
    ∧ blHPGLShowText demoPlot demoState ['a', '_'] false 5000 5000
      = some (emit [.label ['a'], .shiftPos 5060 4948, .shifted (127 / 1224) (127 / 510) [NUL],
          .shiftPos 5120 5000, .newline] demoState)
    ∧ Cmd.payload (.shifted (127 / 1224) (127 / 510) [NUL]) = [] := by
  refine ⟨?_, ?_, by decide⟩
  · simp [blHPGLShowText, showLoop, flush, putShifted, shiftedPos, resetPos, fputs, MAXBUFF,
      LBRACE, NUL, emit, demoState]
    decide
  · simp [blHPGLShowText, showLoop, flush, putShifted, shiftedPos, resetPos, fputs, MAXBUFF,
      LBRACE, NUL, emit, demoState]
    decide

/-! ## The exact commands of an escape -/

theorem showLoop_escape_cmds (ps : Plotting) (o : Bool) (X Y : Int) (e : Esc)
    (q rest : List Char) (he : e.WellFormed) (hqe : EscapeFree q) (hql : q.length < 159)
    (fuel : Nat) (s : HPGLState) (b : List Char) (ch : Nat) (first : Bool)
    (hbl : b.length < 159) (hf : (e.raw ++ q ++ rest).length < fuel) :
    ∃ fuel2,
      showLoop ps o X Y fuel s (e.raw ++ q ++ rest) b ch first
        = showLoop ps o X Y fuel2
            (emit (labelCmds b ++ e.cmds ps s o X Y (firstCount first o ch)) s) rest q
            (e.countAfter (firstCount first o ch) ch + q.length) (e.firstAfter first)
      ∧ rest.length < fuel2 := by
  have hb2 : b.length < MAXBUFF - 1 := by simp [MAXBUFF]; omega
  have hq2 : ([] : List Char).length + q.length ≤ MAXBUFF - 1 := by simp [MAXBUFF]; omega
  obtain ⟨k, rfl⟩ : ∃ k, fuel = k + 1 := ⟨fuel - 1, by omega⟩
  cases e with
  | greek G =>
    simp only [Esc.raw, List.length_append, List.length_cons, List.length_nil] at hf
    refine ⟨k - q.length, ?_, by omega⟩
    simp only [Esc.raw, List.cons_append, List.nil_append, List.append_assoc, Esc.cmds,
      Esc.countAfter, Esc.firstAfter]
    rw [showLoop_greek ps o X Y k s _ b ch first hb2]
    simp only [List.headD_cons, List.drop_one, List.tail_cons, flush_eq_emit, fputs_eq_emit,
      emit_emit]
    rw [showLoop_literal_sub ps o X Y _ first k rest q [] (ch + 1) hqe hq2 (by omega),
      List.nil_append]
  | shiftChar m G =>
    obtain ⟨hm, hG, hGb⟩ := he
    simp only [Esc.raw, List.length_append, List.length_cons, List.length_nil] at hf
    refine ⟨k - q.length, ?_, by omega⟩
    simp only [Esc.raw, List.cons_append, List.nil_append, List.append_assoc, Esc.cmds,
      Esc.countAfter, Esc.firstAfter, firstCount]
    rw [showLoop_shift ps o X Y k s m (G :: (q ++ rest)) b ch first hb2 hm
      (G :: (q ++ rest), [G], (if first && o then ch + 1 else ch) + 1)
      (by simp only [List.headD_cons, hGb, if_false])]
    simp only [List.drop_one, List.tail_cons]
    rw [showLoop_literal_sub ps o X Y _ false k rest q [] _ hqe hq2 (by omega),
      List.nil_append]
    simp only [List.append_assoc, List.singleton_append, List.cons_append, List.nil_append]
  | shiftRun m run =>
    obtain ⟨hm, hr, hrn, hrl⟩ := he
    simp only [Esc.raw, List.length_append, List.length_cons, List.length_nil] at hf
    refine ⟨k - q.length, ?_, by omega⟩
    simp only [Esc.raw, List.cons_append, List.nil_append, List.append_assoc, Esc.cmds,
      Esc.countAfter, Esc.firstAfter, firstCount]
    rw [showLoop_shift ps o X Y k s m (LBRACE :: (run ++ RBRACE :: (q ++ rest))) b ch first
      hb2 hm
      (RBRACE :: (q ++ rest), run, (if first && o then ch + 1 else ch) + run.length)
      (by
        simp only [List.headD_cons, if_true, List.drop_one, List.tail_cons]
        rw [collectRun_run (RBRACE :: (q ++ rest)) (Or.inr rfl) run [] _ hr hrn
          (by simp [MAXBUFF]; omega), List.nil_append])]
    simp only [List.drop_one, List.tail_cons]
    rw [showLoop_literal_sub ps o X Y _ false k rest q [] _ hqe hq2 (by omega),
      List.nil_append]
    simp only [List.append_assoc, List.singleton_append, List.cons_append, List.nil_append]

/-- The text `p`, one well-formed escape, `q`: the label of `p`, the commands of
the escape, the label of `q` and the newline. -/
theorem showText_one_escape (ps : Plotting) (s : HPGLState) (o : Bool) (X Y : Int) (e : Esc)
    (p q : List Char) (he : e.WellFormed) (hpe : EscapeFree p) (hpl : p.length < 159)
    (hqe : EscapeFree q) (hql : q.length < 159) :
    blHPGLShowText ps s (p ++ (e.raw ++ q)) o X Y
      = some (emit (labelCmds p ++ e.cmds ps s o X Y (firstCount true o p.length)
          ++ labelCmds q ++ [.newline]) s) := by
  have hraw : e.raw ≠ [] := by cases e <;> simp [Esc.raw]
  have hl : (p ++ (e.raw ++ q)).length ≠ 0 := by
    intro h
    have := List.length_eq_zero.mp h
    simp at this
    exact hraw this.2.1
  have hf : p.length ≤ (p ++ (e.raw ++ q)).length + 1 := by
    rw [List.length_append]; omega
  have hf2 : (e.raw ++ q ++ []).length < (p ++ (e.raw ++ q)).length + 1 - p.length := by
    simp only [List.length_append, List.length_nil]; omega
  obtain ⟨fuel2, h1, hlt⟩ := showLoop_escape_cmds ps o X Y e q [] he hqe hql _ s p
    (0 + p.length) true hpl hf2
  obtain ⟨k, rfl⟩ : ∃ k, fuel2 = k + 1 := ⟨fuel2 - 1, by omega⟩
  have hloop : showLoop ps o X Y ((p ++ (e.raw ++ q)).length + 1) s (p ++ (e.raw ++ q)) [] 0
      true = some (emit (labelCmds p
        ++ e.cmds ps s o X Y (firstCount true o p.length)) s, q) := by
    rw [showLoop_literal_sub ps o X Y s true _ (e.raw ++ q) p [] 0 hpe
      (by simp [MAXBUFF]; omega) hf, List.nil_append]
    rw [List.append_nil] at h1
    rw [h1, showLoop_nil]
    simp only [Nat.zero_add]
  simp only [blHPGLShowText, hloop, flush_eq_emit, fputs_eq_emit, emit_emit, hl, ne_eq,
    not_false_eq_true, if_true]

theorem sprintf_shifted (w h : REAL) (run : List Char) (hrn : NUL ∉ run) :
    Cmd.sprintf (.shifted w h run)
      = ['P', 'U', ';', 'S', 'I'] ++ fmtF 6 w ++ [','] ++ fmtF 6 (h / 2) ++ [';', 'L', 'B']
          ++ run ++ ['\\', ';', 'P', 'U', ';', 'S', 'I'] ++ fmtF 6 w ++ [','] ++ fmtF 6 h
          ++ [';'] := by
  simp only [Cmd.sprintf, cstr_of_not_mem run hrn]
  rfl

/-- C26: in horizontal orientation, for escape-free `p` and `q` and a non-empty
run without closing brace (all shorter than 159 characters), `blHPGLShowText`
on `p^{run}q` writes, in order and nothing else: the label `p` (if `p` is not
empty); the position (XBase + |p|*W, YBase + H/2); one command holding the SI
for (widthCm, heightCm/2), the label `run` and the SI for (widthCm, heightCm);
the position (XBase + (|p|+|run|)*W, YBase); the label `q` (if not empty); a
newline.  With the underscore the first position has y = YBase - H/4.  The
divisions are those of C on integers. -/
theorem C26_shifted_run_horizontal (ps : Plotting) (s : HPGLState) (p run q : List Char)
    (m : Char) (XBase YBase : Int) (hm : m = '^' ∨ m = '_') (hp : EscapeFree p)
    (hpl : p.length < 159) (hq : EscapeFree q) (hql : q.length < 159) (hrne : run ≠ [])
    (hr : RBRACE ∉ run) (hrn : NUL ∉ run) (hrl : run.length < 159) :
    blHPGLShowText ps s (p ++ [m, LBRACE] ++ run ++ [RBRACE] ++ q) false XBase YBase
      = some (emit (labelCmds p
          ++ [.shiftPos (XBase + (p.length : Int) * s.sFontWidth)
                (if m = '^' then YBase + Int.tdiv s.sFontHeight 2
                  else YBase - Int.tdiv s.sFontHeight 4),
              .shifted s.sFontWcm s.sFontHcm run,
              .shiftPos (XBase + ((p.length + run.length : Nat) : Int) * s.sFontWidth) YBase]
          ++ labelCmds q ++ [.newline]) s)
    ∧ Cmd.sprintf (.shifted s.sFontWcm s.sFontHcm run)
      = ['P', 'U', ';', 'S', 'I'] ++ fmtF 6 s.sFontWcm ++ [','] ++ fmtF 6 (s.sFontHcm / 2)
          ++ [';', 'L', 'B'] ++ run ++ ['\\', ';', 'P', 'U', ';', 'S', 'I']
          ++ fmtF 6 s.sFontWcm ++ [','] ++ fmtF 6 s.sFontHcm ++ [';'] := by
  refine ⟨?_, sprintf_shifted _ _ run hrn⟩
  have h := showText_one_escape ps s false XBase YBase (.shiftRun m run) p q
    ⟨hm, hr, hrn, hrl⟩ hp hpl hq hql
  have et : p ++ [m, LBRACE] ++ run ++ [RBRACE] ++ q = p ++ ((Esc.shiftRun m run).raw ++ q) := by
    simp [Esc.raw]
  rw [et, h]
  simp only [Esc.cmds, firstCount, shiftedPos, resetPos, runCmds, hrne, Bool.and_false,
    Bool.false_eq_true, if_false, decide_eq_true_eq, List.append_assoc, List.singleton_append,
    List.cons_append, List.nil_append]

theorem C26_shifted_run_horizontal_witness :
    ('_' = '^' ∨ '_' = '_') ∧ EscapeFree ['H'] ∧ ['H'].length < 159 ∧ EscapeFree ['O']
      ∧ ['O'].length < 159 ∧ ['2'] ≠ [] ∧ RBRACE ∉ ['2'] ∧ NUL ∉ ['2'] ∧ ['2'].length < 159
    ∧ (blHPGLShowText demoPlot demoState (['H'] ++ ['_', LBRACE] ++ ['2'] ++ [RBRACE] ++ ['O'])
          false 5000 5000
        = some (emit (labelCmds ['H']
            ++ [.shiftPos (5000 + (['H'].length : Int) * demoState.sFontWidth)
                  (if '_' = '^' then 5000 + Int.tdiv demoState.sFontHeight 2
                    else 5000 - Int.tdiv demoState.sFontHeight 4),
                .shifted demoState.sFontWcm demoState.sFontHcm ['2'],
                .shiftPos (5000 + ((['H'].length + ['2'].length : Nat) : Int)
                  * demoState.sFontWidth) 5000]
            ++ labelCmds ['O'] ++ [.newline]) demoState)
      ∧ Cmd.sprintf (.shifted demoState.sFontWcm demoState.sFontHcm ['2'])
        = ['P', 'U', ';', 'S', 'I'] ++ fmtF 6 demoState.sFontWcm ++ [',']
            ++ fmtF 6 (demoState.sFontHcm / 2) ++ [';', 'L', 'B'] ++ ['2']
            ++ ['\\', ';', 'P', 'U', ';', 'S', 'I'] ++ fmtF 6 demoState.sFontWcm ++ [',']
            ++ fmtF 6 demoState.sFontHcm ++ [';']) :=
  ⟨by decide, by decide, by decide, by decide, by decide, by decide, by decide, by decide,
    by decide,
    C26_shifted_run_horizontal demoPlot demoState ['H'] ['2'] ['O'] '_' 5000 5000 (by decide)
      (by decide) (by decide) (by decide) (by decide) (by decide) (by decide) (by decide)
      (by decide)⟩

theorem payloadLen_nil : payloadLen [] = 0 := rfl

theorem payloadLen_cons (c : Cmd) (cs : List Cmd) :
    payloadLen (c :: cs) = c.payload.length + payloadLen cs := by
  simp [payloadLen]

theorem payloadLen_append (a b : List Cmd) :
    payloadLen (a ++ b) = payloadLen a + payloadLen b := by
  simp [payloadLen]

theorem payloadLen_labelCmds (b : List Char) (hn : NUL ∉ b) :
    payloadLen (labelCmds b) = b.length := by
  unfold labelCmds
  split
  · next h => rw [h]; rfl
  · simp [payloadLen, Cmd.payload, cstr_of_not_mem b hn]

theorem payloadLen_runCmds (ps : Plotting) (s : HPGLState) (o : Bool) (run : List Char)
    (hn : NUL ∉ run) : payloadLen (runCmds ps s o run) = run.length := by
  unfold runCmds
  split
  · next h => rw [h]; rfl
  · simp [payloadLen, Cmd.payload, cstr_of_not_mem run hn]

theorem posCounts_cons (ps : Plotting) (s : HPGLState) (o : Bool) (X Y : Int) (c : Cmd)
    (cs : List Cmd) (k : Nat) :
    PosCounts ps s o X Y k (c :: cs)
      ↔ posOk ps s o X Y k c ∧ PosCounts ps s o X Y (k + c.payload.length) cs := Iff.rfl

theorem posCounts_append (ps : Plotting) (s : HPGLState) (o : Bool) (X Y : Int) :
    ∀ (a b : List Cmd) (k : Nat),
      PosCounts ps s o X Y k (a ++ b)
        ↔ PosCounts ps s o X Y k a ∧ PosCounts ps s o X Y (k + payloadLen a) b := by
  intro a
  induction a with
  | nil =>
    intro b k
    rw [List.nil_append, payloadLen_nil, Nat.add_zero]
    exact ⟨fun h => ⟨trivial, h⟩, fun h => h.2⟩
  | cons c a ih =>
    intro b k
    rw [List.cons_append, posCounts_cons, posCounts_cons, ih, payloadLen_cons, Nat.add_assoc,
      and_assoc]

theorem posCounts_split (ps : Plotting) (s : HPGLState) (o : Bool) (X Y : Int)
    (cmds pre post : List Cmd) (c : Cmd) (k : Nat) (h : PosCounts ps s o X Y k cmds)
    (hsplit : cmds = pre ++ c :: post) : posOk ps s o X Y (k + payloadLen pre) c := by
  subst hsplit
  exact ((posCounts_append ps s o X Y pre (c :: post) k).mp h).2.1

theorem posCounts_emit (ps : Plotting) (s : HPGLState) (o : Bool) (X Y : Int)
    (pre : List Cmd) :
    ∀ (cmds : List Cmd) (k : Nat),
      PosCounts ps (emit pre s) o X Y k cmds ↔ PosCounts ps s o X Y k cmds := by
  intro cmds
  induction cmds with
  | nil => intro k; exact Iff.rfl
  | cons c cs ih =>
    intro k
    have hc : posOk ps (emit pre s) o X Y k c ↔ posOk ps s o X Y k c := by
      cases c <;> exact Iff.rfl
    rw [posCounts_cons, posCounts_cons, ih, hc]

theorem posCounts_labelCmds (ps : Plotting) (s : HPGLState) (o : Bool) (X Y : Int)
    (b : List Char) (k : Nat) : PosCounts ps s o X Y k (labelCmds b) := by
  unfold labelCmds
  split
  · trivial
  · exact ⟨trivial, trivial⟩

theorem posCounts_runCmds (ps : Plotting) (s : HPGLState) (o : Bool) (X Y : Int)
    (b : List Char) (k : Nat) : PosCounts ps s o X Y k (runCmds ps s o b) := by
  unfold runCmds
  split
  · trivial
  · exact ⟨trivial, trivial⟩

theorem posOk_shiftedPos (ps : Plotting) (s : HPGLState) (o r : Bool) (X Y : Int) (k : Nat) :
    posOk ps s o X Y k (shiftedPos ps s o r X Y (k + if o then 1 else 0)) := by
  cases o <;> simp [shiftedPos, posOk]

theorem posOk_resetPos (ps : Plotting) (s : HPGLState) (o : Bool) (X Y : Int) (k : Nat) :
    posOk ps s o X Y k (resetPos ps s o X Y (k + if o then 1 else 0)) := by
  cases o <;> simp [resetPos, posOk]

theorem payload_shiftedPos (ps : Plotting) (s : HPGLState) (o r : Bool) (X Y : Int) (c : Nat) :
    (shiftedPos ps s o r X Y c).payload = [] := by
  unfold shiftedPos
  split <;> rfl

theorem payload_resetPos (ps : Plotting) (s : HPGLState) (o : Bool) (X Y : Int) (c : Nat) :
    (resetPos ps s o X Y c).payload = [] := by
  unfold resetPos
  split <;> rfl

theorem posCounts_shift (ps : Plotting) (s : HPGLState) (o r : Bool) (X Y : Int)
    (run : List Char) (hrn : NUL ∉ run) (k : Nat) :
    PosCounts ps s o X Y k
      ([shiftedPos ps s o r X Y (k + if o then 1 else 0)] ++ runCmds ps s o run
        ++ [resetPos ps s o X Y ((k + if o then 1 else 0) + run.length)])
    ∧ payloadLen ([shiftedPos ps s o r X Y (k + if o then 1 else 0)] ++ runCmds ps s o run
        ++ [resetPos ps s o X Y ((k + if o then 1 else 0) + run.length)]) = run.length := by
  have e1 : (k + if o then 1 else 0) + run.length
      = (k + run.length) + if o then 1 else 0 := by omega
  have hp1 : payloadLen [shiftedPos ps s o r X Y (k + if o then 1 else 0)] = 0 := by
    rw [payloadLen_cons, payload_shiftedPos]; rfl
  have hp2 : payloadLen ([shiftedPos ps s o r X Y (k + if o then 1 else 0)]
      ++ runCmds ps s o run) = run.length := by
    rw [payloadLen_append, hp1, payloadLen_runCmds ps s o run hrn, Nat.zero_add]
  have hp3 : payloadLen [resetPos ps s o X Y ((k + if o then 1 else 0) + run.length)] = 0 := by
    rw [payloadLen_cons, payload_resetPos]; rfl
  constructor
  · rw [posCounts_append, posCounts_append, hp1, hp2]
    refine ⟨⟨⟨posOk_shiftedPos ps s o r X Y k, trivial⟩, posCounts_runCmds ps s o X Y _ _⟩, ?_,
      trivial⟩
    rw [e1]
    exact posOk_resetPos ps s o X Y (k + run.length)
  · rw [payloadLen_append, hp2, hp3, Nat.add_zero]

/-- The commands of a well-formed escape agree with the count of characters
rendered before them, and hold the characters that the escape contributes. -/
theorem posCounts_esc (ps : Plotting) (s : HPGLState) (o : Bool) (X Y : Int) (e : Esc)
    (he : e.WellFormed) (k : Nat) :
    PosCounts ps s o X Y k (e.cmds ps s o X Y (k + if o then 1 else 0))
    ∧ payloadLen (e.cmds ps s o X Y (k + if o then 1 else 0)) = e.plain.length := by
  cases e with
  | greek G => exact ⟨⟨trivial, trivial⟩, rfl⟩
  | shiftChar m G =>
    obtain ⟨_, hG, _⟩ := he
    have hGn : NUL ∉ [G] := by
      simp only [List.mem_singleton]
      exact fun h => hG h.symm
    exact posCounts_shift ps s o _ X Y [G] hGn k
  | shiftRun m run =>
    obtain ⟨_, _, hrn, _⟩ := he
    exact posCounts_shift ps s o _ X Y run hrn k

theorem esc_cmds_count (ps : Plotting) (s : HPGLState) (o : Bool) (X Y : Int) (e : Esc)
    (first : Bool) (ch k : Nat) (hch : ch = k + (if o && !first then 1 else 0)) :
    e.cmds ps s o X Y (firstCount first o ch) = e.cmds ps s o X Y (k + if o then 1 else 0) := by
  have hc : ∀ (m : Char) (run : List Char),
      firstCount first o ch = k + if o then 1 else 0 := by
    intro _ _
    subst hch
    cases first <;> cases o <;> simp [firstCount]
  cases e with
  | greek G => rfl
  | shiftChar m G => rw [hc m [G]]
  | shiftRun m run => rw [hc m run]

theorem esc_countAfter (o : Bool) (e : Esc) (first : Bool) (ch k : Nat)
    (hch : ch = k + (if o && !first then 1 else 0)) :
    e.countAfter (firstCount first o ch) ch
      = k + e.plain.length + (if o && !(e.firstAfter first) then 1 else 0) := by
  subst hch
  cases e <;> cases first <;> cases o <;>
    simp [Esc.countAfter, Esc.firstAfter, Esc.plain, firstCount] <;> omega

/-- The walk over escapes and their literal runs, followed by any rest of the
text: the loop arrives at the rest with a count that is the number of
characters rendered so far (one more in vertical orientation once a shifted
run was met), and every position command written on the way agrees with the
number of characters rendered before it. -/
theorem showLoop_counts (ps : Plotting) (o : Bool) (X Y : Int) :
    ∀ (items : List (Esc × List Char)) (fuel : Nat) (s : HPGLState) (b : List Char) (ch : Nat)
      (first : Bool) (k : Nat) (rest : List Char), Literal b →
      (∀ x ∈ items, x.1.WellFormed ∧ Literal x.2) →
      (rawItems items ++ rest).length < fuel →
      ch = k + b.length + (if o && !first then 1 else 0) →
      ∃ fuel2 cmds b2 first2,
        showLoop ps o X Y fuel s (rawItems items ++ rest) b ch first
          = showLoop ps o X Y fuel2 (emit cmds s) rest b2
              (k + (b.length + (strippedItems items).length)
                + (if o && !first2 then 1 else 0)) first2
        ∧ rest.length < fuel2
        ∧ PosCounts ps s o X Y k (cmds ++ labelCmds b2)
        ∧ payloadLen (cmds ++ labelCmds b2) = b.length + (strippedItems items).length := by
  intro items
  induction items with
  | nil =>
    intro fuel s b ch first k rest hb _ hf hch
    refine ⟨fuel, [], b, first, ?_, by simpa [rawItems] using hf, ?_, ?_⟩
    · rw [rawItems, List.nil_append, emit_nil, strippedItems, List.length_nil, Nat.add_zero,
        ← hch]
    · rw [List.nil_append]
      exact posCounts_labelCmds ps s o X Y b k
    · rw [List.nil_append, payloadLen_labelCmds b hb.2.1, strippedItems, List.length_nil,
        Nat.add_zero]
  | cons x items ih =>
    intro fuel s b ch first k rest hb hx hf hch
    obtain ⟨e, q⟩ := x
    have hxe := hx (e, q) (List.mem_cons_self _ _)
    have hrest : ∀ y ∈ items, y.1.WellFormed ∧ Literal y.2 :=
      fun y hy => hx y (List.mem_cons_of_mem _ hy)
    have hraw : rawItems ((e, q) :: items) ++ rest = e.raw ++ q ++ (rawItems items ++ rest) := by
      rw [rawItems, List.append_assoc]
    have hch2 : ch = (k + b.length) + (if o && !first then 1 else 0) := hch
    rw [hraw] at hf ⊢
    obtain ⟨fuelA, h1, hfA⟩ := showLoop_escape_cmds ps o X Y e q (rawItems items ++ rest)
      hxe.1 hxe.2.1 hxe.2.2.2 fuel s b ch first hb.2.2 hf
    rw [esc_cmds_count ps s o X Y e first ch (k + b.length) hch2,
      esc_countAfter o e first ch (k + b.length) hch2] at h1
    obtain ⟨hpe, hle⟩ := posCounts_esc ps s o X Y e hxe.1 (k + b.length)
    have hk : k + b.length + e.plain.length + (if o && !(e.firstAfter first) then 1 else 0)
          + q.length
        = (k + b.length + e.plain.length) + q.length
          + (if o && !(e.firstAfter first) then 1 else 0) := by omega
    obtain ⟨fuel2, cmds2, b2, first2, h2, hf2, hp2, hl2⟩ :=
      ih fuelA (emit (labelCmds b ++ e.cmds ps s o X Y (k + b.length + if o then 1 else 0)) s)
        q _ (e.firstAfter first) (k + b.length + e.plain.length) rest hxe.2 hrest hfA hk
    have hl1 : payloadLen (labelCmds b ++ e.cmds ps s o X Y (k + b.length + if o then 1 else 0))
        = b.length + e.plain.length := by
      rw [payloadLen_append, payloadLen_labelCmds b hb.2.1, hle]
    have hs : (strippedItems ((e, q) :: items)).length
        = e.plain.length + q.length + (strippedItems items).length := by
      rw [strippedItems, List.length_append, List.length_append]
    refine ⟨fuel2,
      labelCmds b ++ e.cmds ps s o X Y (k + b.length + if o then 1 else 0) ++ cmds2, b2, first2,
      ?_, hf2, ?_, ?_⟩
    · rw [h1, h2, emit_emit, hs]
      have hn : k + b.length + e.plain.length + (q.length + (strippedItems items).length)
          = k + (b.length + (e.plain.length + q.length + (strippedItems items).length)) := by
        omega
      rw [hn]
    · rw [List.append_assoc, posCounts_append, hl1]
      refine ⟨?_, ?_⟩
      · rw [posCounts_append, payloadLen_labelCmds b hb.2.1]
        exact ⟨posCounts_labelCmds ps s o X Y b k, hpe⟩
      · rw [← Nat.add_assoc]
        exact (posCounts_emit ps s o X Y _ _ _).mp hp2
    · rw [List.append_assoc, payloadLen_append, hl1, hl2, hs]
      omega

/-- The whole of a well-formed text: `blHPGLShowText` returns, every position
command agrees with the number of characters rendered before it, and the
labels hold as many characters as the markup-stripped text. -/
theorem showText_counts (ps : Plotting) (s : HPGLState) (p0 : List Char)
    (items : List (Esc × List Char)) (o : Bool) (X Y : Int)
    (hp0 : Literal p0) (hitems : ∀ x ∈ items, x.1.WellFormed ∧ Literal x.2) :
    ∃ cmds, blHPGLShowText ps s (p0 ++ rawItems items) o X Y = some (emit cmds s)
      ∧ PosCounts ps s o X Y 0 cmds
      ∧ payloadLen cmds = (p0 ++ strippedItems items).length := by
  have hf : p0.length ≤ (p0 ++ rawItems items).length + 1 := by
    rw [List.length_append]; omega
  have hf2 : (rawItems items ++ []).length
      < (p0 ++ rawItems items).length + 1 - p0.length := by
    rw [List.append_nil, List.length_append]; omega
  obtain ⟨fuel2, cmds, b2, first2, h1, hlt, hp, hl⟩ :=
    showLoop_counts ps o X Y items _ s p0 (0 + p0.length) true 0 [] hp0 hitems hf2
      (by simp)
  obtain ⟨n, rfl⟩ : ∃ n, fuel2 = n + 1 := ⟨fuel2 - 1, by omega⟩
  rw [List.append_nil, showLoop_nil] at h1
  have hloop : showLoop ps o X Y ((p0 ++ rawItems items).length + 1) s
      (p0 ++ rawItems items) [] 0 true = some (emit cmds s, b2) := by
    rw [showLoop_literal_sub ps o X Y s true _ (rawItems items) p0 [] 0
      hp0.1 (by have := hp0.2.2; simp [MAXBUFF]; omega) hf, List.nil_append]
    exact h1
  have hnl : ∀ l : List Cmd, PosCounts ps s o X Y (0 + payloadLen (cmds ++ labelCmds b2))
      (if p0 ++ rawItems items = [] then [] else [Cmd.newline]) := by
    intro _
    split
    · trivial
    · exact ⟨trivial, trivial⟩
  have hnp : payloadLen (if p0 ++ rawItems items = [] then [] else [Cmd.newline]) = 0 := by
    split <;> rfl
  refine ⟨cmds ++ labelCmds b2 ++ (if p0 ++ rawItems items = [] then [] else [Cmd.newline]),
    ?_, ?_, ?_⟩
  · simp only [blHPGLShowText, hloop, flush_eq_emit, fputs_eq_emit]
    by_cases he : p0 ++ rawItems items = []
    · have hl : (p0 ++ rawItems items).length = 0 := by rw [he]; rfl
      simp only [hl, he, ne_eq, not_true_eq_false, if_false, if_true, List.append_nil,
        List.length_nil, emit_emit]
    · have hl : (p0 ++ rawItems items).length ≠ 0 := fun h => he (List.length_eq_zero.mp h)
      simp only [hl, he, ne_eq, not_false_eq_true, if_true, if_false, emit_emit]
  · rw [posCounts_append]
    exact ⟨hp, hnl []⟩
  · rw [payloadLen_append, hnp, hl, Nat.add_zero, List.length_append]

theorem charAt_of_le (text : List Char) (i : Nat) (h : text.length ≤ i) :
    charAt text i = NUL := by
  unfold charAt
  simp [List.getD_eq_getElem?_getD, List.getElem?_eq_none h]

theorem drop_eq_charAt_cons (text : List Char) (i : Nat) (h : i < text.length) :
    text.drop i = charAt text i :: text.drop (i + 1) := by
  unfold charAt
  rw [List.drop_eq_getElem_cons h]
  simp [List.getD_eq_getElem?_getD, List.getElem?_eq_getElem h]

theorem headD_drop_charAt (text : List Char) (i : Nat) :
    (text.drop i).headD NUL = charAt text i := by
  by_cases h : i < text.length
  · rw [drop_eq_charAt_cons text i h]; rfl
  · rw [charAt_of_le text i (by omega), List.drop_eq_nil_of_le (by omega)]; rfl

theorem lt_of_charAt_ne (text : List Char) (i : Nat) (h : charAt text i ≠ NUL) :
    i < text.length := by
  by_contra hc
  exact h (charAt_of_le text i (by omega))

/-- The braced loop with the index stops where the braced loop on the rest of
the text stops, with the same accumulator and count. -/
theorem collectRunLog_eq (text : List Char) :
    ∀ (fuel i : Nat) (buffer : List Char) (chcount : Nat) (log : List Access)
      (r : Nat × List Char × Nat × List Access),
      collectRunLog text fuel i buffer chcount log = some r →
      collectRun (text.drop (i + 1)) buffer chcount = (text.drop r.1, r.2.1, r.2.2.1) := by
  intro fuel
  induction fuel with
  | zero => intro i buffer chcount log r h; simp [collectRunLog] at h
  | succ fuel ih =>
    intro i buffer chcount log r h
    by_cases hi : i + 1 < text.length
    · rw [drop_eq_charAt_cons text (i + 1) hi]
      simp only [collectRunLog] at h
      by_cases h1 : charAt text (i + 1) ≠ RBRACE
      · by_cases h2 : charAt text (i + 1) ≠ NUL ∧ buffer.length < MAXBUFF - 1
        · rw [if_pos h1, if_pos h2] at h
          rw [collectRun, if_pos ⟨h1, h2.1, h2.2⟩]
          exact ih _ _ _ _ _ h
        · rw [if_pos h1, if_neg h2] at h
          have hn : ¬ (charAt text (i + 1) ≠ RBRACE ∧ charAt text (i + 1) ≠ NUL
              ∧ buffer.length < MAXBUFF - 1) := fun hc => h2 hc.2
          rw [collectRun, if_neg hn]
          cases h
          rw [drop_eq_charAt_cons text (i + 1) hi]
      · rw [if_neg h1] at h
        have hn : ¬ (charAt text (i + 1) ≠ RBRACE ∧ charAt text (i + 1) ≠ NUL
            ∧ buffer.length < MAXBUFF - 1) := fun hc => h1 hc.1
        rw [collectRun, if_neg hn]
        cases h
        rw [drop_eq_charAt_cons text (i + 1) hi]
    · have hN : charAt text (i + 1) = NUL := charAt_of_le text (i + 1) (by omega)
      have h1 : charAt text (i + 1) ≠ RBRACE := by rw [hN]; decide
      have h2 : ¬ (charAt text (i + 1) ≠ NUL ∧ buffer.length < MAXBUFF - 1) :=
        fun hc => hc.1 hN
      simp only [collectRunLog] at h
      rw [if_pos h1, if_neg h2] at h
      cases h
      rw [List.drop_eq_nil_of_le (by omega)]
      rfl

/-- The braced loop with the index returns when it starts below the
terminator. -/
theorem collectRunLog_total (text : List Char) :
    ∀ (fuel i : Nat) (buffer : List Char) (chcount : Nat) (log : List Access),
      i < text.length → text.length - i ≤ fuel →
      ∃ r, collectRunLog text fuel i buffer chcount log = some r := by
  intro fuel
  induction fuel with
  | zero => intro i buffer chcount log hi hf; omega
  | succ fuel ih =>
    intro i buffer chcount log hi hf
    simp only [collectRunLog]
    by_cases h1 : charAt text (i + 1) ≠ RBRACE
    · by_cases h2 : charAt text (i + 1) ≠ NUL ∧ buffer.length < MAXBUFF - 1
      · rw [if_pos h1, if_pos h2]
        have := lt_of_charAt_ne text (i + 1) h2.1
        exact ih _ _ _ _ this (by omega)
      · rw [if_pos h1, if_neg h2]
        exact ⟨_, rfl⟩
    · rw [if_neg h1]
      exact ⟨_, rfl⟩

/-- The walk with the index writes what the walk on the rest of the text
writes. -/
theorem showLoopLog_eq (ps : Plotting) (o : Bool) (X Y : Int) (text : List Char) :
    ∀ (fuel : Nat) (s : HPGLState) (i : Nat) (buffer : List Char) (chcount : Nat)
      (first : Bool) (log : List Access),
      showLoop ps o X Y fuel s (text.drop i) buffer chcount first
        = (showLoopLog ps o X Y text fuel s i buffer chcount first log).map
            (fun r => (r.1, r.2.1)) := by
  intro fuel
  induction fuel with
  | zero => intro s i buffer chcount first log; rfl
  | succ fuel ih =>
    intro s i buffer chcount first log
    by_cases hi : i < text.length
    · rw [drop_eq_charAt_cons text i hi]
      by_cases hb : buffer.length < MAXBUFF - 1
      · have hg : ¬ ¬ (i < text.length ∧ buffer.length < MAXBUFF - 1) :=
          fun hc => hc ⟨hi, hb⟩
        have hg2 : ¬ ¬ buffer.length < MAXBUFF - 1 := fun hc => hc hb
        simp only [showLoop, showLoopLog]
        rw [if_neg hg, if_neg hg2]
        by_cases hc1 : charAt text i = '\\'
        · rw [if_pos hc1, if_pos hc1, headD_drop_charAt, List.drop_drop]
          exact ih _ _ _ _ _ _
        · rw [if_neg hc1, if_neg hc1]
          by_cases hc2 : charAt text i = '^' ∨ charAt text i = '_'
          · rw [if_pos hc2, if_pos hc2, headD_drop_charAt]
            by_cases hbr : charAt text (i + 1) = LBRACE
            · have hlt : i + 1 < text.length :=
                lt_of_charAt_ne text (i + 1) (by rw [hbr]; decide)
              obtain ⟨r, hr⟩ := collectRunLog_total text (text.length + 1) (i + 1) []
                (if first && o then chcount + 1 else chcount)
                (log ++ [.read .switch i] ++ flushLog buffer ++ [.read .brace (i + 1)])
                hlt (by omega)
              have hc := collectRunLog_eq text _ _ _ _ _ r hr
              obtain ⟨i2, b2, c2, log2⟩ := r
              simp only [if_pos hbr, hr, List.drop_drop]
              rw [hc]
              simp only [List.drop_drop]
              exact ih _ _ _ _ _ _
            · simp only [if_neg hbr, List.drop_drop]
              exact ih _ _ _ _ _ _
          · rw [if_neg hc2, if_neg hc2]
            exact ih _ _ _ _ _ _
      · have hg : ¬ (i < text.length ∧ buffer.length < MAXBUFF - 1) := fun hc => hb hc.2
        simp only [showLoop, showLoopLog]
        rw [if_pos hg, if_pos hb]
        rfl
    · have hg : ¬ (i < text.length ∧ buffer.length < MAXBUFF - 1) := fun hc => hi hc.1
      rw [List.drop_eq_nil_of_le (by omega)]
      simp only [showLoop, showLoopLog]
      rw [if_pos hg]
      rfl

/-- The code with the accesses writes what `blHPGLShowText` writes. -/
theorem showTextLog_eq (ps : Plotting) (s : HPGLState) (text : List Char) (o : Bool)
    (X Y : Int) :
    blHPGLShowText ps s text o X Y
      = (blHPGLShowTextLog ps s text o X Y).map Prod.fst := by
  have h := showLoopLog_eq ps o X Y text (text.length + 1) s 0 [] 0 true []
  rw [List.drop_zero] at h
  unfold blHPGLShowText blHPGLShowTextLog
  rw [h]
  cases showLoopLog ps o X Y text (text.length + 1) s 0 [] 0 true [] with
  | none => rfl
  | some r => rfl

theorem logInv_nil (text : List Char) (bound : Nat) : LogInv text bound [] :=
  ⟨List.Pairwise.nil, fun _ h => absurd h (List.not_mem_nil _)⟩

theorem logInv_read (text : List Char) (bound : Nat) (log : List Access) (site : Site)
    (k : Nat) (h : LogInv text bound log) (hk : k ≤ text.length) (hb : bound ≤ k + 1)
    (ha : site.advances = true → bound ≤ k) :
    LogInv text (k + 1) (log ++ [.read site k]) := by
  constructor
  · rw [List.pairwise_append]
    refine ⟨h.1, List.pairwise_singleton _ _, ?_⟩
    intro x hx y hy
    rw [List.mem_singleton] at hy
    subst hy
    have hx2 := (h.2 x hx).2
    cases x with
    | read s i =>
      have hlt : i < bound := hx2
      exact ⟨by omega, fun hadv => by have := ha hadv; omega⟩
    | put j => trivial
    | nul j => trivial
  · intro a hmem
    rcases List.mem_append.mp hmem with h1 | h1
    · refine ⟨(h.2 a h1).1, ?_⟩
      have hx2 := (h.2 a h1).2
      cases a with
      | read s i =>
        have hlt : i < bound := hx2
        show i < k + 1
        omega
      | put j => trivial
      | nul j => trivial
    · rw [List.mem_singleton] at h1
      subst h1
      exact ⟨hk, Nat.lt_succ_self k⟩

theorem logInv_put (text : List Char) (bound : Nat) (log : List Access) (j : Nat)
    (h : LogInv text bound log) (hj : j < MAXBUFF - 1) :
    LogInv text bound (log ++ [.put j]) := by
  constructor
  · rw [List.pairwise_append]
    refine ⟨h.1, List.pairwise_singleton _ _, ?_⟩
    intro x _ y hy
    rw [List.mem_singleton] at hy
    subst hy
    cases x <;> trivial
  · intro a hmem
    rcases List.mem_append.mp hmem with h1 | h1
    · exact h.2 a h1
    · rw [List.mem_singleton] at h1
      subst h1
      exact ⟨hj, trivial⟩

theorem logInv_flushLog (text : List Char) (bound : Nat) (log : List Access)
    (buffer : List Char) (h : LogInv text bound log) (hj : buffer.length < MAXBUFF) :
    LogInv text bound (log ++ flushLog buffer) := by
  unfold flushLog
  split
  · constructor
    · rw [List.pairwise_append]
      refine ⟨h.1, List.pairwise_singleton _ _, ?_⟩
      intro x _ y hy
      rw [List.mem_singleton] at hy
      subst hy
      cases x <;> trivial
    · intro a hmem
      rcases List.mem_append.mp hmem with h1 | h1
      · exact h.2 a h1
      · rw [List.mem_singleton] at h1
        subst h1
        exact ⟨hj, trivial⟩
  · rw [List.append_nil]
    exact h

/-- The braced loop returns, stops at an index up to the terminator, and keeps
its accesses in order and within bounds. -/
theorem collectRunLog_inv (text : List Char) :
    ∀ (fuel i : Nat) (buffer : List Char) (chcount : Nat) (log : List Access),
      i < text.length → text.length - i ≤ fuel → LogInv text (i + 1) log →
      buffer.length ≤ MAXBUFF - 1 →
      ∃ i2 b2 c2 log2, collectRunLog text fuel i buffer chcount log = some (i2, b2, c2, log2)
        ∧ i < i2 ∧ i2 ≤ text.length ∧ LogInv text (i2 + 1) log2
        ∧ b2.length ≤ MAXBUFF - 1 := by
  intro fuel
  induction fuel with
  | zero => intro i buffer chcount log hi hf; omega
  | succ fuel ih =>
    intro i buffer chcount log hi hf hlog hbuf
    have hk : i + 1 ≤ text.length := hi
    have hl1 := logInv_read text (i + 1) log .runTest (i + 1) hlog hk (by omega) (fun _ => by omega)
    simp only [collectRunLog]
    by_cases h1 : charAt text (i + 1) ≠ RBRACE
    · have hl2 := logInv_read text (i + 1 + 1) _ .runEnd (i + 1) hl1 hk (by omega)
        (fun hadv => by simp [Site.advances] at hadv)
      by_cases h2 : charAt text (i + 1) ≠ NUL ∧ buffer.length < MAXBUFF - 1
      · rw [if_pos h1, if_pos h2]
        have hlt := lt_of_charAt_ne text (i + 1) h2.1
        have hl3 := logInv_read text (i + 1 + 1) _ .copy (i + 1) hl2 hk (by omega)
          (fun hadv => by simp [Site.advances] at hadv)
        have hl4 := logInv_put text (i + 1 + 1) _ buffer.length hl3 h2.2
        obtain ⟨i2, b2, c2, log2, hr, hlt2, hrest⟩ := ih (i + 1) (buffer ++ [charAt text (i + 1)])
          (chcount + 1) _ hlt (by omega) hl4
          (by rw [List.length_append, List.length_singleton]; omega)
        exact ⟨i2, b2, c2, log2, hr, by omega, hrest⟩
      · rw [if_pos h1, if_neg h2]
        exact ⟨_, _, _, _, rfl, Nat.lt_succ_self i, hk, hl2, hbuf⟩
    · rw [if_neg h1]
      exact ⟨_, _, _, _, rfl, Nat.lt_succ_self i, hk, hl1, hbuf⟩

/-- The walk returns with fuel beyond the distance to the terminator, and keeps
its accesses in order and within bounds. -/
theorem showLoopLog_inv (ps : Plotting) (o : Bool) (X Y : Int) (text : List Char) :
    ∀ (fuel : Nat) (s : HPGLState) (i : Nat) (buffer : List Char) (chcount : Nat)
      (first : Bool) (log : List Access),
      text.length - i < fuel → LogInv text i log → buffer.length ≤ MAXBUFF - 1 →
      ∃ s2 b2 log2 bound, showLoopLog ps o X Y text fuel s i buffer chcount first log
          = some (s2, b2, log2)
        ∧ b2.length ≤ MAXBUFF - 1 ∧ LogInv text bound log2 := by
  have hM : MAXBUFF = 160 := rfl
  intro fuel
  induction fuel with
  | zero => intro s i buffer chcount first log hf; omega
  | succ fuel ih =>
    intro s i buffer chcount first log hf hlog hbuf
    simp only [showLoopLog]
    by_cases hg : i < text.length ∧ buffer.length < MAXBUFF - 1
    · rw [if_neg (fun hc => hc hg)]
      obtain ⟨hi, hb⟩ := hg
      have hl1 := logInv_read text i log .switch i hlog (by omega) (by omega) (fun _ => by omega)
      have hl2 := logInv_flushLog text (i + 1) _ buffer hl1 (by omega)
      by_cases hc1 : charAt text i = '\\'
      · rw [if_pos hc1]
        have hl3 := logInv_read text (i + 1) _ .greek (i + 1) hl2 (by omega) (by omega)
          (fun _ => by omega)
        exact ih _ (i + 1 + 1) [] _ _ _ (by omega) hl3 (by simp)
      · rw [if_neg hc1]
        by_cases hc2 : charAt text i = '^' ∨ charAt text i = '_'
        · rw [if_pos hc2]
          have hl3 := logInv_read text (i + 1) _ .brace (i + 1) hl2 (by omega) (by omega)
            (fun _ => by omega)
          by_cases hbr : charAt text (i + 1) = LBRACE
          · have hlt : i + 1 < text.length :=
              lt_of_charAt_ne text (i + 1) (by rw [hbr]; decide)
            obtain ⟨i2, b2, c2, log2, hr, hlt2, hi2, hl4, hb2⟩ :=
              collectRunLog_inv text (text.length + 1) (i + 1) []
                (if first && o then chcount + 1 else chcount) _ hlt (by omega) hl3 (by simp)
            simp only [if_pos hbr, hr]
            have hl5 := logInv_flushLog text (i2 + 1) _ b2 hl4 (by omega)
            exact ih _ (i2 + 1) [] _ _ _ (by omega) hl5 (by simp)
          · simp only [if_neg hbr]
            have hl4 := logInv_read text (i + 1 + 1) _ .copy (i + 1) hl3 (by omega) (by omega)
              (fun hadv => by simp [Site.advances] at hadv)
            have hl5 := logInv_put text (i + 1 + 1) _ 0 hl4 (by omega)
            have hl6 := logInv_flushLog text (i + 1 + 1) _ [charAt text (i + 1)] hl5
              (by simp [hM])
            exact ih _ (i + 1 + 1) [] _ _ _ (by omega) hl6 (by simp)
        · rw [if_neg hc2]
          have hl3 := logInv_read text (i + 1) _ .copy i hl1 (by omega) (by omega)
            (fun hadv => by simp [Site.advances] at hadv)
          have hl4 := logInv_put text (i + 1) _ buffer.length hl3 hb
          exact ih _ (i + 1) _ _ _ _ (by omega) hl4
            (by rw [List.length_append, List.length_singleton]; omega)
    · rw [if_pos hg]
      exact ⟨_, _, _, i, rfl, hbuf, hlog⟩

/-- The code `blHPGLShowText` returns for every text, writes what the walk on
the rest of the text writes, and its accesses are in order and within
bounds. -/
theorem showTextLog_inv (ps : Plotting) (s : HPGLState) (text : List Char) (o : Bool)
    (X Y : Int) :
    ∃ s2 log bound, blHPGLShowTextLog ps s text o X Y = some (s2, log)
      ∧ blHPGLShowText ps s text o X Y = some s2 ∧ LogInv text bound log := by
  have hM : MAXBUFF = 160 := rfl
  obtain ⟨s2, b2, log2, bound, h, hb, hl⟩ :=
    showLoopLog_inv ps o X Y text (text.length + 1) s 0 [] 0 true [] (by omega)
      (logInv_nil text 0) (by simp)
  have hlog : blHPGLShowTextLog ps s text o X Y
      = some (if text.length ≠ 0 then fputs .newline (flush b2 s2) else flush b2 s2,
          log2 ++ flushLog b2) := by
    simp only [blHPGLShowTextLog, h]
  refine ⟨_, _, bound, hlog, ?_, logInv_flushLog text bound log2 b2 hl (by omega)⟩
  rw [showTextLog_eq, hlog]
  rfl

theorem readAt_lt_of_before (site : Site) (hs : site.advances = true) (a b : Access)
    (h : Access.Before a b) (x : Nat) (hx : x ∈ Access.readAt site a) (y : Nat)
    (hy : y ∈ Access.readAt site b) : x < y := by
  cases a with
  | read sa i =>
    cases b with
    | read sb k =>
      simp only [Access.readAt, Option.mem_def] at hx hy
      split at hx
      · split at hy
        · rename_i h1 h2
          cases hx
          cases hy
          subst h2
          exact h.2 hs
        · cases hy
      · cases hx
    | put j => simp [Access.readAt] at hy
    | nul j => simp [Access.readAt] at hy
  | put j => simp [Access.readAt] at hx
  | nul j => simp [Access.readAt] at hx

/-- C31: for every text and either orientation `blHPGLShowText` returns (the
walk with the fuel `strlen(text) + 1` ends), and every index at which it
reads `text`, at any of the six places where the code reads it, is at most
`strlen(text)`, the index of the terminator.  The reads are in order of
index: the index never decreases, and each read that follows an `i++` or is a
`text[++i]` has a greater index than every read before it, so the indices read
by the `switch` of the outer loop increase strictly, and so do the indices
read by the test of the braced loop.  On the texts made of a backslash alone
and of a caret alone the last read is at index 1, the terminator; on the text
`^{a`, an unterminated braced run, the reads go up to index 3, the
terminator, and stop there. -/
theorem C31_reads_up_to_terminator (ps : Plotting) (s : HPGLState) (text : List Char)
    (orientation : Bool) (XBase YBase : Int) :
    (∃ s2 log, blHPGLShowTextLog ps s text orientation XBase YBase = some (s2, log)
      ∧ blHPGLShowText ps s text orientation XBase YBase = some s2
      ∧ (∀ site i, Access.read site i ∈ log → i ≤ text.length)
      ∧ log.Pairwise Access.Before
      ∧ (log.filterMap (Access.readAt .switch)).Pairwise (fun x y => x < y)
      ∧ (log.filterMap (Access.readAt .runTest)).Pairwise (fun x y => x < y))
    ∧ (blHPGLShowTextLog ps s ['\\'] orientation XBase YBase).map Prod.snd
      = some [.read .switch 0, .read .greek 1]
    ∧ (blHPGLShowTextLog ps s ['^'] orientation XBase YBase).map Prod.snd
      = some [.read .switch 0, .read .brace 1, .read .copy 1, .put 0, .nul 1]
    ∧ (blHPGLShowTextLog ps s ['^', LBRACE, 'a'] orientation XBase YBase).map Prod.snd
      = some [.read .switch 0, .read .brace 1, .read .runTest 2, .read .runEnd 2,
          .read .copy 2, .put 0, .read .runTest 3, .read .runEnd 3, .nul 1] := by
  refine ⟨?_, rfl, rfl, rfl⟩
  obtain ⟨s2, log, bound, h1, h2, hp, hb⟩ := showTextLog_inv ps s text orientation XBase YBase
  refine ⟨s2, log, h1, h2, fun site i hmem => (hb _ hmem).1, hp, ?_, ?_⟩
  · exact List.Pairwise.filterMap _ (readAt_lt_of_before .switch rfl) hp
  · exact List.Pairwise.filterMap _ (readAt_lt_of_before .runTest rfl) hp

set_option maxRecDepth 1000000 in
/-- C32: for every text and either orientation `blHPGLShowText` returns, every
write `buffer[j++] = text[i]` it makes is at an index `j` with `j + 1 <= 159`,
so that the accumulator holds at most 159 characters after it, and every write
`buffer[j] = '\0'` before a flush is at an index `j <= 159`, inside the 160
bytes of `buffer`.  On a text of 200 letters the last accesses are the read
and the write of the character of index 158 and the write of the NUL at index
159. -/
theorem C32_buffer_writes_within_capacity (ps : Plotting) (s : HPGLState) (text : List Char)
    (orientation : Bool) (XBase YBase : Int) :
    (∃ s2 log, blHPGLShowTextLog ps s text orientation XBase YBase = some (s2, log)
      ∧ blHPGLShowText ps s text orientation XBase YBase = some s2
      ∧ (∀ j, Access.put j ∈ log → j + 1 ≤ 159)
      ∧ (∀ j, Access.nul j ∈ log → j ≤ 159)
      ∧ MAXBUFF = 160)
    ∧ (blHPGLShowTextLog ps s (List.replicate 200 'a') orientation XBase YBase).map
        (fun r => r.2.drop (r.2.length - 3))
      = some [.read .copy 158, .put 158, .nul 159] := by
  refine ⟨?_, rfl⟩
  obtain ⟨s2, log, bound, h1, h2, _, hb⟩ := showTextLog_inv ps s text orientation XBase YBase
  refine ⟨s2, log, h1, h2, fun j hmem => ?_, fun j hmem => ?_, rfl⟩
  · have h : j < MAXBUFF - 1 := (hb _ hmem).1
    have hM : MAXBUFF = 160 := rfl
    omega
  · have h : j < MAXBUFF := (hb _ hmem).1
    have hM : MAXBUFF = 160 := rfl
    omega

end HPGL
